import Mathlib

/-!
# Gravity simulation: a shallow embedding of `GravitySimulation.cpp`

The program is one C++ file: a `Planet` struct and a `GravitySimulation` class with
`setupPlanets`, `calculateGravity`, `update`, two decorative render functions and `run`.

All numbers in the program are C++ `float`s.  The embedding is written once, over an
arbitrary arithmetic `Arith F` (the operations the source applies to `float`), and is
then instantiated

* at `F32.arith`, a bit-exact model of IEEE 754 binary32 with round-to-nearest-even:
  what `float` is when every operation is rounded once to single precision (no extended
  intermediate precision, no fused multiply-add);
* at `fieldArith` and `orderedArith`, exact arithmetic in a field, the idealisation in
  which the mass "algebraically cancels".

The binary32 model is checked against itself (`F32.round_nearest`: rounding is to nearest,
into canonical form), against textbook values and against results recorded from hardware
(`F32.known_values`, `F32.vectors_agree`); `F32.mul_model` and `F32.div_model` give the
usual relative error `2^-24` of a normal result.

Of SFML the embedding uses: `Vector2f` and its componentwise operators; of `CircleShape`
the radius, origin, position and fill color with their setters and getters, and
`move(offset)`, which sets the position to `position + offset`; of the window whether it
is open, `close()`, and the events `pollEvent` returns.
-/

namespace GravitySim

/-! ## IEEE 754 binary32 -/

/-- A binary32 value.  `fin neg m e` is `(-1)^neg * m * 2^e`; the values produced by the
operations below are canonical: `m < 2^24`, `-149 ≤ e ≤ 104`, and `m < 2^23` only for
`e = -149` (zero and the subnormals).  All NaNs are identified. -/
inductive F32 where
  | nan : F32
  | inf (neg : Bool) : F32
  | fin (neg : Bool) (m : Nat) (e : Int) : F32
  deriving DecidableEq, Repr

namespace F32

/-- Position of the highest set bit (`0` for `0` and `1`), by repeated halving;
the first argument bounds the number of halvings. -/
def log2Aux : Nat → Nat → Nat
  | 0, _ => 0
  | fuel + 1, n => if n < 2 then 0 else log2Aux fuel (n / 2) + 1

/-- Floor of the binary logarithm, for numbers below `2^4096`. -/
def log2 (n : Nat) : Nat := log2Aux 4096 n

/-- Integer square root, bit by bit from bit `i - 1` downwards. -/
def isqrtAux : Nat → Nat → Nat → Nat
  | 0, _, r => r
  | i + 1, n, r => isqrtAux i n (if (r + 2 ^ i) * (r + 2 ^ i) ≤ n then r + 2 ^ i else r)

/-- Floor of the square root. -/
def isqrt (n : Nat) : Nat := isqrtAux (log2 n / 2 + 1) n 0

/-- Round the exact value `(-1)^neg * (num / den) * 2^e` (`den > 0`) to the nearest
binary32, ties to even; overflow gives an infinity, underflow is gradual. -/
def round (neg : Bool) (num den : Nat) (e : Int) : F32 :=
  if num = 0 then fin neg 0 (-149) else
  let l : Int := (log2 num : Int) - (log2 den : Int)
  -- `2^(l-1) < num/den < 2^(l+1)`; `k` is the exact floor of the binary logarithm
  let k : Int := if den * 2 ^ l.toNat ≤ num * 2 ^ (-l).toNat then l else l - 1
  -- exponent of the unit in the last place
  let q : Int := max (k + e - 23) (-149)
  let n' := num * 2 ^ (e - q).toNat
  let d' := den * 2 ^ (q - e).toNat
  let m := n' / d'
  let r := n' % d'
  let m' := if d' < 2 * r ∨ (2 * r = d' ∧ m % 2 = 1) then m + 1 else m
  if m' = 2 ^ 24 then (if 104 < q + 1 then inf neg else fin neg (2 ^ 23) (q + 1))
  else if 104 < q then inf neg else fin neg m' q

/-- Signed integer `(-1)^neg * m * 2^s`. -/
def scaled (neg : Bool) (m : Nat) (s : Int) : Int :=
  if neg then -((m * 2 ^ s.toNat : Nat) : Int) else ((m * 2 ^ s.toNat : Nat) : Int)

/-- Unary minus. -/
def neg : F32 → F32
  | nan => nan
  | inf s => inf (!s)
  | fin s m e => fin (!s) m e

/-- Addition. -/
def add : F32 → F32 → F32
  | nan, _ => nan
  | _, nan => nan
  | inf a, inf b => if a = b then inf a else nan
  | inf a, fin _ _ _ => inf a
  | fin _ _ _, inf b => inf b
  | fin sa ma ea, fin sb mb eb =>
    let e := min ea eb
    let z := scaled sa ma (ea - e) + scaled sb mb (eb - e)
    if z = 0 then fin (sa && sb) 0 (-149) else round (decide (z < 0)) z.natAbs 1 e

/-- Subtraction. -/
def sub (a b : F32) : F32 := add a (neg b)

/-- Multiplication. -/
def mul : F32 → F32 → F32
  | nan, _ => nan
  | _, nan => nan
  | inf a, inf b => inf (xor a b)
  | inf a, fin b m _ => if m = 0 then nan else inf (xor a b)
  | fin a m _, inf b => if m = 0 then nan else inf (xor a b)
  | fin sa ma ea, fin sb mb eb => round (xor sa sb) (ma * mb) 1 (ea + eb)

/-- Division. -/
def div : F32 → F32 → F32
  | nan, _ => nan
  | _, nan => nan
  | inf _, inf _ => nan
  | inf a, fin b _ _ => inf (xor a b)
  | fin a _ _, inf b => fin (xor a b) 0 (-149)
  | fin sa ma ea, fin sb mb eb =>
    if mb = 0 then (if ma = 0 then nan else inf (xor sa sb))
    else round (xor sa sb) ma mb (ea - eb)

/-- Square root, correctly rounded. -/
def sqrt : F32 → F32
  | nan => nan
  | inf s => if s then nan else inf false
  | fin s m e =>
    if m = 0 then fin s 0 (-149)
    else if s then nan
    else
      -- scale to an even exponent with at least 60 extra bits, take the integer root,
      -- and append a sticky bit when the root is inexact
      let k : Int := if (e - 60) % 2 = 0 then 60 else 61
      let n := m * 2 ^ k.toNat
      let r := isqrt n
      round false (2 * r + (if r * r = n then 0 else 1)) 1 ((e - k) / 2 - 1)

/-- The comparison `a < b`; false when either side is NaN. -/
def lt : F32 → F32 → Bool
  | nan, _ => false
  | _, nan => false
  | inf a, inf b => a && !b
  | inf a, fin _ _ _ => a
  | fin _ _ _, inf b => !b
  | fin sa ma ea, fin sb mb eb =>
    decide (scaled sa ma (ea - min ea eb) < scaled sb mb (eb - min ea eb))

/-- The comparison `a ≤ b`; false when either side is NaN. -/
def le : F32 → F32 → Bool
  | nan, _ => false
  | _, nan => false
  | inf a, inf b => a || !b
  | inf a, fin _ _ _ => a
  | fin _ _ _, inf b => !b
  | fin sa ma ea, fin sb mb eb =>
    decide (scaled sa ma (ea - min ea eb) ≤ scaled sb mb (eb - min ea eb))

/-- The value of a decimal literal `num / den` with suffix `f`. -/
def lit (num den : Nat) : F32 := round false num den 0

/-- The value is a zero, of either sign. -/
def isZero : F32 → Bool
  | fin _ m _ => decide (m = 0)
  | _ => false

/-- The value is a NaN. -/
def isNaN : F32 → Bool
  | nan => true
  | _ => false

/-- The value is not NaN and its sign bit is clear. -/
def isNonneg : F32 → Bool
  | nan => false
  | inf s => !s
  | fin s _ _ => !s

/-- The binary32 value with the given 32-bit encoding (sign, 8 exponent bits, 23 fraction
bits). -/
def ofBits (b : Nat) : F32 :=
  let s : Bool := decide (b / 2 ^ 31 % 2 = 1)
  let ex : Nat := b / 2 ^ 23 % 256
  let fr : Nat := b % 2 ^ 23
  if ex = 255 then (if fr = 0 then inf s else nan)
  else if ex = 0 then fin s fr (-149)
  else fin s (fr + 2 ^ 23) ((ex : Int) - 150)

/-- Binary32 operations with their results on IEEE 754 hardware, as encodings: operation
(0 `+`, 1 `-`, 2 `*`, 3 `/`, 4 `sqrt` of the first operand), operands, result. -/
def vectors : List (Nat × Nat × Nat × Nat) :=
  [
    (0, 0x904369c8, 0xdfdf4dfc, 0xdfdf4dfc),
    (1, 0x904369c8, 0xdfdf4dfc, 0x5fdf4dfc),
    (2, 0x904369c8, 0xdfdf4dfc, 0x30aa74ac),
    (3, 0x904369c8, 0xdfdf4dfc, 0x00000000),
    (4, 0x104369c8, 0x00000000, 0x27dfaa19),
    (0, 0x853d213b, 0x74785d8c, 0x74785d8c),
    (1, 0x853d213b, 0x74785d8c, 0xf4785d8c),
    (2, 0x853d213b, 0x74785d8c, 0xba377d4e),
    (3, 0x853d213b, 0x74785d8c, 0x80000000),
    (4, 0x053d213b, 0x00000000, 0x225c0a06),
    (0, 0xa302b4e5, 0x05fc271f, 0xa302b4e5),
    (1, 0xa302b4e5, 0x05fc271f, 0xa302b4e5),
    (2, 0xa302b4e5, 0x05fc271f, 0x80000000),
    (3, 0xa302b4e5, 0x05fc271f, 0xdc84b36b),
    (4, 0x2302b4e5, 0x00000000, 0x3136ec56),
    (0, 0x95b72692, 0xbc99fe68, 0xbc99fe68),
    (1, 0x95b72692, 0xbc99fe68, 0x3c99fe68),
    (2, 0x95b72692, 0xbc99fe68, 0x12dc5820),
    (3, 0x95b72692, 0xbc99fe68, 0x18983c3b),
    (4, 0x15b72692, 0x00000000, 0x2a991cac),
    (0, 0x3faa36de, 0x3fe6951e, 0x404865fe),
    (1, 0x3faa36de, 0x3fe6951e, 0xbef17900),
    (2, 0x3faa36de, 0x3fe6951e, 0x40195071),
    (3, 0x3faa36de, 0x3fe6951e, 0x3f3cfa33),
    (4, 0x3faa36de, 0x00000000, 0x3f939b0d),
    (0, 0xbf61973a, 0x3f2675eb, 0xbe6c853c),
    (1, 0xbf61973a, 0x3f2675eb, 0xbfc40692),
    (2, 0xbf61973a, 0x3f2675eb, 0xbf12aff9),
    (3, 0xbf61973a, 0x3f2675eb, 0xbfad77d8),
    (4, 0x3f61973a, 0x00000000, 0x3f70509a),
    (0, 0xbfc75755, 0x3f6dd3e7, 0xbf20dac3),
    (1, 0xbfc75755, 0x3f6dd3e7, 0xc01f20a4),
    (2, 0xbfc75755, 0x3f6dd3e7, 0xbfb930db),
    (3, 0xbfc75755, 0x3f6dd3e7, 0xbfd6929a),
    (4, 0x3fc75755, 0x00000000, 0x3f9fbc7a),
    (0, 0x8040fa05, 0xbf938732, 0xbf938732),
    (1, 0x8040fa05, 0xbf938732, 0x3f938732),
    (2, 0x8040fa05, 0xbf938732, 0x004ae3c3),
    (3, 0x8040fa05, 0xbf938732, 0x00386032),
    (4, 0x0040fa05, 0x00000000, 0x1fb66531),
    (0, 0x0051ba37, 0xbfa29f05, 0xbfa29f05),
    (1, 0x0051ba37, 0xbfa29f05, 0x3fa29f05),
    (2, 0x0051ba37, 0xbfa29f05, 0x8067d536),
    (3, 0x0051ba37, 0xbfa29f05, 0x804053fd),
    (4, 0x0051ba37, 0x00000000, 0x1fcc8f22),
    (0, 0x7ec04cb4, 0xc0ebce31, 0x7ec04cb4),
    (1, 0x7ec04cb4, 0xc0ebce31, 0x7ec04cb4),
    (2, 0x7ec04cb4, 0xc0ebce31, 0xff800000),
    (3, 0x7ec04cb4, 0xc0ebce31, 0xfd50c4b0),
    (4, 0x7ec04cb4, 0x00000000, 0x5f1ce3be),
    (0, 0x7e5e3381, 0x40976e0d, 0x7e5e3381),
    (1, 0x7e5e3381, 0x40976e0d, 0x7e5e3381),
    (2, 0x7e5e3381, 0x40976e0d, 0x7f800000),
    (3, 0x7e5e3381, 0x40976e0d, 0x7d3bd23e),
    (4, 0x7e5e3381, 0x00000000, 0x5eee80ac),
    (0, 0x00f7a270, 0xbf7e1353, 0xbf7e1353),
    (1, 0x00f7a270, 0xbf7e1353, 0x3f7e1353),
    (2, 0x00f7a270, 0xbf7e1353, 0x80f5c5dc),
    (3, 0x00f7a270, 0xbf7e1353, 0x80f982a0),
    (4, 0x00f7a270, 0x00000000, 0x20320981)]

/-- The model computes the result the vector records. -/
def checkVector (v : Nat × Nat × Nat × Nat) : Bool :=
  match v.1 with
  | 0 => decide (add (ofBits v.2.1) (ofBits v.2.2.1) = ofBits v.2.2.2)
  | 1 => decide (sub (ofBits v.2.1) (ofBits v.2.2.1) = ofBits v.2.2.2)
  | 2 => decide (mul (ofBits v.2.1) (ofBits v.2.2.1) = ofBits v.2.2.2)
  | 3 => decide (div (ofBits v.2.1) (ofBits v.2.2.1) = ofBits v.2.2.2)
  | _ => decide (sqrt (ofBits v.2.1) = ofBits v.2.2.2)

/-- The exact value of a finite binary32 as a rational (`0` for infinities and NaN). -/
def toRat : F32 → ℚ
  | fin s m e => (if s then -1 else 1) * (m : ℚ) * (2 : ℚ) ^ e
  | _ => 0

/-- The value is finite with a significand in `[2^23, 2^24)`: neither zero nor subnormal. -/
def isNormal : F32 → Bool
  | fin _ m _ => decide (2 ^ 23 ≤ m ∧ m < 2 ^ 24)
  | _ => false

/-- The sign factor `1` or `-1` of the exact value. -/
def signRat (s : Bool) : ℚ := if s then -1 else 1

/-- The values line 63, line 66 and line 71 compute one after the other for one component:
`G * m`, `G * m * K`, `force`, the force's component and the acceleration's, from the
component `n` of the normalised direction, the square `dd` of the distance and the mass
(`lit 667430 10000000000` is `G`, `lit 1000000 1` is `K`). -/
def accelSteps (n dd m : F32) : List F32 :=
  [mul (lit 667430 10000000000) m,
   mul (mul (lit 667430 10000000000) m) (lit 1000000 1),
   div (mul (mul (lit 667430 10000000000) m) (lit 1000000 1)) dd,
   mul n (div (mul (mul (lit 667430 10000000000) m) (lit 1000000 1)) dd),
   div (mul n (div (mul (mul (lit 667430 10000000000) m) (lit 1000000 1)) dd)) m]

/-- The operands and all intermediate results of `accelSteps` are normal numbers. -/
def accelNormal (n dd m : F32) : Bool :=
  n.isNormal && dd.isNormal && m.isNormal && (accelSteps n dd m).all isNormal

/-- The value is finite with a significand below `2^24` and an exponent in the binary32
range. -/
def isFinite : F32 → Bool
  | fin _ m e => decide (m < 2 ^ 24 ∧ -149 ≤ e ∧ e ≤ 104)
  | _ => false

end F32

/-! ### Accumulated rounding error -/

/-- The rational `x` is `y` up to `k` roundings: `x = y * t` for a factor `t` with
`(1 - 2^-24)^k ≤ t ≤ (1 - 2^-24)^-k`. -/
def Within (k : Nat) (x y : ℚ) : Prop :=
  ∃ t : ℚ, (1 - 1 / 2 ^ 24) ^ k ≤ t ∧ t * (1 - 1 / 2 ^ 24) ^ k ≤ 1 ∧ x = y * t

/-! ## The arithmetic the program is written over -/

/-- The operations `GravitySimulation.cpp` applies to `float`s: the four arithmetic
operators, unary minus, `sqrt`, the comparison `<`, and the conversion of a literal
`num / den` (an integer literal is `lit n 1`). -/
structure Arith (F : Type) where
  add : F → F → F
  sub : F → F → F
  mul : F → F → F
  div : F → F → F
  neg : F → F
  sqrt : F → F
  lt : F → F → Bool
  lit : Nat → Nat → F

/-- The arithmetic of C++ `float`: IEEE 754 binary32, every operation rounded to nearest,
ties to even. -/
def F32.arith : Arith F32 :=
  { add := F32.add, sub := F32.sub, mul := F32.mul, div := F32.div, neg := F32.neg,
    sqrt := F32.sqrt, lt := F32.lt, lit := F32.lit }

/-- Exact arithmetic in a field: no rounding, no overflow.  The square root and the
comparison are parameters. -/
def fieldArith {F : Type} [Field F] (sqrt : F → F) (lt : F → F → Bool) : Arith F :=
  { add := fun a b => a + b, sub := fun a b => a - b, mul := fun a b => a * b,
    div := fun a b => a / b, neg := fun a => -a, sqrt := sqrt, lt := lt,
    lit := fun n d => (n : F) / (d : F) }

/-- Exact arithmetic in an ordered field, with the field's own order for `<`. -/
def orderedArith {F : Type} [LinearOrderedField F] (sqrt : F → F) : Arith F :=
  fieldArith sqrt (fun a b => decide (a < b))

/-- A square root on the rationals, exact on squares of rationals: the integer square
roots of numerator and denominator. -/
def ratSqrt (x : ℚ) : ℚ := (F32.isqrt x.num.toNat : ℚ) / (F32.isqrt x.den : ℚ)

/-- Exact rational arithmetic with `ratSqrt` and the order of `ℚ`. -/
def exactArith : Arith ℚ := orderedArith ratSqrt

/-! ## SFML value types used by the program -/

/-- `sf::Vector2f`. -/
structure Vec2 (F : Type) where
  x : F
  y : F
  deriving DecidableEq, Repr

namespace Vec2

variable {F : Type}

/-- `operator-(Vector2f, Vector2f)`. -/
def sub (A : Arith F) (l r : Vec2 F) : Vec2 F := ⟨A.sub l.x r.x, A.sub l.y r.y⟩

/-- `operator+(Vector2f, Vector2f)`, also the value `operator+=` stores. -/
def add (A : Arith F) (l r : Vec2 F) : Vec2 F := ⟨A.add l.x r.x, A.add l.y r.y⟩

/-- `operator*(Vector2f, float)`. -/
def scale (A : Arith F) (l : Vec2 F) (r : F) : Vec2 F := ⟨A.mul l.x r, A.mul l.y r⟩

/-- `operator/(Vector2f, float)`. -/
def divide (A : Arith F) (l : Vec2 F) (r : F) : Vec2 F := ⟨A.div l.x r, A.div l.y r⟩

/-- The squared Euclidean length `x^2 + y^2`, in exact arithmetic. -/
def normSq [Add F] [Mul F] (v : Vec2 F) : F := v.x * v.x + v.y * v.y

/-- The exact value of a binary32 vector. -/
def toRat (v : Vec2 F32) : Vec2 ℚ := ⟨v.x.toRat, v.y.toRat⟩

end Vec2

/-- `sf::Color`, four 8-bit channels. -/
structure Color where
  r : Nat
  g : Nat
  b : Nat
  a : Nat
  deriving DecidableEq, Repr

namespace Color

def White : Color := ⟨255, 255, 255, 255⟩
def Black : Color := ⟨0, 0, 0, 255⟩
def Yellow : Color := ⟨255, 255, 0, 255⟩
def Blue : Color := ⟨0, 0, 255, 255⟩
def Red : Color := ⟨255, 0, 0, 255⟩
def Green : Color := ⟨0, 255, 0, 255⟩

end Color

/-- The part of `sf::CircleShape` the program reads or writes. -/
structure CircleShape (F : Type) where
  radius : F
  origin : Vec2 F
  position : Vec2 F
  fillColor : Color
  deriving DecidableEq, Repr

namespace CircleShape

variable {F : Type}

/-- A default-constructed `sf::CircleShape`: radius 0 at the origin, filled white. -/
def default (A : Arith F) : CircleShape F :=
  { radius := A.lit 0 1, origin := ⟨A.lit 0 1, A.lit 0 1⟩,
    position := ⟨A.lit 0 1, A.lit 0 1⟩, fillColor := Color.White }

def setRadius (s : CircleShape F) (radius : F) : CircleShape F := { s with radius := radius }

def setOrigin (s : CircleShape F) (x y : F) : CircleShape F := { s with origin := ⟨x, y⟩ }

def setPosition (s : CircleShape F) (position : Vec2 F) : CircleShape F :=
  { s with position := position }

def setFillColor (s : CircleShape F) (color : Color) : CircleShape F :=
  { s with fillColor := color }

def getPosition (s : CircleShape F) : Vec2 F := s.position

def getRadius (s : CircleShape F) : F := s.radius

/-- `Transformable::move(offset)`: the position becomes `position + offset`. -/
def move (A : Arith F) (s : CircleShape F) (offset : Vec2 F) : CircleShape F :=
  s.setPosition (Vec2.add A s.position offset)

end CircleShape

/-! ## The program -/

/-- `const float G = 6.67430e-5f`. -/
def G {F : Type} (A : Arith F) : F := A.lit 667430 10000000000

/-- `const float timeStep = 0.1f`. -/
def timeStep {F : Type} (A : Arith F) : F := A.lit 1 10

/-- `const Vector2f windowSize(1600, 900)`. -/
def windowSize {F : Type} (A : Arith F) : Vec2 F := ⟨A.lit 1600 1, A.lit 900 1⟩

/-- `struct Planet`. -/
structure Planet (F : Type) where
  shape : CircleShape F
  velocity : Vec2 F
  mass : F
  deriving DecidableEq, Repr

/-- The constructor `Planet::Planet(radius, mass, position, initialVelocity, color)`.
It has no failure path: every argument list produces a `Planet`. -/
def Planet.new {F : Type} (A : Arith F) (radius mass : F) (position initialVelocity : Vec2 F)
    (color : Color) : Planet F :=
  let shape := CircleShape.default A
  let shape := shape.setRadius radius
  let shape := shape.setOrigin radius radius
  let shape := shape.setPosition position
  let shape := shape.setFillColor color
  { shape := shape, velocity := initialVelocity, mass := mass }

/-- The data members of `class GravitySimulation`: whether `window` is open, `planets`
and `sun`. -/
structure GravitySimulation (F : Type) where
  isOpen : Bool
  planets : List (Planet F)
  sun : CircleShape F
  deriving DecidableEq, Repr

namespace GravitySimulation

variable {F : Type}

/-- `GravitySimulation::setupPlanets`. -/
def setupPlanets (A : Arith F) (s : GravitySimulation F) : GravitySimulation F :=
  let w := windowSize A
  let sun := s.sun.setRadius (A.lit 40 1)
  let sun := sun.setOrigin (A.lit 40 1) (A.lit 40 1)
  let sun := sun.setPosition ⟨A.div w.x (A.lit 2 1), A.div w.y (A.lit 2 1)⟩
  let sun := sun.setFillColor Color.Yellow
  let planets := s.planets ++ [Planet.new A (A.lit 10 1) (A.lit 1000 1)
    ⟨A.add (A.div w.x (A.lit 2 1)) (A.lit 150 1), A.div w.y (A.lit 2 1)⟩
    ⟨A.lit 0 1, A.neg (A.lit 9 10)⟩ Color.Blue]
  let planets := planets ++ [Planet.new A (A.lit 12 1) (A.lit 1500 1)
    ⟨A.add (A.div w.x (A.lit 2 1)) (A.lit 250 1), A.div w.y (A.lit 2 1)⟩
    ⟨A.lit 0 1, A.neg (A.lit 7 10)⟩ Color.Red]
  let planets := planets ++ [Planet.new A (A.lit 8 1) (A.lit 800 1)
    ⟨A.add (A.div w.x (A.lit 2 1)) (A.lit 350 1), A.div w.y (A.lit 2 1)⟩
    ⟨A.lit 0 1, A.neg (A.lit 5 10)⟩ Color.Green]
  { s with sun := sun, planets := planets }

/-- The constructor `GravitySimulation::GravitySimulation()`: an open window, no planets,
a default `sun`, then `setupPlanets()`. -/
def new (A : Arith F) : GravitySimulation F :=
  setupPlanets A { isOpen := true, planets := [], sun := CircleShape.default A }

/-- `GravitySimulation::calculateGravity`, a member function: it is handed the whole
object and the planet. -/
def calculateGravity (A : Arith F) (s : GravitySimulation F) (planet : Planet F) : Vec2 F :=
  let sunPosition := s.sun.getPosition
  let planetPosition := planet.shape.getPosition
  let direction := Vec2.sub A sunPosition planetPosition
  let distance := A.sqrt (A.add (A.mul direction.x direction.x) (A.mul direction.y direction.y))
  let distance := if A.lt distance s.sun.getRadius then s.sun.getRadius else distance
  let force := A.div (A.mul (A.mul (G A) planet.mass) (A.lit 1000000 1)) (A.mul distance distance)
  let normalizedDirection := Vec2.divide A direction distance
  Vec2.scale A normalizedDirection force

/-- The value of the local `distance` of `calculateGravity` after the clamp on line 61
(lines 56-61 of the function, on their own). -/
def clampedDistance (A : Arith F) (s : GravitySimulation F) (planet : Planet F) : F :=
  let sunPosition := s.sun.getPosition
  let planetPosition := planet.shape.getPosition
  let direction := Vec2.sub A sunPosition planetPosition
  let distance := A.sqrt (A.add (A.mul direction.x direction.x) (A.mul direction.y direction.y))
  if A.lt distance s.sun.getRadius then s.sun.getRadius else distance

/-- The value of the local `normalizedDirection` of `calculateGravity` (line 64). -/
def normalizedDirection (A : Arith F) (s : GravitySimulation F) (planet : Planet F) : Vec2 F :=
  Vec2.divide A (Vec2.sub A s.sun.getPosition planet.shape.getPosition)
    (clampedDistance A s planet)

/-- The value of the local `acceleration` of `update` (line 71). -/
def acceleration (A : Arith F) (s : GravitySimulation F) (planet : Planet F) : Vec2 F :=
  Vec2.divide A (calculateGravity A s planet) planet.mass

/-- No operation of `calculateGravity` overflows or underflows in binary32: the positions
are finite, the sun's radius and the planet's mass are positive normal numbers, and every
intermediate result is a normal number, unless it is a zero for the reason stated with
it: a component of `direction` (a difference that is a zero is exact); its square and its
quotient by `distance` when the component is a zero; the sum of the squares when both are
zeros, and its root when the sum is a zero; a component of the result when that of
`normalizedDirection` is a zero. -/
def forceRegular (s : GravitySimulation F32) (planet : Planet F32) : Bool :=
  let sunPosition := s.sun.getPosition
  let planetPosition := planet.shape.getPosition
  let direction := Vec2.sub F32.arith sunPosition planetPosition
  let xx := F32.mul direction.x direction.x
  let yy := F32.mul direction.y direction.y
  let sum := F32.add xx yy
  let distance := clampedDistance F32.arith s planet
  let gm := F32.mul (G F32.arith) planet.mass
  let gmk := F32.mul gm (F32.lit 1000000 1)
  let force := F32.div gmk (F32.mul distance distance)
  let normalizedDirection := Vec2.divide F32.arith direction distance
  let result := calculateGravity F32.arith s planet
  sunPosition.x.isFinite && sunPosition.y.isFinite &&
  planetPosition.x.isFinite && planetPosition.y.isFinite &&
  s.sun.getRadius.isNormal && s.sun.getRadius.isNonneg &&
  planet.mass.isNormal && planet.mass.isNonneg &&
  (direction.x.isNormal || direction.x.isZero) &&
  (direction.y.isNormal || direction.y.isZero) &&
  (xx.isNormal || direction.x.isZero) && (yy.isNormal || direction.y.isZero) &&
  (sum.isNormal || (xx.isZero && yy.isZero)) &&
  ((F32.sqrt sum).isNormal || sum.isZero) &&
  gm.isNormal && gmk.isNormal && (F32.mul distance distance).isNormal && force.isNormal &&
  (normalizedDirection.x.isNormal || direction.x.isZero) &&
  (normalizedDirection.y.isNormal || direction.y.isZero) &&
  (result.x.isNormal || normalizedDirection.x.isZero) &&
  (result.y.isNormal || normalizedDirection.y.isZero)

/-- The body of the loop in `update` (lines 71-73), as it acts on the planet the loop
variable refers to; `s` is the object at that moment. -/
def updatePlanet (A : Arith F) (s : GravitySimulation F) (planet : Planet F) : Planet F :=
  let acceleration := Vec2.divide A (calculateGravity A s planet) planet.mass
  let planet := { planet with
    velocity := Vec2.add A planet.velocity (Vec2.scale A acceleration (timeStep A)) }
  { planet with shape := planet.shape.move A (Vec2.scale A planet.velocity (timeStep A)) }

/-- One iteration of the loop in `update`: `planets[i]` is updated in place. -/
def updateAt (A : Arith F) (s : GravitySimulation F) (i : Nat) : GravitySimulation F :=
  match s.planets[i]? with
  | none => s
  | some planet => { s with planets := s.planets.set i (updatePlanet A s planet) }

/-- `GravitySimulation::update`: the loop `for (auto& planet : planets)`, which visits
the elements of `planets` in order and updates each in place. -/
def update (A : Arith F) (s : GravitySimulation F) : GravitySimulation F :=
  (List.range s.planets.length).foldl (updateAt A) s

end GravitySimulation

/-! ### The application loop -/

/-- What `window.pollEvent` can hand back: a close request, or any other event. -/
inductive Event where
  | closed
  | other
  deriving DecidableEq, Repr

/-- The observable steps of `run`, in program order: the call `window.close()`, the calls
that draw (`window.clear`, the two decorative render functions, which end in `window.draw`,
`window.draw(sun)`, `window.draw(planet.shape)`, `window.display()`), and the physics step
`update()`. -/
inductive Action (F : Type) where
  | close
  | clear (color : Color)
  | renderSpaceTimeGrid
  | drawCurvedSpaceTime
  | drawSun (sun : CircleShape F)
  | update
  | drawPlanet (shape : CircleShape F)
  | display
  deriving DecidableEq, Repr

namespace Action

variable {F : Type}

/-- The action is the call `window.close()`. -/
def isClose : Action F → Bool
  | close => true
  | _ => false

/-- The action is the physics step `update()`. -/
def isUpdate : Action F → Bool
  | update => true
  | _ => false

/-- The action is a draw call: clear, one of the draws, or display. -/
def isDraw : Action F → Bool
  | close => false
  | update => false
  | _ => true

end Action

namespace GravitySimulation

variable {F : Type}

/-- The inner loop of `run` (lines 112-115) on the events `pollEvent` returns in one frame:
every `Closed` event calls `window.close()`. -/
def pollEvents : List Event → GravitySimulation F → GravitySimulation F × List (Action F)
  | [], s => (s, [])
  | Event.closed :: evs, s =>
    let r := pollEvents evs { s with isOpen := false }
    (r.1, Action.close :: r.2)
  | Event.other :: evs, s => pollEvents evs s

/-- Lines 117-129 of `run`: the part of one iteration after the event loop. -/
def renderFrame (A : Arith F) (s : GravitySimulation F) :
    GravitySimulation F × List (Action F) :=
  let s' := update A s
  (s', [Action.clear Color.Black, Action.renderSpaceTimeGrid, Action.drawCurvedSpaceTime,
        Action.drawSun s.sun, Action.update]
       ++ s'.planets.map (fun planet => Action.drawPlanet planet.shape)
       ++ [Action.display])

/-- `GravitySimulation::run` against an environment that supplies, for each iteration of
the outer loop, the events `pollEvent` returns in it.  The result is the final state and
the actions performed, in order.  The loop leaves when `window.isOpen()` is false; when the
supplied iterations run out first, the result is the run so far. -/
def run (A : Arith F) : List (List Event) → GravitySimulation F →
    GravitySimulation F × List (Action F)
  | [], s => (s, [])
  | evs :: rest, s =>
    if s.isOpen then
      let polled := pollEvents evs s
      let drawn := renderFrame A polled.1
      let r := run A rest drawn.1
      (r.1, polled.2 ++ drawn.2 ++ r.2)
    else (s, [])

end GravitySimulation

/-- `int main()`: construct the simulation and run it. -/
def main {F : Type} (A : Arith F) (events : List (List Event)) :
    GravitySimulation F × List (Action F) :=
  GravitySimulation.run A events (GravitySimulation.new A)

/-! ## The formulas of the specification -/

namespace Spec

variable {F : Type}

/-- `max(a, b)` as `std::max` computes it: `b` when `a < b`, else `a`. -/
def max (A : Arith F) (a b : F) : F := if A.lt a b then b else a

/-- The Euclidean length `|D|`: the square root of the sum of the squares. -/
def length (A : Arith F) (D : Vec2 F) : F := A.sqrt (A.add (A.mul D.x D.x) (A.mul D.y D.y))

/-- The distance of the specification: `d = max(|S - P|, R)`. -/
def distance (A : Arith F) (S P : Vec2 F) (R : F) : F := max A (length A (Vec2.sub A S P)) R

/-- The force of the specification: `F = (D / d) * ((G * m * K) / d^2)` with `D = S - P`,
`d = max(|D|, R)`, `G = 6.67430e-5` and `K = 1000000`. -/
def force (A : Arith F) (S P : Vec2 F) (R m : F) : Vec2 F :=
  let D := Vec2.sub A S P
  let d := distance A S P R
  Vec2.scale A (Vec2.divide A D d)
    (A.div (A.mul (A.mul (A.lit 667430 10000000000) m) (A.lit 1000000 1)) (A.mul d d))

/-- The velocity of the specification after one step: `v + (F / m) * dt` with `dt = 0.1`. -/
def velocity (A : Arith F) (S P : Vec2 F) (R m : F) (v : Vec2 F) : Vec2 F :=
  Vec2.add A v (Vec2.scale A (Vec2.divide A (force A S P R m) m) (A.lit 1 10))

end Spec

/-! ## Traces and concrete inputs -/

/-- The actions after the first call of `window.close()` in a trace. -/
def afterFirstClose {F : Type} (t : List (Action F)) : List (Action F) :=
  (t.dropWhile (fun a => !a.isClose)).tail

/-- The sun of the specification's test, in binary32: center (800, 450), radius 40. -/
def testSun : CircleShape F32 :=
  { radius := F32.lit 40 1, origin := ⟨F32.lit 40 1, F32.lit 40 1⟩,
    position := ⟨F32.lit 800 1, F32.lit 450 1⟩, fillColor := Color.Yellow }

/-- A binary32 world with the test sun and the given planets. -/
def testWorld (planets : List (Planet F32)) : GravitySimulation F32 :=
  { isOpen := true, planets := planets, sun := testSun }

/-- A binary32 planet of radius 10 and mass `m` at `(x, 450 + dy)` with velocity
`(0, -0.9)`; `testPlanet 1000 950 0` is the specification's test planet. -/
def testPlanet (m x dy : Nat) : Planet F32 :=
  Planet.new F32.arith (F32.lit 10 1) (F32.lit m 1) ⟨F32.lit x 1, F32.lit (450 + dy) 1⟩
    ⟨F32.lit 0 1, F32.neg (F32.lit 9 10)⟩ Color.Blue

/-- The documented three-planet world, in binary32, with the planets in reverse order. -/
def reversedWorld : GravitySimulation F32 :=
  { GravitySimulation.new F32.arith with
    planets := (GravitySimulation.new F32.arith).planets.reverse }

/-- The documented sun, over the rationals. -/
def exactSun : CircleShape ℚ :=
  { radius := 40, origin := ⟨40, 40⟩, position := ⟨800, 450⟩, fillColor := Color.Yellow }

/-- A planet of mass `m` at the first documented planet's start, over the rationals. -/
def exactPlanet (m : ℚ) : Planet ℚ :=
  Planet.new exactArith 10 m ⟨950, 450⟩ ⟨0, -9 / 10⟩ Color.Blue

/-- A planet of mass 1000 at `(x, y)`, over the rationals. -/
def exactPlanetAt (x y : ℚ) : Planet ℚ :=
  Planet.new exactArith 10 1000 ⟨x, y⟩ ⟨0, -9 / 10⟩ Color.Blue

/-- A world over the rationals with the documented sun and one planet of mass `m`. -/
def exactWorld (m : ℚ) : GravitySimulation ℚ :=
  { isOpen := true, planets := [exactPlanet m], sun := exactSun }

open GravitySimulation

/-! ## Theorems -/

section Generic

variable {F : Type}

/-- `calculateGravity` reads nothing of the object but the sun. -/
theorem calculateGravity_congr (A : Arith F) (s₁ s₂ : GravitySimulation F) (p : Planet F)
    (h : s₁.sun = s₂.sun) : calculateGravity A s₁ p = calculateGravity A s₂ p := by
  simp only [calculateGravity, h]

/-- The loop body reads nothing of the object but the sun. -/
theorem updatePlanet_congr (A : Arith F) (s₁ s₂ : GravitySimulation F) (p : Planet F)
    (h : s₁.sun = s₂.sun) : updatePlanet A s₁ p = updatePlanet A s₂ p := by
  simp only [updatePlanet, calculateGravity_congr A s₁ s₂ p h]

/-- The state of the loop in `update` after `k` iterations: the first `k` planets are
updated, the others, the sun and the window are as before. -/
theorem update_loop (A : Arith F) (s : GravitySimulation F) (k : Nat)
    (hk : k ≤ s.planets.length) :
    (List.range k).foldl (updateAt A) s =
      { s with planets := (s.planets.take k).map (updatePlanet A s) ++ s.planets.drop k } := by
  induction k with
  | zero => simp
  | succ k ih =>
    have hlt : k < s.planets.length := hk
    rw [List.range_succ, List.foldl_append, ih (Nat.le_of_lt hlt)]
    simp only [List.foldl_cons, List.foldl_nil, updateAt]
    have hlen : ((s.planets.take k).map (updatePlanet A s)).length = k := by
      simp [List.length_take, Nat.min_eq_left (Nat.le_of_lt hlt)]
    have hget : ((s.planets.take k).map (updatePlanet A s) ++ s.planets.drop k)[k]? =
        some (s.planets[k]) := by
      rw [List.getElem?_append_right (by omega), hlen]
      simp [List.getElem?_drop, hlt]
    rw [hget]
    simp only
    congr 1
    rw [List.take_succ, List.getElem?_eq_getElem hlt]
    simp only [Option.toList, List.map_append, List.map_cons, List.map_nil, List.append_assoc,
      List.singleton_append]
    rw [List.set_append_right _ _ (by omega), hlen, Nat.sub_self,
      List.drop_eq_getElem_cons hlt]
    simp only [List.set_cons_zero]
    congr 2

/-- The whole effect of `update`: every planet is replaced by its image under the loop
body; the sun and the window are untouched. -/
theorem update_eq (A : Arith F) (s : GravitySimulation F) :
    update A s = { s with planets := s.planets.map (updatePlanet A s) } := by
  rw [update, update_loop A s _ (Nat.le_refl _)]
  simp

/-- The force of the specification is what `calculateGravity` returns. -/
theorem calculateGravity_eq_force (A : Arith F) (s : GravitySimulation F) (p : Planet F) :
    calculateGravity A s p =
      Spec.force A s.sun.position p.shape.position s.sun.radius p.mass := by
  rfl

/-- The clamped distance of `calculateGravity` is `max(|S - P|, R)`. -/
theorem clampedDistance_eq_distance (A : Arith F) (s : GravitySimulation F) (p : Planet F) :
    clampedDistance A s p = Spec.distance A s.sun.position p.shape.position s.sun.radius := by
  rfl

/-- The velocity the loop body stores for its planet. -/
theorem updatePlanet_velocity (A : Arith F) (s : GravitySimulation F) (p : Planet F) :
    (updatePlanet A s p).velocity =
      Vec2.add A p.velocity
        (Vec2.scale A (Vec2.divide A (calculateGravity A s p) p.mass) (timeStep A)) := rfl

/-- The position the loop body stores for its planet. -/
theorem updatePlanet_position (A : Arith F) (s : GravitySimulation F) (p : Planet F) :
    (updatePlanet A s p).shape.position =
      Vec2.add A p.shape.position (Vec2.scale A (updatePlanet A s p).velocity (timeStep A)) :=
  rfl

/-- Claim C1: for every arithmetic the program may run over, every sun and every list of
planets, one call of `update` sets each planet's velocity to `v + (F / m) * dt`, where
`dt = 0.1`, `F = (D / d) * ((G * m * K) / d^2)`, `D = S - P`, `d = max(|D|, R)`,
`G = 6.67430e-5` and `K = 1000000`; and `F` is what `calculateGravity` returns. -/
theorem update_velocity (A : Arith F) (s : GravitySimulation F) :
    (update A s).planets.map (fun p => p.velocity) =
        s.planets.map (fun p =>
          Spec.velocity A s.sun.position p.shape.position s.sun.radius p.mass p.velocity) ∧
      ∀ p : Planet F, calculateGravity A s p =
        Spec.force A s.sun.position p.shape.position s.sun.radius p.mass := by
  refine ⟨?_, fun p => calculateGravity_eq_force A s p⟩
  rw [update_eq]
  simp only [List.map_map]
  apply List.map_congr_left
  intro p _
  simp only [Function.comp, updatePlanet_velocity, calculateGravity_eq_force, Spec.velocity,
    timeStep]

/-- Claim C8: `update` changes only the planets' velocities and positions.  The sun (its
position, radius and color) and the window state are the same afterwards, there are as
many planets as before, and the planets keep, position by position in the list, their mass,
radius, origin and color. -/
theorem update_frame (A : Arith F) (s : GravitySimulation F) :
    (update A s).sun = s.sun ∧ (update A s).isOpen = s.isOpen ∧
      (update A s).planets.length = s.planets.length ∧
      (update A s).planets.map
          (fun p => (p.mass, p.shape.radius, p.shape.origin, p.shape.fillColor)) =
        s.planets.map
          (fun p => (p.mass, p.shape.radius, p.shape.origin, p.shape.fillColor)) := by
  rw [update_eq]
  refine ⟨rfl, rfl, ?_, ?_⟩
  · simp
  · simp only [List.map_map]
    apply List.map_congr_left
    intro p _
    rfl

/-- Pairing a list with its image under `f`. -/
theorem zip_map_self {α β : Type} (f : α → β) (l : List α) :
    l.zip (l.map f) = l.map (fun a => (a, f a)) := by
  induction l with
  | nil => rfl
  | cons a l ih => simp [ih]

/-- Claim C2: `update` changes the velocity first and the position second.  For every
arithmetic and every world, each planet's new position is its old position plus its NEW
velocity times `dt`; and this is not the old velocity times `dt`: in binary32, from the
documented world after one step, the next step moves the planets to other positions than
`old position + old velocity * dt`. -/
theorem update_position (A : Arith F) (s : GravitySimulation F) :
    (update A s).planets.map (fun p => p.shape.position) =
        (s.planets.zip (update A s).planets).map (fun pq =>
          Vec2.add A pq.1.shape.position (Vec2.scale A pq.2.velocity (timeStep A))) ∧
      (update F32.arith (update F32.arith (GravitySimulation.new F32.arith))).planets.map
          (fun p => p.shape.position) ≠
        (update F32.arith (GravitySimulation.new F32.arith)).planets.map (fun p =>
          Vec2.add F32.arith p.shape.position
            (Vec2.scale F32.arith p.velocity (timeStep F32.arith))) := by
  constructor
  · rw [update_eq]
    simp only [zip_map_self, List.map_map]
    apply List.map_congr_left
    intro p _
    rfl
  · decide!

/-- One call of `update` acts on the planet at index `i` by the loop body. -/
theorem update_getElem? (A : Arith F) (s : GravitySimulation F) (i : Nat) :
    (update A s).planets[i]? = (s.planets[i]?).map (updatePlanet A s) := by
  rw [update_eq]
  simp

/-- Claim C9: planets do not interact.  When two worlds have the same sun and planet `i` of
the first is planet `j` of the second, that planet comes out of `update` the same in both,
whatever the other planets are, however many there are and wherever the planet stands in
the list; in particular it comes out as from the world that contains it alone. -/
theorem update_independent (A : Arith F) (s₁ s₂ : GravitySimulation F) (i j : Nat)
    (hsun : s₁.sun = s₂.sun) (hplanet : s₁.planets[i]? = s₂.planets[j]?) :
    (update A s₁).planets[i]? = (update A s₂).planets[j]? ∧
      ∀ p, s₁.planets[i]? = some p →
        (update A s₁).planets[i]? = (update A { s₁ with planets := [p] }).planets[0]? := by
  constructor
  · rw [update_getElem?, update_getElem?, hplanet]
    cases s₂.planets[j]? with
    | none => rfl
    | some p => simp only [Option.map_some', updatePlanet_congr A s₁ s₂ p hsun]
  · intro p hp
    rw [update_getElem?, update_getElem?, hp]
    simp only [List.getElem?_cons_zero, Option.map_some', Option.some.injEq]
    exact updatePlanet_congr A _ _ p rfl

end Generic

/-- A use of claim C9: the first documented planet comes out of `update` the same from the
documented world and from the world with the planets in reverse order. -/
theorem update_independent_witness :
    (update F32.arith (GravitySimulation.new F32.arith)).planets[0]?
        = (update F32.arith reversedWorld).planets[2]? ∧
      ∀ p, (GravitySimulation.new F32.arith).planets[0]? = some p →
        (update F32.arith (GravitySimulation.new F32.arith)).planets[0]? =
          (update F32.arith { GravitySimulation.new F32.arith with planets := [p] }).planets[0]? :=
  update_independent F32.arith (GravitySimulation.new F32.arith) reversedWorld 0 2 rfl (by decide!)

/-! ### Binary32 -/

namespace F32

/-- Textbook values of binary32 arithmetic, as the model computes them: `0.1f`, `1/3`,
`sqrt 2`; ties to even at `2^24`; overflow at the largest finite value; gradual underflow;
the special values; the signs of zero; comparisons with NaN. -/
theorem known_values :
    lit 1 10 = fin false 13421773 (-27) ∧
      div (lit 1 1) (lit 3 1) = fin false 11184811 (-25) ∧
      sqrt (lit 2 1) = fin false 11863283 (-23) ∧
      add (lit 16777216 1) (lit 1 1) = lit 16777216 1 ∧
      add (lit 16777218 1) (lit 1 1) = lit 16777220 1 ∧
      mul (fin false 8388608 104) (lit 2 1) = inf false ∧
      add (fin false 16777215 104) (fin false 8388608 80) = inf false ∧
      add (fin false 16777215 104) (fin false 8388607 80) = fin false 16777215 104 ∧
      div (fin false 1 (-149)) (lit 2 1) = fin false 0 (-149) ∧
      div (fin false 3 (-149)) (lit 2 1) = fin false 2 (-149) ∧
      mul (lit 0 1) (inf false) = nan ∧
      div (lit 1 1) (lit 0 1) = inf false ∧
      div (lit 0 1) (lit 0 1) = nan ∧
      sqrt (neg (lit 1 1)) = nan ∧
      add (neg (lit 0 1)) (lit 0 1) = lit 0 1 ∧
      sub (lit 1 1) (lit 1 1) = lit 0 1 ∧
      lt nan (lit 1 1) = false ∧ lt (lit 1 1) nan = false ∧
      lt (neg (lit 0 1)) (lit 0 1) = false := by
  decide!

/-- The model agrees with the recorded hardware results on all the vectors. -/
theorem vectors_agree : vectors.all checkVector = true := by
  decide!

/-! #### Rounding is to nearest -/

/-- `log2Aux` finds the highest set bit when the fuel covers the number. -/
theorem log2Aux_spec (fuel n : Nat) (hn : 0 < n) (hf : n < 2 ^ fuel) :
    2 ^ log2Aux fuel n ≤ n ∧ n < 2 ^ (log2Aux fuel n + 1) := by
  induction fuel generalizing n with
  | zero => simp at hf; omega
  | succ f ih =>
    unfold log2Aux
    split
    · constructor <;> simp <;> omega
    · rename_i h2
      have h1 : 0 < n / 2 := by omega
      have h3 : n / 2 < 2 ^ f := by
        rw [Nat.pow_succ] at hf; omega
      obtain ⟨ha, hb⟩ := ih (n / 2) h1 h3
      constructor
      · rw [Nat.pow_succ]; omega
      · rw [Nat.pow_succ]; omega

/-- `log2` is the floor of the binary logarithm below `2^4096`. -/
theorem log2_spec (n : Nat) (hn : 0 < n) (hf : n < 2 ^ 4096) :
    2 ^ log2 n ≤ n ∧ n < 2 ^ (log2 n + 1) := log2Aux_spec 4096 n hn hf

/-- A power of two with integer exponent, as a quotient of powers with natural exponents. -/
theorem two_zpow_eq (t : Int) :
    (2 : ℚ) ^ t = (2 : ℚ) ^ t.toNat / (2 : ℚ) ^ (-t).toNat := by
  rcases Int.le_total 0 t with h | h
  · have h1 : (-t).toNat = 0 := Int.toNat_eq_zero.mpr (by omega)
    rw [h1, pow_zero, div_one]
    conv_lhs => rw [← Int.toNat_of_nonneg h]
    exact zpow_natCast _ _
  · have h1 : t.toNat = 0 := Int.toNat_eq_zero.mpr h
    have h2 : 0 ≤ -t := by omega
    rw [h1, pow_zero, one_div]
    have : t = -((-t).toNat : Int) := by rw [Int.toNat_of_nonneg h2]; omega
    conv_lhs => rw [this]
    rw [zpow_neg, zpow_natCast]

/-- The exponent `k` chosen in `round` is the floor of the binary logarithm of
`num / den`. -/
theorem floorLog_spec (num den : Nat) (hn : 0 < num) (hd : 0 < den)
    (hnb : num < 2 ^ 4096) (hdb : den < 2 ^ 4096) (k : Int)
    (hk : k = if den * 2 ^ ((log2 num : Int) - (log2 den : Int)).toNat ≤
        num * 2 ^ (-((log2 num : Int) - (log2 den : Int))).toNat
      then (log2 num : Int) - (log2 den : Int) else (log2 num : Int) - (log2 den : Int) - 1) :
    (2 : ℚ) ^ k ≤ (num : ℚ) / den ∧ (num : ℚ) / den < (2 : ℚ) ^ (k + 1) := by
  obtain ⟨ha1, ha2⟩ := log2_spec num hn hnb
  obtain ⟨hb1, hb2⟩ := log2_spec den hd hdb
  generalize log2 num = a at *
  generalize log2 den = b at *
  have hdq : (0 : ℚ) < den := by exact_mod_cast hd
  have ha1q : (2 : ℚ) ^ (a : Int) ≤ num := by rw [zpow_natCast]; exact_mod_cast ha1
  have ha2q : (num : ℚ) < (2 : ℚ) ^ ((a : Int) + 1) := by
    have : ((a : Int) + 1) = ((a + 1 : Nat) : Int) := by push_cast; ring
    rw [this, zpow_natCast]; exact_mod_cast ha2
  have hb1q : (2 : ℚ) ^ (b : Int) ≤ den := by rw [zpow_natCast]; exact_mod_cast hb1
  have hb2q : (den : ℚ) < (2 : ℚ) ^ ((b : Int) + 1) := by
    have : ((b : Int) + 1) = ((b + 1 : Nat) : Int) := by push_cast; ring
    rw [this, zpow_natCast]; exact_mod_cast hb2
  have h2 : (0 : ℚ) < 2 := by norm_num
  set l : Int := (a : Int) - (b : Int) with hl
  have hpl : (0 : ℚ) < (2 : ℚ) ^ (-l).toNat := by positivity
  -- the test in `round` compares `num / den` with `2 ^ l`
  have hcond : den * 2 ^ l.toNat ≤ num * 2 ^ (-l).toNat ↔
      (2 : ℚ) ^ l ≤ (num : ℚ) / den := by
    rw [two_zpow_eq l, div_le_div_iff₀ hpl hdq]
    constructor
    · intro h
      have : ((den * 2 ^ l.toNat : Nat) : ℚ) ≤ ((num * 2 ^ (-l).toNat : Nat) : ℚ) := by
        exact_mod_cast h
      push_cast at this
      linarith
    · intro h
      have : ((den * 2 ^ l.toNat : Nat) : ℚ) ≤ ((num * 2 ^ (-l).toNat : Nat) : ℚ) := by
        push_cast
        linarith
      exact_mod_cast this
  have hupper : (num : ℚ) / den < (2 : ℚ) ^ (l + 1) := by
    rw [div_lt_iff₀ hdq]
    calc (num : ℚ) < (2 : ℚ) ^ ((a : Int) + 1) := ha2q
      _ = (2 : ℚ) ^ (l + 1) * (2 : ℚ) ^ (b : Int) := by
        rw [← zpow_add₀ (by norm_num : (2 : ℚ) ≠ 0)]; congr 1; omega
      _ ≤ (2 : ℚ) ^ (l + 1) * den := by
        apply mul_le_mul_of_nonneg_left hb1q; positivity
  have hlower : (2 : ℚ) ^ (l - 1) ≤ (num : ℚ) / den := by
    rw [le_div_iff₀ hdq]
    calc (2 : ℚ) ^ (l - 1) * den ≤ (2 : ℚ) ^ (l - 1) * (2 : ℚ) ^ ((b : Int) + 1) := by
          apply mul_le_mul_of_nonneg_left (le_of_lt hb2q); positivity
      _ = (2 : ℚ) ^ (a : Int) := by
        rw [← zpow_add₀ (by norm_num : (2 : ℚ) ≠ 0)]; congr 1; omega
      _ ≤ num := ha1q
  by_cases hc : den * 2 ^ l.toNat ≤ num * 2 ^ (-l).toNat
  · rw [if_pos hc] at hk
    rw [hk]
    exact ⟨hcond.mp hc, hupper⟩
  · rw [if_neg hc] at hk
    rw [hk]
    refine ⟨hlower, ?_⟩
    have : ¬ (2 : ℚ) ^ l ≤ (num : ℚ) / den := fun h => hc (hcond.mpr h)
    have h3 : l - 1 + 1 = l := by omega
    rw [h3]
    exact not_le.mp this

/-- Rounding to the nearest integer, ties to even, is within one half. -/
theorem nearest_int (n d : Nat) (hd : 0 < d) :
    |(((if d < 2 * (n % d) ∨ (2 * (n % d) = d ∧ n / d % 2 = 1) then n / d + 1
        else n / d : Nat) : ℚ)) - (n : ℚ) / d| ≤ 1 / 2 := by
  have hdq : (0 : ℚ) < d := by exact_mod_cast hd
  have hdiv : (n : ℚ) / d = (n / d : Nat) + ((n % d : Nat) : ℚ) / d := by
    have h := Nat.div_add_mod n d
    have h' : (n : ℚ) = d * (n / d : Nat) + (n % d : Nat) := by exact_mod_cast h.symm
    field_simp
    linarith
  have hr : n % d < d := Nat.mod_lt _ hd
  have hrq : ((n % d : Nat) : ℚ) < d := by exact_mod_cast hr
  have hr0 : (0 : ℚ) ≤ ((n % d : Nat) : ℚ) := by positivity
  rw [hdiv, abs_le]
  split
  · rename_i h
    have h2 : (d : ℚ) ≤ 2 * ((n % d : Nat) : ℚ) := by
      rcases h with h | ⟨h, _⟩
      · have : d ≤ 2 * (n % d) := le_of_lt h
        exact_mod_cast this
      · have : d ≤ 2 * (n % d) := le_of_eq h.symm
        exact_mod_cast this
    push_cast
    constructor
    · have : ((n % d : Nat) : ℚ) / d ≤ 1 := by rw [div_le_one hdq]; exact le_of_lt hrq
      linarith
    · have : (1 : ℚ) / 2 ≤ ((n % d : Nat) : ℚ) / d := by
        rw [div_le_div_iff₀ (by norm_num) hdq]; linarith
      linarith
  · rename_i h
    have h2 : 2 * ((n % d : Nat) : ℚ) ≤ d := by
      have : 2 * (n % d) ≤ d := by
        by_contra hc
        exact h (Or.inl (by omega))
      exact_mod_cast this
    have h3 : (0 : ℚ) ≤ ((n % d : Nat) : ℚ) / d := by positivity
    have h4 : ((n % d : Nat) : ℚ) / d ≤ 1 / 2 := by
      rw [div_le_div_iff₀ hdq (by norm_num)]; linarith
    constructor <;> linarith

/-- The integer significand and the exponent `round` arrives at before it looks at the
range: the significand is the exact value scaled by `2^-q` and rounded to the nearest
integer, it is at most `2^24`, and it is at least `2^23` unless `q` is the least
exponent. -/
theorem round_core (s : Bool) (num den : Nat) (e : Int) (hn : 0 < num) (hd : 0 < den)
    (hnb : num < 2 ^ 4096) (hdb : den < 2 ^ 4096) :
    ∃ (m : Nat) (q : Int), m ≤ 2 ^ 24 ∧ -149 ≤ q ∧ (2 ^ 23 ≤ m ∨ q = -149) ∧
      (104 < q → (2 : ℚ) ^ (23 : Nat) * (2 : ℚ) ^ q ≤ (num : ℚ) / den * (2 : ℚ) ^ e) ∧
      |(m : ℚ) * (2 : ℚ) ^ q - (num : ℚ) / den * (2 : ℚ) ^ e| ≤ (2 : ℚ) ^ q / 2 ∧
      round s num den e =
        (if m = 2 ^ 24 then (if 104 < q + 1 then inf s else fin s (2 ^ 23) (q + 1))
         else if 104 < q then inf s else fin s m q) := by
  have hnum : num ≠ 0 := by omega
  obtain ⟨hk1, hk2⟩ := floorLog_spec num den hn hd hnb hdb _ rfl
  unfold round
  simp only [if_neg hnum]
  generalize (if den * 2 ^ ((log2 num : Int) - (log2 den : Int)).toNat ≤
        num * 2 ^ (-((log2 num : Int) - (log2 den : Int))).toNat
      then (log2 num : Int) - (log2 den : Int) else (log2 num : Int) - (log2 den : Int) - 1) = k
    at hk1 hk2 ⊢
  set q : Int := max (k + e - 23) (-149) with hq
  set n' : Nat := num * 2 ^ (e - q).toNat with hn'
  set d' : Nat := den * 2 ^ (q - e).toNat with hd'
  have hd'pos : 0 < d' := Nat.mul_pos hd (Nat.pow_pos (by decide))
  have hdq : (0 : ℚ) < den := by exact_mod_cast hd
  have hd'q : (0 : ℚ) < d' := by exact_mod_cast hd'pos
  have h2 : (2 : ℚ) ≠ 0 := by norm_num
  -- the scaled value
  have hw : (n' : ℚ) / d' = (num : ℚ) / den * (2 : ℚ) ^ (e - q) := by
    have hqe : (q - e).toNat = (-(e - q)).toNat := by congr 1; omega
    rw [hn', hd', hqe, two_zpow_eq (e - q)]
    push_cast
    field_simp
  have hq1 : -149 ≤ q := le_max_right _ _
  have hq2 : k + e - 23 ≤ q := le_max_left _ _
  have hv : (num : ℚ) / den * (2 : ℚ) ^ e = (n' : ℚ) / d' * (2 : ℚ) ^ q := by
    rw [hw, mul_assoc, ← zpow_add₀ h2]
    congr 2
    omega
  have hwlt : (n' : ℚ) / d' < (2 : ℚ) ^ (24 : Nat) := by
    rw [hw]
    calc (num : ℚ) / den * (2 : ℚ) ^ (e - q)
        < (2 : ℚ) ^ (k + 1) * (2 : ℚ) ^ (e - q) := by
          apply mul_lt_mul_of_pos_right hk2; positivity
      _ = (2 : ℚ) ^ (k + 1 + (e - q)) := (zpow_add₀ h2 (k + 1) (e - q)).symm
      _ ≤ (2 : ℚ) ^ ((24 : Nat) : Int) := by
          apply zpow_le_zpow_right₀ (by norm_num); push_cast; omega
      _ = (2 : ℚ) ^ (24 : Nat) := zpow_natCast _ _
  have hwge : q = k + e - 23 → (2 : ℚ) ^ (23 : Nat) ≤ (n' : ℚ) / d' := by
    intro hqk
    rw [hw]
    calc (2 : ℚ) ^ (23 : Nat) = (2 : ℚ) ^ ((23 : Nat) : Int) := (zpow_natCast _ _).symm
      _ = (2 : ℚ) ^ (k + (e - q)) := by congr 1; push_cast; omega
      _ = (2 : ℚ) ^ k * (2 : ℚ) ^ (e - q) := zpow_add₀ h2 k (e - q)
      _ ≤ (num : ℚ) / den * (2 : ℚ) ^ (e - q) := by
          apply mul_le_mul_of_nonneg_right hk1; positivity
  -- the floor of the scaled value
  have hmlt : n' / d' < 2 ^ 24 := by
    rw [Nat.div_lt_iff_lt_mul hd'pos]
    have : (n' : ℚ) < (2 : ℚ) ^ (24 : Nat) * d' := by
      rwa [div_lt_iff₀ hd'q] at hwlt
    exact_mod_cast this
  have hmge : q = k + e - 23 → 2 ^ 23 ≤ n' / d' := by
    intro hqk
    rw [Nat.le_div_iff_mul_le hd'pos]
    have : (2 : ℚ) ^ (23 : Nat) * d' ≤ (n' : ℚ) := by
      have := hwge hqk
      rwa [le_div_iff₀ hd'q] at this
    exact_mod_cast this
  have hqcases : q = k + e - 23 ∨ q = -149 := by
    rcases max_choice (k + e - 23) (-149) with h | h
    · exact Or.inl h
    · exact Or.inr h
  refine ⟨(if d' < 2 * (n' % d') ∨ (2 * (n' % d') = d' ∧ n' / d' % 2 = 1)
      then n' / d' + 1 else n' / d'), q, ?_, hq1, ?_, ?_, ?_, rfl⟩
  · split <;> omega
  · rcases hqcases with h | h
    · left
      have := hmge h
      split <;> omega
    · exact Or.inr h
  · intro h104
    have hqk : q = k + e - 23 := by
      rcases hqcases with h | h
      · exact h
      · omega
    rw [hv]
    apply mul_le_mul_of_nonneg_right (hwge hqk)
    positivity
  · rw [hv, ← sub_mul, abs_mul, abs_of_pos (by positivity : (0 : ℚ) < (2 : ℚ) ^ q)]
    have := nearest_int n' d' hd'pos
    calc _ ≤ 1 / 2 * (2 : ℚ) ^ q := by
          apply mul_le_mul_of_nonneg_right this; positivity
      _ = (2 : ℚ) ^ q / 2 := by ring

/-- `round` rounds to nearest.  For a positive exact value `v = num / den * 2^e` the result
is either the infinity of the given sign, and then `v` is at least the largest finite
binary32 plus half a unit in its last place, or a finite value `m * 2^q` of the given sign
in canonical form (`m < 2^24`, `-149 ≤ q ≤ 104`, and `2^23 ≤ m` unless `q = -149`) that is
within half a unit in the last place, `2^q / 2`, of `v`. -/
theorem round_nearest (s : Bool) (num den : Nat) (e : Int) (hn : 0 < num) (hd : 0 < den)
    (hnb : num < 2 ^ 4096) (hdb : den < 2 ^ 4096) :
    (round s num den e = inf s ∧
        ((2 : ℚ) ^ (24 : Nat) - 1 / 2) * (2 : ℚ) ^ (104 : Int) ≤
          (num : ℚ) / den * (2 : ℚ) ^ e) ∨
      ∃ (m : Nat) (q : Int), round s num den e = fin s m q ∧ m < 2 ^ 24 ∧ -149 ≤ q ∧
        q ≤ 104 ∧ (2 ^ 23 ≤ m ∨ q = -149) ∧
        |(m : ℚ) * (2 : ℚ) ^ q - (num : ℚ) / den * (2 : ℚ) ^ e| ≤ (2 : ℚ) ^ q / 2 := by
  obtain ⟨m, q, hm, hq1, hnorm, hbig, herr, hround⟩ := round_core s num den e hn hd hnb hdb
  have h2 : (2 : ℚ) ≠ 0 := by norm_num
  have hpos : (0 : ℚ) < (2 : ℚ) ^ q := by positivity
  rw [hround]
  by_cases hm24 : m = 2 ^ 24
  · rw [if_pos hm24]
    have hmq : (m : ℚ) = (2 : ℚ) ^ (24 : Nat) := by rw [hm24]; norm_num
    rw [hmq] at herr
    by_cases hq : 104 < q + 1
    · rw [if_pos hq]
      left
      refine ⟨rfl, ?_⟩
      have h1 := (abs_le.mp herr).2
      have h3 : (2 : ℚ) ^ (104 : Int) ≤ (2 : ℚ) ^ q :=
        zpow_le_zpow_right₀ (by norm_num) (by omega)
      have h4 : ((2 : ℚ) ^ (24 : Nat) - 1 / 2) * (2 : ℚ) ^ (104 : Int) ≤
          ((2 : ℚ) ^ (24 : Nat) - 1 / 2) * (2 : ℚ) ^ q :=
        mul_le_mul_of_nonneg_left h3 (by norm_num)
      linarith
    · rw [if_neg hq]
      right
      refine ⟨2 ^ 23, q + 1, rfl, by norm_num, by omega, by omega, Or.inl (le_refl _), ?_⟩
      have hq' : (2 : ℚ) ^ (q + 1) = (2 : ℚ) ^ q * 2 := by
        rw [zpow_add₀ h2, zpow_one]
      rw [hq']
      have h5 : (((2 ^ 23 : Nat) : ℚ)) * ((2 : ℚ) ^ q * 2) =
          (2 : ℚ) ^ (24 : Nat) * (2 : ℚ) ^ q := by
        push_cast; ring
      rw [h5]
      calc _ ≤ (2 : ℚ) ^ q / 2 := herr
        _ ≤ (2 : ℚ) ^ q * 2 / 2 := by linarith
  · rw [if_neg hm24]
    have hmlt : m < 2 ^ 24 := lt_of_le_of_ne hm hm24
    by_cases hq : 104 < q
    · rw [if_pos hq]
      left
      refine ⟨rfl, ?_⟩
      have h1 := hbig hq
      have h3 : (2 : ℚ) ^ (105 : Int) ≤ (2 : ℚ) ^ q :=
        zpow_le_zpow_right₀ (by norm_num) (by omega)
      have h4 : (2 : ℚ) ^ (23 : Nat) * (2 : ℚ) ^ (105 : Int) ≤
          (2 : ℚ) ^ (23 : Nat) * (2 : ℚ) ^ q :=
        mul_le_mul_of_nonneg_left h3 (by norm_num)
      have h5 : ((2 : ℚ) ^ (24 : Nat) - 1 / 2) * (2 : ℚ) ^ (104 : Int) ≤
          (2 : ℚ) ^ (23 : Nat) * (2 : ℚ) ^ (105 : Int) := by
        have : (2 : ℚ) ^ (105 : Int) = (2 : ℚ) ^ (104 : Int) * 2 := by
          rw [show (105 : Int) = 104 + 1 from rfl, zpow_add₀ h2, zpow_one]
        rw [this]
        have hp : (0 : ℚ) < (2 : ℚ) ^ (104 : Int) := by positivity
        nlinarith
      linarith
    · rw [if_neg hq]
      right
      exact ⟨m, q, rfl, hmlt, hq1, by omega, hnorm, herr⟩

/-! #### The relative error of the operations -/

/-- The sign of a product or quotient. -/
theorem signRat_xor (a b : Bool) : signRat (xor a b) = signRat a * signRat b := by
  cases a <;> cases b <;> simp [signRat]

/-- A sign factor squares to one. -/
theorem signRat_mul_self (a : Bool) : signRat a * signRat a = 1 := by
  cases a <;> simp [signRat]

/-- The exact value of a finite binary32. -/
theorem toRat_fin (s : Bool) (m : Nat) (e : Int) :
    toRat (fin s m e) = signRat s * ((m : ℚ) * (2 : ℚ) ^ e) := by
  simp [toRat, signRat, mul_assoc]

/-- A normal result of `round` is the exact value up to a relative error of `2^-24`. -/
theorem round_model (s : Bool) (num den : Nat) (e : Int) (hn : 0 < num) (hd : 0 < den)
    (hnb : num < 2 ^ 4096) (hdb : den < 2 ^ 4096)
    (hr : (round s num den e).isNormal = true) :
    ∃ ε : ℚ, |ε| ≤ 1 / 2 ^ 24 ∧
      signRat s * ((num : ℚ) / den * (2 : ℚ) ^ e) = toRat (round s num den e) * (1 + ε) := by
  rcases round_nearest s num den e hn hd hnb hdb with
    ⟨hinf, _⟩ | ⟨m, q, hfin, _, _, _, _, herr⟩
  · rw [hinf] at hr; simp [isNormal] at hr
  · rw [hfin] at hr ⊢
    clear hnb hdb hfin
    simp only [isNormal, decide_eq_true_eq] at hr
    have hm : (2 : ℚ) ^ 23 ≤ (m : ℚ) := by exact_mod_cast hr.1
    have hm0 : (0 : ℚ) < (m : ℚ) := lt_of_lt_of_le (by norm_num) hm
    have hq : (0 : ℚ) < (2 : ℚ) ^ q := zpow_pos (by norm_num) q
    have hR : (0 : ℚ) < (m : ℚ) * (2 : ℚ) ^ q := mul_pos hm0 hq
    refine ⟨((num : ℚ) / den * (2 : ℚ) ^ e - (m : ℚ) * (2 : ℚ) ^ q) /
      ((m : ℚ) * (2 : ℚ) ^ q), ?_, ?_⟩
    · rw [abs_div, abs_of_pos hR, div_le_div_iff₀ hR (by norm_num)]
      rw [abs_sub_comm] at herr
      calc |(num : ℚ) / den * (2 : ℚ) ^ e - (m : ℚ) * (2 : ℚ) ^ q| * 2 ^ 24
          ≤ (2 : ℚ) ^ q / 2 * 2 ^ 24 := by
            apply mul_le_mul_of_nonneg_right herr; norm_num
        _ = 2 ^ 23 * (2 : ℚ) ^ q := by ring
        _ ≤ (m : ℚ) * (2 : ℚ) ^ q := by
            apply mul_le_mul_of_nonneg_right hm (le_of_lt hq)
        _ = 1 * ((m : ℚ) * (2 : ℚ) ^ q) := by ring
    · rw [toRat_fin]
      have hne : (m : ℚ) * (2 : ℚ) ^ q ≠ 0 := ne_of_gt hR
      field_simp
      ring

/-- A normal product is the exact product up to a relative error of `2^-24`. -/
theorem mul_model (a b : F32) (ha : a.isNormal = true) (hb : b.isNormal = true)
    (hr : (mul a b).isNormal = true) :
    ∃ ε : ℚ, |ε| ≤ 1 / 2 ^ 24 ∧ toRat a * toRat b = toRat (mul a b) * (1 + ε) := by
  cases a with
  | nan => simp [isNormal] at ha
  | inf s => simp [isNormal] at ha
  | fin sa ma ea =>
    cases b with
    | nan => simp [isNormal] at hb
    | inf s => simp [isNormal] at hb
    | fin sb mb eb =>
      simp only [isNormal, decide_eq_true_eq] at ha hb
      simp only [mul] at hr ⊢
      have hpos : 0 < ma * mb := Nat.mul_pos (by omega) (by omega)
      have h24 : 2 ^ 24 * 2 ^ 24 ≤ 2 ^ 4096 := by
        rw [← Nat.pow_add]; exact Nat.pow_le_pow_right (by decide) (by decide)
      have hlt : ma * mb < 2 ^ 4096 :=
        lt_of_lt_of_le (Nat.mul_lt_mul'' ha.2 hb.2) h24
      have h1 : 1 < 2 ^ 4096 := Nat.one_lt_two_pow (by decide)
      obtain ⟨ε, hε, h⟩ := round_model (xor sa sb) (ma * mb) 1 (ea + eb) hpos (by decide)
        hlt h1 hr
      refine ⟨ε, hε, ?_⟩
      rw [← h, toRat_fin, toRat_fin, signRat_xor, zpow_add₀ (by norm_num : (2 : ℚ) ≠ 0)]
      push_cast
      ring

/-- A normal quotient is the exact quotient up to a relative error of `2^-24`. -/
theorem div_model (a b : F32) (ha : a.isNormal = true) (hb : b.isNormal = true)
    (hr : (div a b).isNormal = true) :
    ∃ ε : ℚ, |ε| ≤ 1 / 2 ^ 24 ∧ toRat a / toRat b = toRat (div a b) * (1 + ε) := by
  cases a with
  | nan => simp [isNormal] at ha
  | inf s => simp [isNormal] at ha
  | fin sa ma ea =>
    cases b with
    | nan => simp [isNormal] at hb
    | inf s => simp [isNormal] at hb
    | fin sb mb eb =>
      simp only [isNormal, decide_eq_true_eq] at ha hb
      have hmb : mb ≠ 0 := by omega
      simp only [div, if_neg hmb] at hr ⊢
      have hma : 0 < ma := by omega
      have hmb0 : 0 < mb := by omega
      have h24 : 2 ^ 24 ≤ 2 ^ 4096 := Nat.pow_le_pow_right (by decide) (by decide)
      obtain ⟨ε, hε, h⟩ := round_model (xor sa sb) ma mb (ea - eb) hma hmb0
        (lt_of_lt_of_le ha.2 h24) (lt_of_lt_of_le hb.2 h24) hr
      refine ⟨ε, hε, ?_⟩
      rw [← h, toRat_fin, toRat_fin, signRat_xor, zpow_sub₀ (by norm_num : (2 : ℚ) ≠ 0)]
      have hs : signRat sb ≠ 0 := by cases sb <;> simp [signRat]
      have hmq : (mb : ℚ) ≠ 0 := by exact_mod_cast hmb
      have hp : (2 : ℚ) ^ eb ≠ 0 := zpow_ne_zero _ (by norm_num)
      have hss := signRat_mul_self sb
      field_simp
      ring_nf
      rw [show signRat sb ^ 2 = 1 by rw [pow_two]; exact hss]
      ring

/-- The exact value of a normal binary32 is not zero. -/
theorem toRat_ne_zero (a : F32) (ha : a.isNormal = true) : toRat a ≠ 0 := by
  cases a with
  | nan => simp [isNormal] at ha
  | inf s => simp [isNormal] at ha
  | fin s m e =>
    simp only [isNormal, decide_eq_true_eq] at ha
    rw [toRat_fin]
    have hm : (m : ℚ) ≠ 0 := by
      have : m ≠ 0 := by omega
      exact_mod_cast this
    have hs : signRat s ≠ 0 := by cases s <;> simp [signRat]
    have hp : (2 : ℚ) ^ e ≠ 0 := zpow_ne_zero _ (by norm_num)
    exact mul_ne_zero hs (mul_ne_zero hm hp)

/-- A product of two factors between positive bounds. -/
theorem mul_between {x y lx hx ly hy : ℚ} (h0 : 0 < lx) (h0' : 0 < ly)
    (h1 : lx ≤ x ∧ x ≤ hx) (h2 : ly ≤ y ∧ y ≤ hy) :
    lx * ly ≤ x * y ∧ x * y ≤ hx * hy := by
  have hx0 : 0 < x := lt_of_lt_of_le h0 h1.1
  have hy0 : 0 < y := lt_of_lt_of_le h0' h2.1
  constructor
  · exact mul_le_mul h1.1 h2.1 (le_of_lt h0') (le_of_lt hx0)
  · exact mul_le_mul h1.2 h2.2 (le_of_lt hy0) (le_trans (le_of_lt hx0) h1.2)

/-- A factor `1 + ε` with `|ε| ≤ 2^-24`. -/
theorem one_add_between {ε : ℚ} (h : |ε| ≤ 1 / 2 ^ 24) :
    1 - 1 / 2 ^ 24 ≤ 1 + ε ∧ 1 + ε ≤ 1 + 1 / 2 ^ 24 := by
  have := abs_le.mp h
  constructor <;> linarith

/-- The computed acceleration component times five rounding factors is the exact
`n * G * K / dd`, in which the mass does not occur. -/
theorem accel_exact (n dd m : F32) (h : accelNormal n dd m = true) :
    ∃ P : ℚ, (1 - 1 / 2 ^ 24) ^ 5 ≤ P ∧ P ≤ (1 + 1 / 2 ^ 24) ^ 5 ∧
      toRat (div (mul n (div (mul (mul (lit 667430 10000000000) m) (lit 1000000 1)) dd)) m) * P
        = toRat n * toRat (lit 667430 10000000000) * toRat (lit 1000000 1) / toRat dd := by
  simp only [accelNormal, accelSteps, List.all_cons, List.all_nil, Bool.and_true,
    Bool.and_eq_true] at h
  obtain ⟨⟨⟨hn, hdd⟩, hm⟩, h1, h2, h3, h4, h5⟩ := h
  have hG : (lit 667430 10000000000).isNormal = true := by decide!
  have hK : (lit 1000000 1).isNormal = true := by decide!
  obtain ⟨ε1, he1, e1⟩ := mul_model _ _ hG hm h1
  obtain ⟨ε2, he2, e2⟩ := mul_model _ _ h1 hK h2
  obtain ⟨ε3, he3, e3⟩ := div_model _ _ h2 hdd h3
  obtain ⟨ε4, he4, e4⟩ := mul_model _ _ hn h3 h4
  obtain ⟨ε5, he5, e5⟩ := div_model _ _ h4 hm h5
  have hm0 := toRat_ne_zero m hm
  have hdd0 := toRat_ne_zero dd hdd
  have b1 := one_add_between he1
  have b2 := one_add_between he2
  have b3 := one_add_between he3
  have b4 := one_add_between he4
  have b5 := one_add_between he5
  have hl : (0 : ℚ) < 1 - 1 / 2 ^ 24 := by norm_num
  have c12 := mul_between hl hl b1 b2
  have c123 := mul_between (mul_pos hl hl) hl c12 b3
  have c1234 := mul_between (mul_pos (mul_pos hl hl) hl) hl c123 b4
  have c := mul_between (mul_pos (mul_pos (mul_pos hl hl) hl) hl) hl c1234 b5
  refine ⟨(1 + ε1) * (1 + ε2) * (1 + ε3) * (1 + ε4) * (1 + ε5), ?_, ?_, ?_⟩
  · calc (1 - 1 / 2 ^ 24 : ℚ) ^ 5
        = (1 - 1 / 2 ^ 24) * (1 - 1 / 2 ^ 24) * (1 - 1 / 2 ^ 24) * (1 - 1 / 2 ^ 24) *
          (1 - 1 / 2 ^ 24) := by ring
      _ ≤ _ := c.1
  · calc (1 + ε1) * (1 + ε2) * (1 + ε3) * (1 + ε4) * (1 + ε5)
        ≤ (1 + 1 / 2 ^ 24) * (1 + 1 / 2 ^ 24) * (1 + 1 / 2 ^ 24) * (1 + 1 / 2 ^ 24) *
          (1 + 1 / 2 ^ 24) := c.2
      _ = (1 + 1 / 2 ^ 24 : ℚ) ^ 5 := by ring
  · generalize toRat (div (mul n (div (mul (mul (lit 667430 10000000000) m)
      (lit 1000000 1)) dd)) m) = t5 at e5 ⊢
    generalize toRat (mul n (div (mul (mul (lit 667430 10000000000) m)
      (lit 1000000 1)) dd)) = t4 at e4 e5
    generalize toRat (div (mul (mul (lit 667430 10000000000) m) (lit 1000000 1)) dd) = t3
      at e3 e4
    generalize toRat (mul (mul (lit 667430 10000000000) m) (lit 1000000 1)) = t2 at e2 e3
    generalize toRat (mul (lit 667430 10000000000) m) = t1 at e1 e2
    generalize toRat (lit 667430 10000000000) = g at e1 ⊢
    generalize toRat (lit 1000000 1) = k at e2 ⊢
    generalize toRat n = nn at e4 ⊢
    generalize toRat m = mm at e1 e5 hm0
    generalize toRat dd = d at e3 hdd0 ⊢
    have e5' : t5 * (1 + ε5) = t4 / mm := e5.symm
    have e4' : t4 * (1 + ε4) = nn * t3 := e4.symm
    have e3' : t3 * (1 + ε3) = t2 / d := e3.symm
    have e2' : t2 * (1 + ε2) = t1 * k := e2.symm
    have e1' : t1 * (1 + ε1) = g * mm := e1.symm
    have : t5 * ((1 + ε1) * (1 + ε2) * (1 + ε3) * (1 + ε4) * (1 + ε5)) * mm * d =
        nn * g * k * mm := by
      calc t5 * ((1 + ε1) * (1 + ε2) * (1 + ε3) * (1 + ε4) * (1 + ε5)) * mm * d
          = (t5 * (1 + ε5)) * mm * d * ((1 + ε1) * (1 + ε2) * (1 + ε3) * (1 + ε4)) := by ring
        _ = t4 * d * ((1 + ε1) * (1 + ε2) * (1 + ε3) * (1 + ε4)) := by
            rw [e5']; field_simp
        _ = (t4 * (1 + ε4)) * d * ((1 + ε1) * (1 + ε2) * (1 + ε3)) := by ring
        _ = nn * (t3 * (1 + ε3)) * d * ((1 + ε1) * (1 + ε2)) := by rw [e4']; ring
        _ = nn * t2 * ((1 + ε1) * (1 + ε2)) := by rw [e3']; field_simp
        _ = nn * (t2 * (1 + ε2)) * (1 + ε1) := by ring
        _ = nn * (t1 * (1 + ε1)) * k := by rw [e2']; ring
        _ = nn * g * k * mm := by rw [e1']; ring
    have h' : t5 * ((1 + ε1) * (1 + ε2) * (1 + ε3) * (1 + ε4) * (1 + ε5)) * d * mm =
        nn * g * k * mm := by rw [← this]; ring
    rw [eq_div_iff hdd0]
    exact mul_right_cancel₀ hm0 h'

/-- In binary32 the acceleration component computed for a mass `m₁` and the one computed
for a mass `m₂`, from the same direction and distance, differ by at most a relative
`2^-20`, when the operands and all intermediate results are normal numbers. -/
theorem accel_close (n dd m₁ m₂ : F32) (h₁ : accelNormal n dd m₁ = true)
    (h₂ : accelNormal n dd m₂ = true) :
    |toRat (div (mul n (div (mul (mul (lit 667430 10000000000) m₁) (lit 1000000 1)) dd)) m₁) -
      toRat (div (mul n (div (mul (mul (lit 667430 10000000000) m₂) (lit 1000000 1)) dd)) m₂)|
      ≤ 1 / 2 ^ 20 *
        |toRat (div (mul n (div (mul (mul (lit 667430 10000000000) m₂) (lit 1000000 1)) dd))
          m₂)| := by
  obtain ⟨P₁, hl₁, hu₁, e₁⟩ := accel_exact n dd m₁ h₁
  obtain ⟨P₂, hl₂, hu₂, e₂⟩ := accel_exact n dd m₂ h₂
  generalize toRat (div (mul n (div (mul (mul (lit 667430 10000000000) m₁)
    (lit 1000000 1)) dd)) m₁) = x at e₁ ⊢
  generalize toRat (div (mul n (div (mul (mul (lit 667430 10000000000) m₂)
    (lit 1000000 1)) dd)) m₂) = y at e₂ ⊢
  have hlo : (0 : ℚ) < (1 - 1 / 2 ^ 24) ^ 5 := by norm_num
  have hP₁ : 0 < P₁ := lt_of_lt_of_le hlo hl₁
  have hxy : x * P₁ = y * P₂ := by rw [e₁, e₂]
  have hx : x - y = y * ((P₂ - P₁) / P₁) := by
    have hP : P₁ ≠ 0 := ne_of_gt hP₁
    field_simp
    linarith
  rw [hx, abs_mul, mul_comm]
  apply mul_le_mul_of_nonneg_right _ (abs_nonneg y)
  rw [abs_div, abs_of_pos hP₁, div_le_iff₀ hP₁, abs_le]
  constructor
  · have : (1 / 2 ^ 20 : ℚ) * P₁ ≥ 1 / 2 ^ 20 * (1 - 1 / 2 ^ 24) ^ 5 :=
      mul_le_mul_of_nonneg_left hl₁ (by norm_num)
    have h3 : (1 + 1 / 2 ^ 24 : ℚ) ^ 5 - (1 - 1 / 2 ^ 24) ^ 5 ≤
        1 / 2 ^ 20 * (1 - 1 / 2 ^ 24) ^ 5 := by norm_num
    linarith
  · have : (1 / 2 ^ 20 : ℚ) * P₁ ≥ 1 / 2 ^ 20 * (1 - 1 / 2 ^ 24) ^ 5 :=
      mul_le_mul_of_nonneg_left hl₁ (by norm_num)
    have h3 : (1 + 1 / 2 ^ 24 : ℚ) ^ 5 - (1 - 1 / 2 ^ 24) ^ 5 ≤
        1 / 2 ^ 20 * (1 - 1 / 2 ^ 24) ^ 5 := by norm_num
    linarith

/-! #### Signs and NaN -/

/-- No value is below itself. -/
theorem lt_irrefl (a : F32) : lt a a = false := by
  cases a <;> simp [lt]

/-- Rounding keeps the sign and never produces a NaN. -/
theorem round_cases (s : Bool) (num den : Nat) (e : Int) :
    round s num den e = inf s ∨ ∃ m q, round s num den e = fin s m q := by
  unfold round
  simp only
  split_ifs <;> first | exact Or.inl rfl | exact Or.inr ⟨_, _, rfl⟩

/-- Rounding never produces a NaN. -/
theorem round_isNaN (s : Bool) (num den : Nat) (e : Int) : (round s num den e).isNaN = false := by
  rcases round_cases s num den e with h | ⟨m, q, h⟩ <;> rw [h] <;> rfl

/-- On values that are not NaN, `<` and `≤` are complementary. -/
theorem le_of_not_lt (a b : F32) (ha : a.isNaN = false) (hb : b.isNaN = false)
    (h : lt a b = false) : le b a = true := by
  cases a with
  | nan => simp [isNaN] at ha
  | inf sa =>
    cases b with
    | nan => simp [isNaN] at hb
    | inf sb => cases sa <;> cases sb <;> simp_all [lt, le]
    | fin sb mb eb => cases sa <;> simp_all [lt, le]
  | fin sa ma ea =>
    cases b with
    | nan => simp [isNaN] at hb
    | inf sb => cases sb <;> simp_all [lt, le]
    | fin sb mb eb =>
      simp only [lt, decide_eq_false_iff_not, not_lt] at h
      simp only [le, decide_eq_true_eq]
      rw [min_comm eb ea]
      exact h

/-- A finite value plus a value that is not NaN is not NaN. -/
theorem add_fin_isNaN (s : Bool) (m : Nat) (e : Int) (b : F32) (hb : b.isNaN = false) :
    (add (fin s m e) b).isNaN = false := by
  cases b with
  | nan => simp [isNaN] at hb
  | inf sb => rfl
  | fin sb mb eb =>
    simp only [add]
    split
    · rfl
    · exact round_isNaN _ _ _ _

/-- Unary minus keeps a value that is not NaN not NaN. -/
theorem neg_isNaN (b : F32) (hb : b.isNaN = false) : (neg b).isNaN = false := by
  cases b <;> simp_all [neg, isNaN]

/-- A finite value minus a value that is not NaN is not NaN. -/
theorem sub_fin_isNaN (s : Bool) (m : Nat) (e : Int) (b : F32) (hb : b.isNaN = false) :
    (sub (fin s m e) b).isNaN = false :=
  add_fin_isNaN s m e _ (neg_isNaN b hb)

/-- Rounding with a clear sign bit gives a value that is not negative. -/
theorem round_false_isNonneg (num den : Nat) (e : Int) :
    (round false num den e).isNonneg = true := by
  rcases round_cases false num den e with h | ⟨m, q, h⟩ <;> rw [h] <;> rfl

/-- A square is not NaN and not negative. -/
theorem mul_self_isNonneg (a : F32) (ha : a.isNaN = false) : (mul a a).isNonneg = true := by
  cases a with
  | nan => simp [isNaN] at ha
  | inf s => simp [mul, isNonneg]
  | fin s m e =>
    simp only [mul, Bool.xor_self]
    exact round_false_isNonneg _ _ _

/-- A scaled magnitude with a clear sign bit is not negative. -/
theorem scaled_false_nonneg (m : Nat) (s : Int) : 0 ≤ scaled false m s := by
  simp [scaled]

/-- The sum of two values that are not negative is not negative. -/
theorem add_isNonneg (a b : F32) (ha : a.isNonneg = true) (hb : b.isNonneg = true) :
    (add a b).isNonneg = true := by
  cases a with
  | nan => simp [isNonneg] at ha
  | inf sa =>
    cases b with
    | nan => simp [isNonneg] at hb
    | inf sb => simp_all [isNonneg, add]
    | fin sb mb eb => simpa [add, isNonneg] using ha
  | fin sa ma ea =>
    cases b with
    | nan => simp [isNonneg] at hb
    | inf sb => simpa [add, isNonneg] using hb
    | fin sb mb eb =>
      simp only [isNonneg, Bool.not_eq_true'] at ha hb
      subst ha hb
      simp only [add]
      split
      · rfl
      · have h1 := scaled_false_nonneg ma (ea - min ea eb)
        have h2 := scaled_false_nonneg mb (eb - min ea eb)
        have h3 : ¬ (scaled false ma (ea - min ea eb) + scaled false mb (eb - min ea eb) < 0) := by
          omega
        simp only [h3, decide_False]
        exact round_false_isNonneg _ _ _

/-- The square root of a value that is not negative is not NaN. -/
theorem sqrt_isNaN (a : F32) (ha : a.isNonneg = true) : (sqrt a).isNaN = false := by
  cases a with
  | nan => simp [isNonneg] at ha
  | inf s =>
    simp only [isNonneg, Bool.not_eq_true'] at ha
    subst ha
    rfl
  | fin s m e =>
    simp only [isNonneg, Bool.not_eq_true'] at ha
    subst ha
    simp only [sqrt]
    split
    · rfl
    · simp only [Bool.false_eq_true, if_false]
      exact round_isNaN _ _ _ _

/-- A zero is below every positive finite value. -/
theorem lt_of_isZero (a : F32) (m : Nat) (e : Int) (ha : a.isZero = true) (hm : 0 < m) :
    lt a (fin false m e) = true := by
  cases a with
  | nan => simp [isZero] at ha
  | inf s => simp [isZero] at ha
  | fin sa ma ea =>
    simp only [isZero, decide_eq_true_eq] at ha
    subst ha
    simp only [lt, decide_eq_true_eq]
    have : (0 : Int) < ((m * 2 ^ (e - min ea e).toNat : Nat) : Int) := by
      have : 0 < m * 2 ^ (e - min ea e).toNat := Nat.mul_pos hm (Nat.pow_pos (by decide))
      exact_mod_cast this
    cases sa <;> simpa [scaled] using this

end F32

/-- The members `setupPlanets` gives the sun, in binary32. -/
theorem new_sun :
    (GravitySimulation.new F32.arith).sun =
      { radius := F32.fin false 10485760 (-18),
        origin := ⟨F32.fin false 10485760 (-18), F32.fin false 10485760 (-18)⟩,
        position := ⟨F32.fin false 13107200 (-14), F32.fin false 14745600 (-15)⟩,
        fillColor := Color.Yellow } := by
  decide!

/-- The Euclidean distance `calculateGravity` computes to the documented sun is a NaN only
when the planet's position has a NaN coordinate. -/
theorem length_isNaN (P : Vec2 F32) (hx : P.x.isNaN = false) (hy : P.y.isNaN = false) :
    (Spec.length F32.arith
      (Vec2.sub F32.arith (GravitySimulation.new F32.arith).sun.position P)).isNaN = false := by
  rw [new_sun]
  simp only [Spec.length, Vec2.sub, F32.arith]
  apply F32.sqrt_isNaN
  apply F32.add_isNonneg
  · exact F32.mul_self_isNonneg _ (F32.sub_fin_isNaN _ _ _ _ hx)
  · exact F32.mul_self_isNonneg _ (F32.sub_fin_isNaN _ _ _ _ hy)

/-- Claim C3: in binary32, with the sun of `setupPlanets` (radius 40), for every planet
position the distance `calculateGravity` uses in the force formula and in the normalisation
is `max(|S - P|, R)`; it is never below the sun's radius 40 (for a position without NaN
coordinate it is at least 40), it is never zero, and for a planet exactly at the sun's
center it is the sun's radius. -/
theorem clampedDistance_clamp (p : Planet F32) :
    (GravitySimulation.new F32.arith).sun.radius = F32.lit 40 1 ∧
    clampedDistance F32.arith (GravitySimulation.new F32.arith) p =
      Spec.max F32.arith
        (Spec.length F32.arith
          (Vec2.sub F32.arith (GravitySimulation.new F32.arith).sun.position p.shape.position))
        (F32.lit 40 1) ∧
    calculateGravity F32.arith (GravitySimulation.new F32.arith) p =
      Vec2.scale F32.arith
        (Vec2.divide F32.arith
          (Vec2.sub F32.arith (GravitySimulation.new F32.arith).sun.position p.shape.position)
          (clampedDistance F32.arith (GravitySimulation.new F32.arith) p))
        (F32.div (F32.mul (F32.mul (G F32.arith) p.mass) (F32.lit 1000000 1))
          (F32.mul (clampedDistance F32.arith (GravitySimulation.new F32.arith) p)
            (clampedDistance F32.arith (GravitySimulation.new F32.arith) p))) ∧
    F32.lt (clampedDistance F32.arith (GravitySimulation.new F32.arith) p) (F32.lit 40 1)
      = false ∧
    (p.shape.position.x.isNaN = false → p.shape.position.y.isNaN = false →
      F32.le (F32.lit 40 1) (clampedDistance F32.arith (GravitySimulation.new F32.arith) p)
        = true) ∧
    (clampedDistance F32.arith (GravitySimulation.new F32.arith) p).isZero = false ∧
    (p.shape.position = (GravitySimulation.new F32.arith).sun.position →
      clampedDistance F32.arith (GravitySimulation.new F32.arith) p = F32.lit 40 1) := by
  have hR : (GravitySimulation.new F32.arith).sun.radius = F32.lit 40 1 := by decide!
  have h40 : F32.lit 40 1 = F32.fin false 10485760 (-18) := by decide!
  have hd : clampedDistance F32.arith (GravitySimulation.new F32.arith) p =
      Spec.max F32.arith
        (Spec.length F32.arith
          (Vec2.sub F32.arith (GravitySimulation.new F32.arith).sun.position p.shape.position))
        (F32.lit 40 1) := by
    rw [clampedDistance_eq_distance, hR]
    rfl
  refine ⟨hR, hd, rfl, ?_, ?_, ?_, ?_⟩
  · rw [hd]
    unfold Spec.max
    split
    · exact F32.lt_irrefl _
    · rename_i h
      simpa [F32.arith] using h
  · intro hx hy
    have hn := length_isNaN p.shape.position hx hy
    rw [hd]
    unfold Spec.max
    split
    · rw [h40]; decide!
    · rename_i h
      exact F32.le_of_not_lt _ _ hn (by rw [h40]; rfl) (by simpa [F32.arith] using h)
  · rw [hd]
    unfold Spec.max
    split
    · rw [h40]; rfl
    · rename_i h
      cases hz : F32.isZero (Spec.length F32.arith
          (Vec2.sub F32.arith (GravitySimulation.new F32.arith).sun.position p.shape.position))
      · rfl
      · exfalso
        apply h
        rw [h40]
        exact F32.lt_of_isZero _ _ _ hz (by decide)
  · intro hp
    rw [hd, hp]
    decide!

/-- A use of claim C3: the first documented planet is at least 40 from the sun, and a
planet at the sun's center (800, 450) gets the distance 40. -/
theorem clampedDistance_clamp_witness :
    F32.le (F32.lit 40 1)
        (clampedDistance F32.arith (GravitySimulation.new F32.arith) (testPlanet 1000 950 0))
        = true ∧
      clampedDistance F32.arith (GravitySimulation.new F32.arith) (testPlanet 1000 800 0)
        = F32.lit 40 1 :=
  ⟨(clampedDistance_clamp (testPlanet 1000 950 0)).2.2.2.2.1 (by decide!) (by decide!),
    (clampedDistance_clamp (testPlanet 1000 800 0)).2.2.2.2.2.2 (by decide!)⟩

/-- The sun and the first planet of `setupPlanets` are the specification's test input. -/
theorem testInput_documented :
    (GravitySimulation.new F32.arith).sun = (testWorld []).sun ∧
      (GravitySimulation.new F32.arith).planets[0]? = some (testPlanet 1000 950 0) := by
  decide!

/-- Claim C5 fails: for the specification's literal test input (sun at (800, 450) with
radius 40, planet of mass 1000 at (950, 450) with velocity (0, -0.9)), after one step the
y-component of the new velocity is not greater than -0.9. -/
theorem velocity_y_not_increased :
    (update F32.arith (testWorld [testPlanet 1000 950 0])).planets.map
      (fun p => F32.lt (F32.neg (F32.lit 9 10)) p.velocity.y) = [false] := by
  decide!

/-- Claim C5, as amended: for the specification's literal test input, after one step the
y-component of the planet's velocity is unchanged, exactly the binary32 value of -0.9 (the
planet and the sun have the same y, so the force is along x), and the x-component has
decreased from 0 to the negative value `-10192320 * 2^-35` (about -0.00029664), toward
the sun.  The first planet of the documented world is this planet. -/
theorem velocity_after_one_step :
    (testPlanet 1000 950 0).velocity = ⟨F32.lit 0 1, F32.neg (F32.lit 9 10)⟩ ∧
      (update F32.arith (testWorld [testPlanet 1000 950 0])).planets.map (fun p => p.velocity) =
        [⟨F32.fin true 10192320 (-35), F32.neg (F32.lit 9 10)⟩] ∧
      F32.lt (F32.fin true 10192320 (-35)) (F32.lit 0 1) = true ∧
      (update F32.arith (GravitySimulation.new F32.arith)).planets[0]? =
        (update F32.arith (testWorld [testPlanet 1000 950 0])).planets[0]? := by
  decide!

/-- Claim C7 fails: the constructor produces a `Planet` for mass 0 and for mass -1, and
stores that mass; such a planet has no mass `> 0`.  (One `update` then divides by the zero
mass: the planet's velocity becomes NaN.) -/
theorem planet_new_accepts_nonpositive_mass :
    (Planet.new F32.arith (F32.lit 10 1) (F32.lit 0 1) ⟨F32.lit 950 1, F32.lit 450 1⟩
        ⟨F32.lit 0 1, F32.neg (F32.lit 9 10)⟩ Color.Blue).mass = F32.lit 0 1 ∧
      F32.lt (F32.lit 0 1)
        (Planet.new F32.arith (F32.lit 10 1) (F32.lit 0 1) ⟨F32.lit 950 1, F32.lit 450 1⟩
          ⟨F32.lit 0 1, F32.neg (F32.lit 9 10)⟩ Color.Blue).mass = false ∧
      (Planet.new F32.arith (F32.lit 10 1) (F32.neg (F32.lit 1 1))
          ⟨F32.lit 950 1, F32.lit 450 1⟩ ⟨F32.lit 0 1, F32.neg (F32.lit 9 10)⟩
          Color.Blue).mass = F32.neg (F32.lit 1 1) ∧
      F32.lt (F32.lit 0 1)
        (Planet.new F32.arith (F32.lit 10 1) (F32.neg (F32.lit 1 1))
          ⟨F32.lit 950 1, F32.lit 450 1⟩ ⟨F32.lit 0 1, F32.neg (F32.lit 9 10)⟩
          Color.Blue).mass = false ∧
      (update F32.arith (testWorld [testPlanet 0 950 0])).planets.map (fun p => p.velocity) =
        [⟨F32.nan, F32.nan⟩] := by
  decide!

/-- The masses never change under `update`. -/
theorem iterate_update_mass {F : Type} (A : Arith F) (N : Nat) (s : GravitySimulation F) :
    ((update A)^[N] s).planets.map (fun p => p.mass) = s.planets.map (fun p => p.mass) := by
  induction N generalizing s with
  | zero => rfl
  | succ n ih =>
    rw [Function.iterate_succ_apply, ih, update_eq]
    simp only [List.map_map]
    apply List.map_congr_left
    intro p _
    rfl

/-- Claim C7, as amended: the `Planet` constructor does not check the mass.  For every
arithmetic and every argument list, zero and negative masses included, it produces a
`Planet` that stores the given mass (and radius, position, velocity and color).  The planets
the program itself constructs have the masses 1000, 1500 and 800 and keep them through any
number of calls of `update`; in binary32 these are `> 0`. -/
theorem planet_new_stores_mass {F : Type} (A : Arith F) (radius mass : F)
    (position initialVelocity : Vec2 F) (color : Color) (N : Nat) :
    (Planet.new A radius mass position initialVelocity color).mass = mass ∧
      (Planet.new A radius mass position initialVelocity color).velocity = initialVelocity ∧
      (Planet.new A radius mass position initialVelocity color).shape =
        { radius := radius, origin := ⟨radius, radius⟩, position := position,
          fillColor := color } ∧
      ((update A)^[N] (GravitySimulation.new A)).planets.map (fun p => p.mass) =
        [A.lit 1000 1, A.lit 1500 1, A.lit 800 1] ∧
      [F32.lit 1000 1, F32.lit 1500 1, F32.lit 800 1].all (fun m => F32.lt (F32.lit 0 1) m)
        = true := by
  refine ⟨rfl, rfl, rfl, ?_, by decide!⟩
  rw [iterate_update_mass]
  rfl

/-- The operations of one `update` on the x-velocity of a planet of mass 1000 and of a
planet of mass 800 at (950, 450), in binary32, one after the other: `G * m`, `G * m * K`,
the distance 150, its square, `force`, `direction.x / distance`, the force's x-component,
the acceleration's, and its product with `timeStep`.  The quotients by the mass differ in
the last bit. -/
theorem acceleration_steps :
    G F32.arith = F32.fin false 9173088 (-37) ∧
      timeStep F32.arith = F32.fin false 13421773 (-27) ∧
      F32.mul (G F32.arith) (F32.lit 1000 1) = F32.fin false 8958094 (-27) ∧
      F32.mul (F32.fin false 8958094 (-27)) (F32.lit 1000000 1) = F32.fin false 8543104 (-7) ∧
      F32.mul (G F32.arith) (F32.lit 800 1) = F32.fin false 14332950 (-28) ∧
      F32.mul (F32.fin false 14332950 (-28)) (F32.lit 1000000 1) = F32.fin false 13668966 (-8) ∧
      clampedDistance F32.arith (testWorld []) (testPlanet 1000 950 0) = F32.lit 150 1 ∧
      F32.mul (F32.lit 150 1) (F32.lit 150 1) = F32.lit 22500 1 ∧
      F32.div (F32.fin false 8543104 (-7)) (F32.lit 22500 1) = F32.fin false 12441797 (-22) ∧
      F32.div (F32.fin false 13668966 (-8)) (F32.lit 22500 1) = F32.fin false 9953437 (-22) ∧
      F32.div (F32.sub (F32.lit 800 1) (F32.lit 950 1)) (F32.lit 150 1) = F32.neg (F32.lit 1 1) ∧
      F32.mul (F32.neg (F32.lit 1 1)) (F32.fin false 12441797 (-22)) =
        F32.fin true 12441797 (-22) ∧
      F32.mul (F32.neg (F32.lit 1 1)) (F32.fin false 9953437 (-22)) =
        F32.fin true 9953437 (-22) ∧
      F32.div (F32.fin true 12441797 (-22)) (F32.lit 1000 1) = F32.fin true 12740400 (-32) ∧
      F32.div (F32.fin true 9953437 (-22)) (F32.lit 800 1) = F32.fin true 12740399 (-32) ∧
      F32.mul (F32.fin true 12740400 (-32)) (timeStep F32.arith) =
        F32.fin true 10192320 (-35) ∧
      F32.mul (F32.fin true 12740399 (-32)) (timeStep F32.arith) =
        F32.fin true 10192319 (-35) := by
  decide!

/-- Claim C4 fails in the program's arithmetic: in binary32, two planets started at the
same position (950, 450) with the same velocity (0, -0.9), one of mass 1000 and one of
mass 800 (both `> 0`; both are masses of documented planets), have different velocities
after one `update`: the x-components are `-10192320 * 2^-35` and `-10192319 * 2^-35`
(the steps are in `acceleration_steps`; on the way to the velocity every product that is
added to something is exact or is added to zero, so a fused multiply-add changes nothing).
With the mass `2^127` the product `G * m * K` overflows and the velocity is not finite. -/
theorem mass_matters_binary32 :
    F32.lt (F32.lit 0 1) (testPlanet 1000 950 0).mass = true ∧
      F32.lt (F32.lit 0 1) (testPlanet 800 950 0).mass = true ∧
      F32.lt (F32.lit 0 1) (testPlanet (2 ^ 127) 950 0).mass = true ∧
      (testPlanet 1000 950 0).shape.position = (testPlanet 800 950 0).shape.position ∧
      (testPlanet 1000 950 0).velocity = (testPlanet 800 950 0).velocity ∧
      (update F32.arith (testWorld [testPlanet 1000 950 0, testPlanet 800 950 0,
          testPlanet (2 ^ 127) 950 0])).planets.map (fun p => p.velocity) =
        [⟨F32.fin true 10192320 (-35), F32.neg (F32.lit 9 10)⟩,
          ⟨F32.fin true 10192319 (-35), F32.neg (F32.lit 9 10)⟩,
          ⟨F32.inf true, F32.nan⟩] := by
  decide!

/-! ### Exact arithmetic -/

section Exact

variable {F : Type} [Field F]

/-- The planet's mass cancels from `((a * ((g * m * k) / dd)) / m`. -/
theorem mass_cancel_scalar (a g m k dd : F) (hm : m ≠ 0) :
    a * (g * m * k / dd) / m = a * (g * k / dd) := by
  calc a * (g * m * k / dd) / m = a * (g * k / dd) * m / m := by ring
    _ = a * (g * k / dd) := mul_div_cancel_right₀ _ hm

/-- In exact arithmetic the acceleration does not contain the mass. -/
theorem acceleration_exact (sqrt : F → F) (lt : F → F → Bool) (s : GravitySimulation F)
    (p : Planet F) (hm : p.mass ≠ 0) :
    Vec2.divide (fieldArith sqrt lt) (calculateGravity (fieldArith sqrt lt) s p) p.mass =
      Vec2.scale (fieldArith sqrt lt)
        (Vec2.divide (fieldArith sqrt lt)
          (Vec2.sub (fieldArith sqrt lt) s.sun.position p.shape.position)
          (clampedDistance (fieldArith sqrt lt) s p))
        (G (fieldArith sqrt lt) * ((1000000 : ℕ) / (1 : ℕ)) /
          (clampedDistance (fieldArith sqrt lt) s p *
            clampedDistance (fieldArith sqrt lt) s p)) := by
  have hc : calculateGravity (fieldArith sqrt lt) s p =
      Vec2.scale (fieldArith sqrt lt)
        (Vec2.divide (fieldArith sqrt lt)
          (Vec2.sub (fieldArith sqrt lt) s.sun.position p.shape.position)
          (clampedDistance (fieldArith sqrt lt) s p))
        ((fieldArith sqrt lt).div
          ((fieldArith sqrt lt).mul ((fieldArith sqrt lt).mul (G (fieldArith sqrt lt)) p.mass)
            ((fieldArith sqrt lt).lit 1000000 1))
          ((fieldArith sqrt lt).mul (clampedDistance (fieldArith sqrt lt) s p)
            (clampedDistance (fieldArith sqrt lt) s p))) := rfl
  rw [hc]
  generalize clampedDistance (fieldArith sqrt lt) s p = d
  generalize G (fieldArith sqrt lt) = g
  simp only [Vec2.divide, Vec2.scale, Vec2.sub, fieldArith, Vec2.mk.injEq]
  constructor <;> exact mass_cancel_scalar _ _ _ _ _ hm

/-- In exact arithmetic one step takes planets with equal position and velocity, and
nonzero masses, to planets with equal position and velocity. -/
theorem updatePlanet_exact (sqrt : F → F) (lt : F → F → Bool) (s : GravitySimulation F)
    (p q : Planet F) (hpos : p.shape.position = q.shape.position)
    (hvel : p.velocity = q.velocity) (hp : p.mass ≠ 0) (hq : q.mass ≠ 0) :
    (updatePlanet (fieldArith sqrt lt) s p).shape.position =
        (updatePlanet (fieldArith sqrt lt) s q).shape.position ∧
      (updatePlanet (fieldArith sqrt lt) s p).velocity =
        (updatePlanet (fieldArith sqrt lt) s q).velocity := by
  have hv : (updatePlanet (fieldArith sqrt lt) s p).velocity =
      (updatePlanet (fieldArith sqrt lt) s q).velocity := by
    rw [updatePlanet_velocity, updatePlanet_velocity, acceleration_exact sqrt lt s p hp,
      acceleration_exact sqrt lt s q hq, clampedDistance_eq_distance,
      clampedDistance_eq_distance, hpos, hvel]
  refine ⟨?_, hv⟩
  rw [updatePlanet_position, updatePlanet_position, hv, hpos]

/-- In exact arithmetic two worlds with the same sun whose planets agree, one by one, in
position and velocity and have nonzero masses still agree in every planet's position and
velocity after any number `N` of calls of `update`. -/
theorem iterate_update_exact (sqrt : F → F) (lt : F → F → Bool)
    (s₁ s₂ : GravitySimulation F) (N : Nat) (hsun : s₁.sun = s₂.sun)
    (h : List.Forall₂ (fun p q => p.shape.position = q.shape.position ∧
      p.velocity = q.velocity ∧ p.mass ≠ 0 ∧ q.mass ≠ 0) s₁.planets s₂.planets) :
    List.Forall₂ (fun p q => p.shape.position = q.shape.position ∧ p.velocity = q.velocity)
      ((update (fieldArith sqrt lt))^[N] s₁).planets
      ((update (fieldArith sqrt lt))^[N] s₂).planets := by
  induction N generalizing s₁ s₂ with
  | zero => exact h.imp (fun _ _ hpq => ⟨hpq.1, hpq.2.1⟩)
  | succ n ih =>
    rw [Function.iterate_succ_apply, Function.iterate_succ_apply]
    apply ih
    · rw [update_eq, update_eq]
      exact hsun
    · rw [update_eq, update_eq]
      simp only [List.forall₂_map_left_iff, List.forall₂_map_right_iff]
      refine h.imp ?_
      rintro p q ⟨hpos, hvel, hp, hq⟩
      have := updatePlanet_exact sqrt lt s₁ p q hpos hvel hp hq
      rw [updatePlanet_congr _ s₂ s₁ q hsun.symm]
      exact ⟨this.1, this.2, hp, hq⟩

end Exact

/-- The acceleration component of line 71 in binary32, written out. -/
theorem acceleration_eq (s : GravitySimulation F32) (p : Planet F32) :
    (acceleration F32.arith s p).x =
        F32.div (F32.mul (normalizedDirection F32.arith s p).x
          (F32.div (F32.mul (F32.mul (F32.lit 667430 10000000000) p.mass) (F32.lit 1000000 1))
            (F32.mul (clampedDistance F32.arith s p) (clampedDistance F32.arith s p))))
          p.mass ∧
      (acceleration F32.arith s p).y =
        F32.div (F32.mul (normalizedDirection F32.arith s p).y
          (F32.div (F32.mul (F32.mul (F32.lit 667430 10000000000) p.mass) (F32.lit 1000000 1))
            (F32.mul (clampedDistance F32.arith s p) (clampedDistance F32.arith s p))))
          p.mass :=
  ⟨rfl, rfl⟩

/-- The direction and the distance do not depend on the mass. -/
theorem normalizedDirection_congr {F : Type} (A : Arith F) (s : GravitySimulation F)
    (p q : Planet F) (h : p.shape.position = q.shape.position) :
    normalizedDirection A s p = normalizedDirection A s q ∧
      clampedDistance A s p = clampedDistance A s q := by
  simp only [normalizedDirection, clampedDistance, CircleShape.getPosition, h]
  exact ⟨trivial, trivial⟩

/-- Claim C4, as amended.  In exact arithmetic (a field: no rounding, no overflow) the
planet's own mass is irrelevant to its trajectory: two worlds with the same sun whose
planets agree, one by one, in position and velocity and have nonzero masses still agree in
every planet's position and velocity after any number `N` of calls of `update`.  In
binary32 the mass enters only through the rounding of the acceleration `F / m`: for two
planets at the same position each component of the acceleration differs by at most a
relative `2^-20` when the operands and intermediate results of its computation are normal
numbers; and, in every arithmetic, `update` computes the new velocity and position from
the old ones and the acceleration alone. -/
theorem mass_irrelevant :
    (∀ (F : Type) [Field F] (sqrt : F → F) (lt : F → F → Bool)
      (s₁ s₂ : GravitySimulation F) (N : Nat), s₁.sun = s₂.sun →
      List.Forall₂ (fun p q => p.shape.position = q.shape.position ∧
        p.velocity = q.velocity ∧ p.mass ≠ 0 ∧ q.mass ≠ 0) s₁.planets s₂.planets →
      List.Forall₂ (fun p q => p.shape.position = q.shape.position ∧ p.velocity = q.velocity)
        ((update (fieldArith sqrt lt))^[N] s₁).planets
        ((update (fieldArith sqrt lt))^[N] s₂).planets) ∧
    (∀ (s : GravitySimulation F32) (p q : Planet F32),
      p.shape.position = q.shape.position →
      (F32.accelNormal (normalizedDirection F32.arith s p).x
          (F32.mul (clampedDistance F32.arith s p) (clampedDistance F32.arith s p)) p.mass
          = true →
        F32.accelNormal (normalizedDirection F32.arith s p).x
          (F32.mul (clampedDistance F32.arith s p) (clampedDistance F32.arith s p)) q.mass
          = true →
        |(acceleration F32.arith s p).x.toRat - (acceleration F32.arith s q).x.toRat| ≤
          1 / 2 ^ 20 * |(acceleration F32.arith s q).x.toRat|) ∧
      (F32.accelNormal (normalizedDirection F32.arith s p).y
          (F32.mul (clampedDistance F32.arith s p) (clampedDistance F32.arith s p)) p.mass
          = true →
        F32.accelNormal (normalizedDirection F32.arith s p).y
          (F32.mul (clampedDistance F32.arith s p) (clampedDistance F32.arith s p)) q.mass
          = true →
        |(acceleration F32.arith s p).y.toRat - (acceleration F32.arith s q).y.toRat| ≤
          1 / 2 ^ 20 * |(acceleration F32.arith s q).y.toRat|)) ∧
    (∀ (F : Type) (A : Arith F) (s : GravitySimulation F) (p q : Planet F),
      p.shape.position = q.shape.position → p.velocity = q.velocity →
      acceleration A s p = acceleration A s q →
      (updatePlanet A s p).velocity = (updatePlanet A s q).velocity ∧
        (updatePlanet A s p).shape.position = (updatePlanet A s q).shape.position) := by
  refine ⟨?_, ?_, ?_⟩
  · intro F _ sqrt lt s₁ s₂ N hsun h
    exact iterate_update_exact sqrt lt s₁ s₂ N hsun h
  · intro s p q hpos
    obtain ⟨hn, hd⟩ := normalizedDirection_congr F32.arith s p q hpos
    constructor
    · intro h₁ h₂
      rw [(acceleration_eq s p).1, (acceleration_eq s q).1, ← hn, ← hd]
      exact F32.accel_close _ _ _ _ h₁ h₂
    · intro h₁ h₂
      rw [(acceleration_eq s p).2, (acceleration_eq s q).2, ← hn, ← hd]
      exact F32.accel_close _ _ _ _ h₁ h₂
  · intro F A s p q hpos hvel hacc
    have hv : (updatePlanet A s p).velocity = (updatePlanet A s q).velocity := by
      have h1 : (updatePlanet A s p).velocity =
          Vec2.add A p.velocity (Vec2.scale A (acceleration A s p) (timeStep A)) := rfl
      have h2 : (updatePlanet A s q).velocity =
          Vec2.add A q.velocity (Vec2.scale A (acceleration A s q) (timeStep A)) := rfl
      rw [h1, h2, hvel, hacc]
    refine ⟨hv, ?_⟩
    rw [updatePlanet_position, updatePlanet_position, hv, hpos]

/-- A use of claim C4 as amended: over the rationals, the planet of mass 1000 and the
planet of mass 800 are at the same position with the same velocity after three steps; in
binary32 the x-components of their accelerations at (950, 450) differ by at most a
relative `2^-20`. -/
theorem mass_irrelevant_witness :
    List.Forall₂ (fun p q => p.shape.position = q.shape.position ∧ p.velocity = q.velocity)
        ((update exactArith)^[3] (exactWorld 1000)).planets
        ((update exactArith)^[3] (exactWorld 800)).planets ∧
      |(acceleration F32.arith (testWorld []) (testPlanet 1000 950 0)).x.toRat -
          (acceleration F32.arith (testWorld []) (testPlanet 800 950 0)).x.toRat| ≤
        1 / 2 ^ 20 *
          |(acceleration F32.arith (testWorld []) (testPlanet 800 950 0)).x.toRat| :=
  ⟨mass_irrelevant.1 ℚ ratSqrt (fun a b => decide (a < b)) (exactWorld 1000) (exactWorld 800) 3
      rfl (List.Forall₂.cons ⟨rfl, rfl, by norm_num [exactWorld, exactPlanet, Planet.new],
        by norm_num [exactWorld, exactPlanet, Planet.new]⟩ List.Forall₂.nil),
    ((mass_irrelevant.2.1 (testWorld []) (testPlanet 1000 950 0) (testPlanet 800 950 0)
      (by decide!)).1 (by decide!) (by decide!))⟩

/-- The force on a planet of mass 1000 at (1050, 500), in binary32. -/
theorem force_at_1050_500 :
    calculateGravity F32.arith (testWorld []) (testPlanet 1000 1050 50) =
      ⟨F32.fin true 8446283 (-23), F32.fin true 13514052 (-26)⟩ := by
  decide!

/-- The force on a planet of mass 1000 at (824, 482), in binary32. -/
theorem force_at_824_482 :
    calculateGravity F32.arith (testWorld []) (testPlanet 1000 824 32) =
      ⟨F32.fin true 13122208 (-19), F32.fin true 8748139 (-18)⟩ := by
  decide!

/-- Claim C10 fails in the program's arithmetic.  In binary32, for the planet of mass 1000
at (1050, 500), whose distance from the sun at (800, 450) is above the radius 40, the
magnitude of the vector `calculateGravity` returns is not `G * m * K / d^2`: computed in
binary32 it is one unit in the last place above the binary32 value of `G * m * K / d^2`,
and the exact magnitude of the returned vector is neither the exact `G * m * K / d^2`
(`d^2 = 65000`, with `G` the decimal 6.67430e-5 or `G` the binary32 constant) nor the
binary32 one.  For the planet of mass 1000 at (824, 482), at distance exactly 40 from the
sun, the exact magnitude of the returned vector is above `G * m * K / R^2`, the exact and
the binary32 one.  For the mass `2^127 > 0` at the sun's center the returned vector is
(NaN, NaN), which has no magnitude that is at most `G * m * K / R^2`. -/
theorem force_magnitude_binary32 :
    F32.le (F32.lit 40 1)
        (Spec.length F32.arith (Vec2.sub F32.arith (testWorld []).sun.position
          (testPlanet 1000 1050 50).shape.position)) = true ∧
      Spec.length F32.arith
          (calculateGravity F32.arith (testWorld []) (testPlanet 1000 1050 50)) ≠
        F32.div (F32.mul (F32.mul (G F32.arith) (F32.lit 1000 1)) (F32.lit 1000000 1))
          (F32.mul (clampedDistance F32.arith (testWorld []) (testPlanet 1000 1050 50))
            (clampedDistance F32.arith (testWorld []) (testPlanet 1000 1050 50))) ∧
      ((calculateGravity F32.arith (testWorld []) (testPlanet 1000 1050 50)).x.toRat ^ 2 +
          (calculateGravity F32.arith (testWorld []) (testPlanet 1000 1050 50)).y.toRat ^ 2 ≠
        ((667430 / 10000000000 : ℚ) * 1000 * 1000000 / 65000) ^ 2) ∧
      ((calculateGravity F32.arith (testWorld []) (testPlanet 1000 1050 50)).x.toRat ^ 2 +
          (calculateGravity F32.arith (testWorld []) (testPlanet 1000 1050 50)).y.toRat ^ 2 ≠
        ((G F32.arith).toRat * 1000 * 1000000 / 65000) ^ 2) ∧
      ((calculateGravity F32.arith (testWorld []) (testPlanet 1000 1050 50)).x.toRat ^ 2 +
          (calculateGravity F32.arith (testWorld []) (testPlanet 1000 1050 50)).y.toRat ^ 2 ≠
        (F32.div (F32.mul (F32.mul (G F32.arith) (F32.lit 1000 1)) (F32.lit 1000000 1))
          (F32.mul (clampedDistance F32.arith (testWorld []) (testPlanet 1000 1050 50))
            (clampedDistance F32.arith (testWorld []) (testPlanet 1000 1050 50)))).toRat ^ 2) ∧
      clampedDistance F32.arith (testWorld []) (testPlanet 1000 824 32) = F32.lit 40 1 ∧
      (((667430 / 10000000000 : ℚ) * 1000 * 1000000 / (40 * 40)) ^ 2 <
        (calculateGravity F32.arith (testWorld []) (testPlanet 1000 824 32)).x.toRat ^ 2 +
          (calculateGravity F32.arith (testWorld []) (testPlanet 1000 824 32)).y.toRat ^ 2) ∧
      ((F32.div (F32.mul (F32.mul (G F32.arith) (F32.lit 1000 1)) (F32.lit 1000000 1))
          (F32.mul (F32.lit 40 1) (F32.lit 40 1))).toRat ^ 2 <
        (calculateGravity F32.arith (testWorld []) (testPlanet 1000 824 32)).x.toRat ^ 2 +
          (calculateGravity F32.arith (testWorld []) (testPlanet 1000 824 32)).y.toRat ^ 2) ∧
      F32.lt (F32.lit 0 1) (testPlanet (2 ^ 127) 800 0).mass = true ∧
      calculateGravity F32.arith (testWorld []) (testPlanet (2 ^ 127) 800 0) =
        ⟨F32.nan, F32.nan⟩ := by
  have hG : G F32.arith = F32.fin false 9173088 (-37) := by decide!
  have hf : F32.div (F32.mul (F32.mul (G F32.arith) (F32.lit 1000 1)) (F32.lit 1000000 1))
      (F32.mul (clampedDistance F32.arith (testWorld []) (testPlanet 1000 1050 50))
        (clampedDistance F32.arith (testWorld []) (testPlanet 1000 1050 50))) =
      F32.fin false 8613552 (-23) := by decide!
  have hb : F32.div (F32.mul (F32.mul (G F32.arith) (F32.lit 1000 1)) (F32.lit 1000000 1))
      (F32.mul (F32.lit 40 1) (F32.lit 40 1)) = F32.fin false 10935173 (-18) := by decide!
  refine ⟨by decide!, by decide!, ?_, ?_, ?_, by decide!, ?_, ?_, by decide!, by decide!⟩
  · rw [force_at_1050_500]
    norm_num [F32.toRat]
  · rw [force_at_1050_500, hG]
    norm_num [F32.toRat]
  · rw [force_at_1050_500, hf]
    norm_num [F32.toRat]
  · rw [force_at_824_482]
    norm_num [F32.toRat]
  · rw [force_at_824_482, hb]
    norm_num [F32.toRat]

/-! ### Accumulated rounding error -/

/-- The factor `1 - 2^-24` of one rounding is positive. -/
theorem gamma_pos : (0 : ℚ) < 1 - 1 / 2 ^ 24 := by norm_num

/-- The factor `1 - 2^-24` is at most one. -/
theorem gamma_le_one : (1 - 1 / 2 ^ 24 : ℚ) ≤ 1 := by norm_num

/-- Powers of the rounding factor are positive. -/
theorem gamma_pow_pos (k : Nat) : (0 : ℚ) < (1 - 1 / 2 ^ 24) ^ k := pow_pos gamma_pos k

/-- Powers of the rounding factor are at most one. -/
theorem gamma_pow_le_one (k : Nat) : (1 - 1 / 2 ^ 24 : ℚ) ^ k ≤ 1 :=
  pow_le_one₀ (le_of_lt gamma_pos) gamma_le_one

/-- A factor above a power of the rounding factor is positive. -/
theorem Within.factor_pos {k : Nat} {t : ℚ} (h : (1 - 1 / 2 ^ 24) ^ k ≤ t) : 0 < t :=
  lt_of_lt_of_le (gamma_pow_pos k) h

/-- Every value is itself, with no rounding. -/
theorem Within.refl (x : ℚ) : Within 0 x x :=
  ⟨1, by norm_num, by norm_num, by ring⟩

/-- Zero is zero up to any number of roundings. -/
theorem Within.zero (k : Nat) : Within k 0 0 :=
  ⟨1, gamma_pow_le_one k, by rw [one_mul]; exact gamma_pow_le_one k, by ring⟩

/-- More roundings allow more. -/
theorem Within.mono {k k' : Nat} {x y : ℚ} (hk : k ≤ k') (h : Within k x y) :
    Within k' x y := by
  obtain ⟨t, h1, h2, h3⟩ := h
  have ht := Within.factor_pos h1
  have hle : (1 - 1 / 2 ^ 24 : ℚ) ^ k' ≤ (1 - 1 / 2 ^ 24) ^ k :=
    pow_le_pow_of_le_one (le_of_lt gamma_pos) gamma_le_one hk
  refine ⟨t, le_trans hle h1, le_trans ?_ h2, h3⟩
  exact mul_le_mul_of_nonneg_left hle (le_of_lt ht)

/-- Closeness is symmetric. -/
theorem Within.symm {k : Nat} {x y : ℚ} (h : Within k x y) : Within k y x := by
  obtain ⟨t, h1, h2, h3⟩ := h
  have ht := Within.factor_pos h1
  have hg := gamma_pow_pos k
  refine ⟨1 / t, ?_, ?_, ?_⟩
  · rw [le_div_iff₀ ht]; linarith
  · rw [div_mul_eq_mul_div, one_mul, div_le_one ht]; exact h1
  · rw [h3]; field_simp

/-- The roundings of a product add up. -/
theorem Within.mul {k l : Nat} {x y x' y' : ℚ} (h : Within k x y) (h' : Within l x' y') :
    Within (k + l) (x * x') (y * y') := by
  obtain ⟨t, h1, h2, h3⟩ := h
  obtain ⟨t', h1', h2', h3'⟩ := h'
  have ht := Within.factor_pos h1
  have ht' := Within.factor_pos h1'
  refine ⟨t * t', ?_, ?_, ?_⟩
  · rw [pow_add]
    exact mul_le_mul h1 h1' (le_of_lt (gamma_pow_pos l)) (le_of_lt ht)
  · rw [pow_add]
    calc t * t' * ((1 - 1 / 2 ^ 24) ^ k * (1 - 1 / 2 ^ 24) ^ l)
        = (t * (1 - 1 / 2 ^ 24) ^ k) * (t' * (1 - 1 / 2 ^ 24) ^ l) := by ring
      _ ≤ 1 * 1 := mul_le_mul h2 h2' (le_of_lt (mul_pos ht' (gamma_pow_pos l))) (by norm_num)
      _ = 1 := by ring
  · rw [h3, h3']; ring

/-- The roundings of a quotient add up. -/
theorem Within.div {k l : Nat} {x y x' y' : ℚ} (h : Within k x y) (h' : Within l x' y') :
    Within (k + l) (x / x') (y / y') := by
  have h'' := h'.symm
  obtain ⟨t, h1, h2, h3⟩ := h
  obtain ⟨t', h1', h2', h3'⟩ := h''
  have ht := Within.factor_pos h1
  have ht' := Within.factor_pos h1'
  refine ⟨t * t', ?_, ?_, ?_⟩
  · rw [pow_add]
    exact mul_le_mul h1 h1' (le_of_lt (gamma_pow_pos l)) (le_of_lt ht)
  · rw [pow_add]
    calc t * t' * ((1 - 1 / 2 ^ 24) ^ k * (1 - 1 / 2 ^ 24) ^ l)
        = (t * (1 - 1 / 2 ^ 24) ^ k) * (t' * (1 - 1 / 2 ^ 24) ^ l) := by ring
      _ ≤ 1 * 1 := mul_le_mul h2 h2' (le_of_lt (mul_pos ht' (gamma_pow_pos l))) (by norm_num)
      _ = 1 := by ring
  · rw [h3, h3']
    have : t' ≠ 0 := ne_of_gt ht'
    by_cases hx : x' = 0
    · simp [hx]
    · field_simp
      ring

/-- Roundings in sequence add up. -/
theorem Within.trans {k l : Nat} {x y z : ℚ} (h : Within k x y) (h' : Within l y z) :
    Within (k + l) x z := by
  obtain ⟨t, h1, h2, h3⟩ := h
  obtain ⟨t', h1', h2', h3'⟩ := h'
  have ht := Within.factor_pos h1
  have ht' := Within.factor_pos h1'
  refine ⟨t * t', ?_, ?_, ?_⟩
  · rw [pow_add]
    exact mul_le_mul h1 h1' (le_of_lt (gamma_pow_pos l)) (le_of_lt ht)
  · rw [pow_add]
    calc t * t' * ((1 - 1 / 2 ^ 24) ^ k * (1 - 1 / 2 ^ 24) ^ l)
        = (t * (1 - 1 / 2 ^ 24) ^ k) * (t' * (1 - 1 / 2 ^ 24) ^ l) := by ring
      _ ≤ 1 * 1 := mul_le_mul h2 h2' (le_of_lt (mul_pos ht' (gamma_pow_pos l))) (by norm_num)
      _ = 1 := by ring
  · rw [h3, h3']; ring

/-- Bounds for a value within `k` roundings of a non-negative one. -/
theorem Within.bounds {k : Nat} {x y : ℚ} (h : Within k x y) (hy : 0 ≤ y) :
    y * (1 - 1 / 2 ^ 24) ^ k ≤ x ∧ x * (1 - 1 / 2 ^ 24) ^ k ≤ y := by
  obtain ⟨t, h1, h2, h3⟩ := h
  rw [h3]
  constructor
  · exact mul_le_mul_of_nonneg_left h1 hy
  · calc y * t * (1 - 1 / 2 ^ 24) ^ k = y * (t * (1 - 1 / 2 ^ 24) ^ k) := by ring
      _ ≤ y * 1 := mul_le_mul_of_nonneg_left h2 hy
      _ = y := by ring

/-- A non-negative value between the bounds is within `k` roundings. -/
theorem Within.of_bounds {k : Nat} {x y : ℚ} (hy : 0 < y)
    (h1 : y * (1 - 1 / 2 ^ 24) ^ k ≤ x) (h2 : x * (1 - 1 / 2 ^ 24) ^ k ≤ y) : Within k x y := by
  refine ⟨x / y, ?_, ?_, ?_⟩
  · rw [le_div_iff₀ hy]; linarith
  · rw [div_mul_eq_mul_div, div_le_one hy]; exact h2
  · field_simp

/-- A value close to a non-negative one is not negative. -/
theorem Within.nonneg {k : Nat} {x y : ℚ} (h : Within k x y) (hy : 0 ≤ y) : 0 ≤ x := by
  obtain ⟨t, h1, _, h3⟩ := h
  rw [h3]; exact mul_nonneg hy (le_of_lt (Within.factor_pos h1))

/-- A value close to a positive one is positive. -/
theorem Within.pos {k : Nat} {x y : ℚ} (h : Within k x y) (hy : 0 < y) : 0 < x := by
  obtain ⟨t, h1, _, h3⟩ := h
  rw [h3]; exact mul_pos hy (Within.factor_pos h1)

/-- A sum of non-negative terms is as close as its terms. -/
theorem Within.add {k : Nat} {x y x' y' : ℚ} (h : Within k x y) (h' : Within k x' y')
    (hy : 0 ≤ y) (hy' : 0 ≤ y') : Within k (x + x') (y + y') := by
  rcases eq_or_lt_of_le (add_nonneg hy hy') with h0 | h0
  · have hy0 : y = 0 := by linarith
    have hy0' : y' = 0 := by linarith
    obtain ⟨t, _, _, h3⟩ := h
    obtain ⟨t', _, _, h3'⟩ := h'
    rw [h3, h3', hy0, hy0']
    simpa using Within.zero k
  · have b := h.bounds hy
    have b' := h'.bounds hy'
    apply Within.of_bounds h0
    · linarith [b.1, b'.1]
    · linarith [b.2, b'.2]

/-- The clamp preserves relative closeness. -/
theorem Within.clamp {k : Nat} {x y ρ : ℚ} (h : Within k x y) (hy : 0 ≤ y) (hρ : 0 < ρ) :
    Within k (max x ρ) (max y ρ) := by
  have b := h.bounds hy
  have hg := gamma_pow_pos k
  have hg1 := gamma_pow_le_one k
  have hm : 0 < max y ρ := lt_of_lt_of_le hρ (le_max_right _ _)
  apply Within.of_bounds hm
  · rcases le_total y ρ with hc | hc
    · rw [max_eq_right hc]
      calc ρ * (1 - 1 / 2 ^ 24) ^ k ≤ ρ * 1 := mul_le_mul_of_nonneg_left hg1 (le_of_lt hρ)
        _ = ρ := by ring
        _ ≤ max x ρ := le_max_right _ _
    · rw [max_eq_left hc]
      exact le_trans b.1 (le_max_left _ _)
  · rcases le_total x ρ with hc | hc
    · rw [max_eq_right hc]
      calc ρ * (1 - 1 / 2 ^ 24) ^ k ≤ ρ * 1 := mul_le_mul_of_nonneg_left hg1 (le_of_lt hρ)
        _ = ρ := by ring
        _ ≤ max y ρ := le_max_right _ _
    · rw [max_eq_left hc]
      exact le_trans b.2 (le_max_left _ _)

/-- A rounding model gives closeness within one rounding. -/
theorem Within.of_model {c e ε : ℚ} (hε : |ε| ≤ 1 / 2 ^ 24) (h : e = c * (1 + ε)) :
    Within 1 c e := by
  have h1 := (abs_le.mp hε).1
  have h2 := (abs_le.mp hε).2
  have hp : 0 < 1 + ε := by linarith [show (0:ℚ) < 1 - 1 / 2 ^ 24 by norm_num]
  refine ⟨1 / (1 + ε), ?_, ?_, ?_⟩
  · rw [pow_one, le_div_iff₀ hp]
    nlinarith
  · rw [pow_one, div_mul_eq_mul_div, one_mul, div_le_one hp]
    linarith
  · rw [h]; field_simp

namespace F32

/-! #### Addition, subtraction, square root and comparison on exact values -/

/-- The exact value of a zero is zero. -/
theorem toRat_of_isZero (a : F32) (h : a.isZero = true) : toRat a = 0 := by
  cases a with
  | nan => rfl
  | inf s => rfl
  | fin s m e =>
    simp only [isZero, decide_eq_true_eq] at h
    simp [toRat, h]

/-- The integer `scaled` computes, on the scale `2^e0`, is the exact value. -/
theorem scaled_toRat (s : Bool) (m : Nat) (e e0 : Int) (h : e0 ≤ e) :
    ((scaled s m (e - e0) : Int) : ℚ) * (2 : ℚ) ^ e0 = toRat (fin s m e) := by
  rw [toRat_fin]
  have h2 : (2 : ℚ) ≠ 0 := by norm_num
  have hp : (2 : ℚ) ^ e = (2 : ℚ) ^ ((e - e0).toNat) * (2 : ℚ) ^ e0 := by
    rw [← zpow_natCast, ← zpow_add₀ h2]
    congr 1
    omega
  unfold scaled signRat
  split <;> push_cast <;> rw [hp] <;> ring

/-- An integer is its sign times its absolute value. -/
theorem signRat_natAbs (z : Int) : signRat (decide (z < 0)) * (z.natAbs : ℚ) = (z : ℚ) := by
  by_cases h : z < 0
  · have : ((z.natAbs : Int) : ℚ) = -(z : ℚ) := by
      rw [Int.ofNat_natAbs_of_nonpos (le_of_lt h)]; push_cast; ring
    simp only [h, decide_True, signRat, if_true]
    rw [show ((z.natAbs : ℚ)) = ((z.natAbs : Int) : ℚ) from (Int.cast_natCast _).symm, this]
    ring
  · have : ((z.natAbs : Int) : ℚ) = (z : ℚ) := by
      rw [Int.natAbs_of_nonneg (not_lt.mp h)]
    simp only [h, decide_False, signRat]
    rw [show ((z.natAbs : ℚ)) = ((z.natAbs : Int) : ℚ) from (Int.cast_natCast _).symm, this]
    simp

/-- The integer `scaled` computes is below `2^277` in absolute value for a finite value
and a shift of at most 253. -/
theorem scaled_natAbs_lt (s : Bool) (m : Nat) (t : Int) (hm : m < 2 ^ 24) (ht : t ≤ 253) :
    (scaled s m t).natAbs < 2 ^ 277 := by
  have h1 : t.toNat ≤ 253 := by omega
  have h2 : 2 ^ t.toNat ≤ 2 ^ 253 := Nat.pow_le_pow_right (by decide) h1
  have h3 : m * 2 ^ t.toNat < 2 ^ 24 * 2 ^ 253 :=
    Nat.mul_lt_mul_of_lt_of_le hm h2 (Nat.pow_pos (by decide))
  have h4 : (2 : Nat) ^ 24 * 2 ^ 253 = 2 ^ 277 := by rw [← Nat.pow_add]
  unfold scaled
  split
  · rw [Int.natAbs_neg, Int.natAbs_ofNat]; omega
  · rw [Int.natAbs_ofNat]; omega

/-- A normal sum is the exact sum up to a relative error of `2^-24`. -/
theorem add_model (a b : F32) (ha : a.isFinite = true) (hb : b.isFinite = true)
    (hr : (add a b).isNormal = true) :
    ∃ ε : ℚ, |ε| ≤ 1 / 2 ^ 24 ∧ toRat a + toRat b = toRat (add a b) * (1 + ε) := by
  cases a with
  | nan => simp [isFinite] at ha
  | inf s => simp [isFinite] at ha
  | fin sa ma ea =>
    cases b with
    | nan => simp [isFinite] at hb
    | inf s => simp [isFinite] at hb
    | fin sb mb eb =>
      simp only [isFinite, decide_eq_true_eq] at ha hb
      simp only [add] at hr ⊢
      have hea : min ea eb ≤ ea := min_le_left _ _
      have heb : min ea eb ≤ eb := min_le_right _ _
      have hta : ea - min ea eb ≤ 253 := by
        rcases min_choice ea eb with h | h <;> rw [h] <;> omega
      have htb : eb - min ea eb ≤ 253 := by
        rcases min_choice ea eb with h | h <;> rw [h] <;> omega
      have hza := scaled_natAbs_lt sa ma _ ha.1 hta
      have hzb := scaled_natAbs_lt sb mb _ hb.1 htb
      have hva := scaled_toRat sa ma ea _ hea
      have hvb := scaled_toRat sb mb eb _ heb
      generalize scaled sa ma (ea - min ea eb) = za at hza hva hr ⊢
      generalize scaled sb mb (eb - min ea eb) = zb at hzb hvb hr ⊢
      by_cases hz : za + zb = 0
      · rw [if_pos hz] at hr; simp [isNormal] at hr
      · rw [if_neg hz] at hr ⊢
        have hpos : 0 < (za + zb).natAbs := Int.natAbs_pos.mpr hz
        have hlt : (za + zb).natAbs < 2 ^ 4096 := by
          have h1 := Int.natAbs_add_le za zb
          have h2 : (2 : Nat) ^ 277 + 2 ^ 277 ≤ 2 ^ 4096 := by
            rw [← Nat.two_mul, ← Nat.pow_succ']
            exact Nat.pow_le_pow_right (by decide) (by decide)
          omega
        have h1 : 1 < 2 ^ 4096 := Nat.one_lt_two_pow (by decide)
        obtain ⟨ε, hε, h⟩ := round_model (decide (za + zb < 0)) (za + zb).natAbs 1 (min ea eb)
          hpos (by decide) hlt h1 hr
        refine ⟨ε, hε, ?_⟩
        rw [← h, ← hva, ← hvb]
        have := signRat_natAbs (za + zb)
        push_cast at this ⊢
        rw [← mul_assoc, div_one, this]
        ring

/-- Unary minus negates the exact value. -/
theorem toRat_neg (b : F32) : toRat (neg b) = -toRat b := by
  cases b with
  | nan => simp [neg, toRat]
  | inf s => simp [neg, toRat]
  | fin s m e => cases s <;> simp [neg, toRat]

/-- Unary minus keeps a finite value finite. -/
theorem neg_isFinite (b : F32) (hb : b.isFinite = true) : (neg b).isFinite = true := by
  cases b with
  | nan => simp [isFinite] at hb
  | inf s => simp [isFinite] at hb
  | fin s m e => simpa [neg, isFinite] using hb

/-- A normal difference is the exact difference up to a relative error of `2^-24`. -/
theorem sub_model (a b : F32) (ha : a.isFinite = true) (hb : b.isFinite = true)
    (hr : (sub a b).isNormal = true) :
    ∃ ε : ℚ, |ε| ≤ 1 / 2 ^ 24 ∧ toRat a - toRat b = toRat (sub a b) * (1 + ε) := by
  obtain ⟨ε, hε, h⟩ := add_model a (neg b) ha (neg_isFinite b hb) hr
  refine ⟨ε, hε, ?_⟩
  rw [toRat_neg] at h
  rw [sub_eq_add_neg]
  exact h

/-- A finite value minus itself is `+0`. -/
theorem sub_self_eq (a : F32) (ha : a.isFinite = true) : sub a a = fin false 0 (-149) := by
  cases a with
  | nan => simp [isFinite] at ha
  | inf s => simp [isFinite] at ha
  | fin s m e =>
    have h : scaled s m (e - min e e) + scaled (!s) m (e - min e e) = 0 := by
      cases s <;> simp [scaled]
    simp only [sub, neg, add, h, if_true]
    cases s <;> rfl

/-- A value is normal or a zero only if it is finite or otherwise of the form below. -/
theorem fin_of_normal_or_zero (a : F32) (h : a.isNormal = true ∨ a.isZero = true) :
    ∃ s m e, a = fin s m e ∧ m < 2 ^ 24 ∧ (2 ^ 23 ≤ m ∨ m = 0) := by
  cases a with
  | nan => rcases h with h | h <;> simp [isNormal, isZero] at h
  | inf s => rcases h with h | h <;> simp [isNormal, isZero] at h
  | fin s m e =>
    refine ⟨s, m, e, rfl, ?_⟩
    rcases h with h | h
    · simp only [isNormal, decide_eq_true_eq] at h
      exact ⟨h.2, Or.inl h.1⟩
    · simp only [isZero, decide_eq_true_eq] at h
      subst h
      exact ⟨by norm_num, Or.inr rfl⟩

/-- A normal result of `round` has its exponent in the binary32 range. -/
theorem round_isFinite (s : Bool) (num den : Nat) (e : Int) (hn : 0 < num) (hd : 0 < den)
    (hnb : num < 2 ^ 4096) (hdb : den < 2 ^ 4096)
    (hr : (round s num den e).isNormal = true) : (round s num den e).isFinite = true := by
  rcases round_nearest s num den e hn hd hnb hdb with
    ⟨hinf, _⟩ | ⟨m, q, hfin, hm, hq1, hq2, _, _⟩
  · rw [hinf] at hr; simp [isNormal] at hr
  · rw [hfin]
    simp only [isFinite, decide_eq_true_eq]
    exact ⟨hm, hq1, hq2⟩

/-- A normal value with a clear sign bit is positive. -/
theorem toRat_pos (a : F32) (ha : a.isNormal = true) (hs : a.isNonneg = true) :
    0 < toRat a := by
  cases a with
  | nan => simp [isNormal] at ha
  | inf s => simp [isNormal] at ha
  | fin s m e =>
    simp only [isNormal, decide_eq_true_eq] at ha
    simp only [isNonneg, Bool.not_eq_true'] at hs
    subst hs
    have hm : (0 : ℚ) < (m : ℚ) := by
      have : 0 < m := by omega
      exact_mod_cast this
    have hq : (0 : ℚ) < (2 : ℚ) ^ e := zpow_pos (by norm_num) e
    simp only [toRat, Bool.false_eq_true, if_false, one_mul]
    exact mul_pos hm hq

/-- The comparison `<` on finite values is the order of the exact values. -/
theorem lt_iff (sa : Bool) (ma : Nat) (ea : Int) (sb : Bool) (mb : Nat) (eb : Int) :
    lt (fin sa ma ea) (fin sb mb eb) = true ↔ toRat (fin sa ma ea) < toRat (fin sb mb eb) := by
  simp only [lt, decide_eq_true_eq]
  rw [← scaled_toRat sa ma ea _ (min_le_left ea eb),
    ← scaled_toRat sb mb eb _ (min_le_right ea eb)]
  have hp : (0 : ℚ) < (2 : ℚ) ^ (min ea eb) := zpow_pos (by norm_num) _
  rw [mul_lt_mul_right hp, Int.cast_lt]

/-- The loop of `isqrtAux` keeps the root between its bounds. -/
theorem isqrtAux_spec (i n r : Nat) (h1 : r * r ≤ n) (h2 : n < (r + 2 ^ i) * (r + 2 ^ i)) :
    isqrtAux i n r * isqrtAux i n r ≤ n ∧
      n < (isqrtAux i n r + 1) * (isqrtAux i n r + 1) := by
  induction i generalizing r with
  | zero => simpa [isqrtAux] using ⟨h1, h2⟩
  | succ i ih =>
    simp only [isqrtAux]
    split
    · rename_i h
      apply ih _ h
      have : r + 2 ^ i + 2 ^ i = r + 2 ^ (i + 1) := by rw [Nat.pow_succ]; omega
      rw [this]; exact h2
    · rename_i h
      exact ih _ h1 (not_le.mp h)

/-- `isqrt` is the floor of the square root below `2^4096`. -/
theorem isqrt_spec (n : Nat) (hn : 0 < n) (hf : n < 2 ^ 4096) :
    isqrt n * isqrt n ≤ n ∧ n < (isqrt n + 1) * (isqrt n + 1) := by
  obtain ⟨_, h2⟩ := log2_spec n hn hf
  clear hf
  apply isqrtAux_spec
  · exact Nat.zero_le _
  · rw [Nat.zero_add, ← Nat.pow_add]
    apply lt_of_lt_of_le h2
    apply Nat.pow_le_pow_right (by decide)
    omega

/-- Half way between two consecutive integers at least `2^26`, squared, is within one
rounding of every number between their squares. -/
theorem half_step_within (r : Nat) (n : Nat) (hr : 2 ^ 26 ≤ r) (h1 : r * r ≤ n)
    (h2 : n < (r + 1) * (r + 1)) :
    Within 1 (((r : ℚ) + 1 / 2) * ((r : ℚ) + 1 / 2)) (n : ℚ) := by
  have hρ : (2 : ℚ) ^ 26 ≤ (r : ℚ) := by exact_mod_cast hr
  have hn1 : (r : ℚ) * r ≤ (n : ℚ) := by exact_mod_cast h1
  have hn2 : (n : ℚ) < ((r : ℚ) + 1) * ((r : ℚ) + 1) := by exact_mod_cast h2
  have hρ0 : (0 : ℚ) < (r : ℚ) := lt_of_lt_of_le (by norm_num) hρ
  have hn0 : (0 : ℚ) < (n : ℚ) := lt_of_lt_of_le (mul_pos hρ0 hρ0) hn1
  have hsq : (2 : ℚ) ^ 26 * r ≤ (r : ℚ) * r := mul_le_mul_of_nonneg_right hρ (le_of_lt hρ0)
  apply Within.of_bounds hn0
  · rw [pow_one]
    nlinarith
  · rw [pow_one]
    nlinarith

/-- The rounded root that `sqrt` computes from the integer root of the scaled significand:
its square is the radicand up to three roundings. -/
theorem sqrt_core (m : Nat) (e : Int) (k : Nat) (hm1 : 2 ^ 23 ≤ m) (hm2 : m < 2 ^ 24)
    (hk1 : 60 ≤ k) (hk2 : k ≤ 61) (hpar : (e - (k : Int)) % 2 = 0)
    (hr : (round false (2 * isqrt (m * 2 ^ k) +
        (if isqrt (m * 2 ^ k) * isqrt (m * 2 ^ k) = m * 2 ^ k then 0 else 1)) 1
        ((e - (k : Int)) / 2 - 1)).isNormal = true) :
    Within 3
      (toRat (round false (2 * isqrt (m * 2 ^ k) +
        (if isqrt (m * 2 ^ k) * isqrt (m * 2 ^ k) = m * 2 ^ k then 0 else 1)) 1
        ((e - (k : Int)) / 2 - 1)) *
       toRat (round false (2 * isqrt (m * 2 ^ k) +
        (if isqrt (m * 2 ^ k) * isqrt (m * 2 ^ k) = m * 2 ^ k then 0 else 1)) 1
        ((e - (k : Int)) / 2 - 1)))
      ((m : ℚ) * (2 : ℚ) ^ e) := by
  have h2 : (2 : ℚ) ≠ 0 := by norm_num
  -- the scaled significand
  have hn1 : 2 ^ 83 ≤ m * 2 ^ k := by
    calc 2 ^ 83 = 2 ^ 23 * 2 ^ 60 := by norm_num
      _ ≤ m * 2 ^ k := Nat.mul_le_mul hm1 (Nat.pow_le_pow_right (by decide) hk1)
  have hn2 : m * 2 ^ k < 2 ^ 85 := by
    calc m * 2 ^ k < 2 ^ 24 * 2 ^ k :=
          Nat.mul_lt_mul_of_pos_right hm2 (Nat.pow_pos (by decide))
      _ ≤ 2 ^ 24 * 2 ^ 61 := Nat.mul_le_mul_left _ (Nat.pow_le_pow_right (by decide) hk2)
      _ = 2 ^ 85 := by norm_num
  have hnq : ((m * 2 ^ k : Nat) : ℚ) = (m : ℚ) * (2 : ℚ) ^ ((k : Nat) : Int) := by
    push_cast; rw [zpow_natCast]
  generalize m * 2 ^ k = n at hn1 hn2 hnq hr ⊢
  have hn4096 : n < 2 ^ 4096 :=
    lt_of_lt_of_le hn2 (Nat.pow_le_pow_right (by decide) (by decide))
  obtain ⟨hs1, hs2⟩ := isqrt_spec n (by omega) hn4096
  clear hn4096
  generalize isqrt n = r at hs1 hs2 hr ⊢
  have hr41 : 2 ^ 41 ≤ r := by
    by_contra hlt
    have h1 : r + 1 ≤ 2 ^ 41 := by omega
    have h3 : (r + 1) * (r + 1) ≤ 2 ^ 41 * 2 ^ 41 := Nat.mul_le_mul h1 h1
    have h4 : (2 : Nat) ^ 41 * 2 ^ 41 = 2 ^ 82 := by norm_num
    have h5 : (2 : Nat) ^ 82 < 2 ^ 83 := by norm_num
    omega
  have hr85 : r < 2 ^ 85 := by
    have : r * 1 ≤ r * r := Nat.mul_le_mul_left r (by omega)
    omega
  have hr26 : 2 ^ 26 ≤ r := le_trans (by norm_num) hr41
  -- the exponent
  have hE : e = (k : Int) + 2 * ((e - (k : Int)) / 2) := by omega
  generalize (e - (k : Int)) / 2 = E at hE hr ⊢
  -- the value before rounding
  have hσ : (if r * r = n then 0 else 1) ≤ 1 := by split <;> omega
  have hnum0 : 0 < 2 * r + (if r * r = n then 0 else 1) := by omega
  have hnumb : 2 * r + (if r * r = n then 0 else 1) < 2 ^ 4096 := by
    have : (2 : Nat) ^ 87 ≤ 2 ^ 4096 := Nat.pow_le_pow_right (by decide) (by decide)
    have : (2 : Nat) ^ 87 = 4 * 2 ^ 85 := by norm_num
    omega
  have h1 : 1 < 2 ^ 4096 := Nat.one_lt_two_pow (by decide)
  obtain ⟨ε, hε, h⟩ := round_model false _ 1 (E - 1) hnum0 (by decide) hnumb h1 hr
  clear hnumb h1
  have hw := Within.of_model hε h
  have hww := hw.mul hw
  refine (hww.trans (k := 2) (l := 1) ?_)
  -- the square of the value before rounding against the radicand
  have hval : signRat false *
      (((2 * r + (if r * r = n then 0 else 1) : Nat) : ℚ) / ((1 : Nat) : ℚ) *
        (2 : ℚ) ^ (E - 1)) = ((r : ℚ) + (if r * r = n then 0 else 1 / 2)) * (2 : ℚ) ^ E := by
    rw [zpow_sub₀ h2, zpow_one]
    simp only [signRat, Bool.false_eq_true, if_false]
    split <;> push_cast <;> ring
  rw [hval]
  have hrad : (m : ℚ) * (2 : ℚ) ^ e = (n : ℚ) * ((2 : ℚ) ^ E * (2 : ℚ) ^ E) := by
    rw [hnq, hE, zpow_add₀ h2, two_mul, zpow_add₀ h2]
    ring
  rw [hrad]
  have hroot : Within 1
      (((r : ℚ) + (if r * r = n then 0 else 1 / 2)) *
        ((r : ℚ) + (if r * r = n then 0 else 1 / 2))) (n : ℚ) := by
    by_cases hsq : r * r = n
    · simp only [hsq, if_true, add_zero]
      have : (n : ℚ) = (r : ℚ) * r := by rw [← hsq]; push_cast; ring
      rw [this]
      exact (Within.refl _).mono (by omega)
    · simp only [hsq, if_false]
      exact half_step_within r n hr26 hs1 hs2
  have := hroot.mul (Within.refl ((2 : ℚ) ^ E * (2 : ℚ) ^ E))
  refine cast (congrArg₂ (Within 1) ?_ rfl) this
  ring

/-- A normal square root of a normal value: its square is the radicand up to three
roundings, it is positive, and the radicand's sign bit is clear. -/
theorem sqrt_model (c : F32) (hc : c.isNormal = true) (hr : (sqrt c).isNormal = true) :
    Within 3 (toRat (sqrt c) * toRat (sqrt c)) (toRat c) ∧ 0 < toRat (sqrt c) := by
  cases c with
  | nan => simp [isNormal] at hc
  | inf s => simp [isNormal] at hc
  | fin s m e =>
    simp only [isNormal, decide_eq_true_eq] at hc
    have hm0 : m ≠ 0 := by omega
    cases s with
    | true => simp [sqrt, hm0, isNormal] at hr
    | false =>
      have hpos : 0 < toRat (sqrt (fin false m e)) := by
        apply toRat_pos _ hr
        simp only [sqrt, if_neg hm0, Bool.false_eq_true, if_false]
        exact round_false_isNonneg _ _ _
      refine ⟨?_, hpos⟩
      have hv : toRat (fin false m e) = (m : ℚ) * (2 : ℚ) ^ e := by
        simp [toRat]
      rw [hv]
      simp only [sqrt, if_neg hm0, Bool.false_eq_true, if_false] at hr ⊢
      by_cases hpar : (e - 60) % 2 = 0
      · simp only [hpar, if_true] at hr ⊢
        have h60 : (60 : Int).toNat = 60 := rfl
        rw [h60] at hr ⊢
        exact sqrt_core m e 60 hc.1 hc.2 (by norm_num) (by norm_num) hpar hr
      · simp only [hpar, if_false] at hr ⊢
        have h61 : (61 : Int).toNat = 61 := rfl
        rw [h61] at hr ⊢
        exact sqrt_core m e 61 hc.1 hc.2 (by norm_num) (by norm_num) (by omega) hr

/-- The square root of a zero is a zero. -/
theorem sqrt_isZero (c : F32) (hc : c.isZero = true) : (sqrt c).isZero = true := by
  cases c with
  | nan => simp [isZero] at hc
  | inf s => simp [isZero] at hc
  | fin s m e =>
    simp only [isZero, decide_eq_true_eq] at hc
    simp [sqrt, hc, isZero]

/-- A product with a zero factor on the left, the other factor finite, is a zero. -/
theorem mul_isZero (a b : F32) (ha : a.isZero = true)
    (hb : b.isNormal = true ∨ b.isZero = true) : (mul a b).isZero = true := by
  obtain ⟨sb, mb, eb, rfl, _, _⟩ := fin_of_normal_or_zero b hb
  cases a with
  | nan => simp [isZero] at ha
  | inf s => simp [isZero] at ha
  | fin s m e =>
    simp only [isZero, decide_eq_true_eq] at ha
    simp [mul, ha, round, isZero]

/-- A zero divided by a normal value is a zero. -/
theorem div_isZero (a b : F32) (ha : a.isZero = true) (hb : b.isNormal = true) :
    (div a b).isZero = true := by
  obtain ⟨sb, mb, eb, rfl, _, _⟩ := fin_of_normal_or_zero b (Or.inl hb)
  simp only [isNormal, decide_eq_true_eq] at hb
  have hmb : mb ≠ 0 := by omega
  cases a with
  | nan => simp [isZero] at ha
  | inf s => simp [isZero] at ha
  | fin s m e =>
    simp only [isZero, decide_eq_true_eq] at ha
    simp [div, ha, hmb, round, isZero]

/-- The sum of two zeros is a zero. -/
theorem add_isZero (a b : F32) (ha : a.isZero = true) (hb : b.isZero = true) :
    (add a b).isZero = true := by
  cases a with
  | nan => simp [isZero] at ha
  | inf s => simp [isZero] at ha
  | fin sa ma ea =>
    cases b with
    | nan => simp [isZero] at hb
    | inf s => simp [isZero] at hb
    | fin sb mb eb =>
      simp only [isZero, decide_eq_true_eq] at ha hb
      subst ha hb
      have h : scaled sa 0 (ea - min ea eb) + scaled sb 0 (eb - min ea eb) = 0 := by
        cases sa <;> cases sb <;> simp [scaled]
      simp [add, h, isZero]

/-- A value cannot be both normal and a zero. -/
theorem not_isZero_of_isNormal (a : F32) (h : a.isNormal = true) : a.isZero = false := by
  cases a with
  | nan => rfl
  | inf s => rfl
  | fin s m e =>
    simp only [isNormal, decide_eq_true_eq] at h
    simp only [isZero, decide_eq_false_iff_not]
    omega

/-- Multiplication, as a step: a product that is normal, or has a zero factor, is the
exact product within one rounding. -/
theorem mul_step (a b : F32) (ha : a.isNormal = true ∨ a.isZero = true)
    (hb : b.isNormal = true ∨ b.isZero = true)
    (h : (mul a b).isNormal = true ∨ a.isZero = true) :
    Within 1 (toRat (mul a b)) (toRat a * toRat b) ∧
      ((mul a b).isNormal = true ∨ (mul a b).isZero = true) := by
  rcases h with h | h
  · refine ⟨?_, Or.inl h⟩
    rcases ha with ha | ha
    · rcases hb with hb | hb
      · obtain ⟨ε, hε, hm⟩ := mul_model a b ha hb h
        exact Within.of_model hε hm
      · obtain ⟨sa, ma, ea, rfl, _, _⟩ := fin_of_normal_or_zero a (Or.inl ha)
        cases b with
        | nan => simp [isZero] at hb
        | inf s => simp [isZero] at hb
        | fin sb mb eb =>
          simp only [isZero, decide_eq_true_eq] at hb
          subst hb
          simp [mul, round, isNormal] at h
    · have := mul_isZero a b ha hb
      rw [not_isZero_of_isNormal _ h] at this
      exact absurd this (by simp)
  · have hz := mul_isZero a b h hb
    refine ⟨?_, Or.inr hz⟩
    rw [toRat_of_isZero _ hz, toRat_of_isZero _ h, zero_mul]
    exact Within.zero 1

/-- Division by a normal value, as a step. -/
theorem div_step (a b : F32) (ha : a.isNormal = true ∨ a.isZero = true)
    (hb : b.isNormal = true) (h : (div a b).isNormal = true ∨ a.isZero = true) :
    Within 1 (toRat (div a b)) (toRat a / toRat b) ∧
      ((div a b).isNormal = true ∨ (div a b).isZero = true) := by
  rcases h with h | h
  · refine ⟨?_, Or.inl h⟩
    rcases ha with ha | ha
    · obtain ⟨ε, hε, hm⟩ := div_model a b ha hb h
      exact Within.of_model hε hm
    · have := div_isZero a b ha hb
      rw [not_isZero_of_isNormal _ h] at this
      exact absurd this (by simp)
  · have hz := div_isZero a b h hb
    refine ⟨?_, Or.inr hz⟩
    rw [toRat_of_isZero _ hz, toRat_of_isZero _ h, zero_div]
    exact Within.zero 1

/-- Addition, as a step: a sum that is normal, or has two zero terms, is the exact sum
within one rounding. -/
theorem add_step (a b : F32) (ha : a.isFinite = true) (hb : b.isFinite = true)
    (h : (add a b).isNormal = true ∨ (a.isZero = true ∧ b.isZero = true)) :
    Within 1 (toRat (add a b)) (toRat a + toRat b) ∧
      ((add a b).isNormal = true ∨ (add a b).isZero = true) := by
  rcases h with h | ⟨h, h'⟩
  · obtain ⟨ε, hε, hm⟩ := add_model a b ha hb h
    exact ⟨Within.of_model hε hm, Or.inl h⟩
  · have hz := add_isZero a b h h'
    refine ⟨?_, Or.inr hz⟩
    rw [toRat_of_isZero _ hz, toRat_of_isZero _ h, toRat_of_isZero _ h', add_zero]
    exact Within.zero 1

/-- The square root, as a step: the square of a root that is normal, or the root of a
zero, is the radicand within three roundings, and the root is not negative. -/
theorem sqrt_step (c : F32) (hc : c.isNormal = true ∨ c.isZero = true)
    (h : (sqrt c).isNormal = true ∨ c.isZero = true) :
    Within 3 (toRat (sqrt c) * toRat (sqrt c)) (toRat c) ∧ 0 ≤ toRat (sqrt c) ∧
      ((sqrt c).isNormal = true ∨ (sqrt c).isZero = true) := by
  rcases h with h | h
  · rcases hc with hc | hc
    · obtain ⟨h1, h2⟩ := sqrt_model c hc h
      exact ⟨h1, le_of_lt h2, Or.inl h⟩
    · have := sqrt_isZero c hc
      rw [not_isZero_of_isNormal _ h] at this
      exact absurd this (by simp)
  · have hz := sqrt_isZero c h
    refine ⟨?_, ?_, Or.inr hz⟩
    · rw [toRat_of_isZero _ hz, toRat_of_isZero _ h, zero_mul]
      exact Within.zero 3
    · rw [toRat_of_isZero _ hz]

/-- A square that is normal, or the square of a zero, has its exponent in range. -/
theorem mul_self_isFinite (a : F32) (ha : a.isNormal = true ∨ a.isZero = true)
    (h : (mul a a).isNormal = true ∨ a.isZero = true) : (mul a a).isFinite = true := by
  obtain ⟨s, m, e, rfl, hm, hm'⟩ := fin_of_normal_or_zero a ha
  simp only [mul] at h ⊢
  by_cases hm0 : m = 0
  · subst hm0
    simp [round, isFinite]
  · rcases h with h | h
    · have h24 : 2 ^ 24 * 2 ^ 24 ≤ 2 ^ 4096 := by
        rw [← Nat.pow_add]; exact Nat.pow_le_pow_right (by decide) (by decide)
      exact round_isFinite _ _ 1 _ (Nat.mul_pos (by omega) (by omega)) (by decide)
        (lt_of_lt_of_le (Nat.mul_lt_mul'' hm hm) h24) (Nat.one_lt_two_pow (by decide)) h
    · simp only [isZero, decide_eq_true_eq] at h
      exact absurd h hm0

/-- A product that is normal, or has a zero factor on the left, has its exponent in the
binary32 range: it is a finite number. -/
theorem mul_isFinite (a b : F32) (ha : a.isNormal = true ∨ a.isZero = true)
    (hb : b.isNormal = true ∨ b.isZero = true)
    (h : (mul a b).isNormal = true ∨ a.isZero = true) : (mul a b).isFinite = true := by
  obtain ⟨sa, ma, ea, rfl, hma, _⟩ := fin_of_normal_or_zero a ha
  obtain ⟨sb, mb, eb, rfl, hmb, _⟩ := fin_of_normal_or_zero b hb
  simp only [mul] at h ⊢
  by_cases hm0 : ma * mb = 0
  · rw [hm0]
    simp [round, isFinite]
  · rcases h with h | h
    · have h24 : 2 ^ 24 * 2 ^ 24 ≤ 2 ^ 4096 := by
        rw [← Nat.pow_add]; exact Nat.pow_le_pow_right (by decide) (by decide)
      exact round_isFinite _ _ 1 _ (Nat.pos_of_ne_zero hm0) (by decide)
        (lt_of_lt_of_le (Nat.mul_lt_mul'' hma hmb) h24) (Nat.one_lt_two_pow (by decide)) h
    · simp only [isZero, decide_eq_true_eq] at h
      subst h
      simp at hm0

/-- Rounding a positive multiple of `2^-149` never gives a zero. -/
theorem round_isZero_false (s : Bool) (num : Nat) (e : Int) (hn : 0 < num)
    (hnb : num < 2 ^ 4096) (he : -149 ≤ e) : (round s num 1 e).isZero = false := by
  rcases round_nearest s num 1 e hn (by decide) hnb (Nat.one_lt_two_pow (by decide)) with
    ⟨hinf, _⟩ | ⟨m, q, hfin, _, _, _, hnorm, herr⟩
  · rw [hinf]; rfl
  · rw [hfin]
    clear hnb hfin
    simp only [isZero, decide_eq_false_iff_not]
    intro hm0
    subst hm0
    have hq : q = -149 := by
      rcases hnorm with h | h
      · norm_num at h
      · exact h
    subst hq
    have h1 : (1 : ℚ) ≤ (num : ℚ) := by exact_mod_cast hn
    have h2 : (2 : ℚ) ^ (-149 : Int) ≤ (2 : ℚ) ^ e := zpow_le_zpow_right₀ (by norm_num) he
    have hp : (0 : ℚ) < (2 : ℚ) ^ (-149 : Int) := zpow_pos (by norm_num) _
    have h3 : (2 : ℚ) ^ (-149 : Int) ≤ (num : ℚ) / ((1 : Nat) : ℚ) * (2 : ℚ) ^ e := by
      rw [Nat.cast_one, div_one]
      calc (2 : ℚ) ^ (-149 : Int) = 1 * (2 : ℚ) ^ (-149 : Int) := by ring
        _ ≤ (num : ℚ) * (2 : ℚ) ^ e := mul_le_mul h1 h2 (le_of_lt hp) (by linarith)
    have h4 := (abs_le.mp herr).1
    simp only [Nat.cast_zero, zero_mul, zero_sub] at h4
    linarith

/-- A sum of finite values that is a zero is exact: addition does not underflow. -/
theorem add_exact_of_isZero (a b : F32) (ha : a.isFinite = true) (hb : b.isFinite = true)
    (hr : (add a b).isZero = true) : toRat a + toRat b = 0 := by
  cases a with
  | nan => simp [isFinite] at ha
  | inf s => simp [isFinite] at ha
  | fin sa ma ea =>
    cases b with
    | nan => simp [isFinite] at hb
    | inf s => simp [isFinite] at hb
    | fin sb mb eb =>
      simp only [isFinite, decide_eq_true_eq] at ha hb
      simp only [add] at hr
      have hea : min ea eb ≤ ea := min_le_left _ _
      have heb : min ea eb ≤ eb := min_le_right _ _
      have hmin : -149 ≤ min ea eb := le_min ha.2.1 hb.2.1
      have hta : ea - min ea eb ≤ 253 := by
        rcases min_choice ea eb with h | h <;> rw [h] <;> omega
      have htb : eb - min ea eb ≤ 253 := by
        rcases min_choice ea eb with h | h <;> rw [h] <;> omega
      have hza := scaled_natAbs_lt sa ma _ ha.1 hta
      have hzb := scaled_natAbs_lt sb mb _ hb.1 htb
      have hva := scaled_toRat sa ma ea _ hea
      have hvb := scaled_toRat sb mb eb _ heb
      generalize scaled sa ma (ea - min ea eb) = za at hza hva hr
      generalize scaled sb mb (eb - min ea eb) = zb at hzb hvb hr
      by_cases hz : za + zb = 0
      · rw [← hva, ← hvb, ← add_mul]
        have : ((za : ℚ) + (zb : ℚ)) = 0 := by exact_mod_cast hz
        rw [this, zero_mul]
      · rw [if_neg hz] at hr
        have hpos : 0 < (za + zb).natAbs := Int.natAbs_pos.mpr hz
        have hlt : (za + zb).natAbs < 2 ^ 4096 := by
          have h1 := Int.natAbs_add_le za zb
          have h2 : (2 : Nat) ^ 277 + 2 ^ 277 ≤ 2 ^ 4096 := by
            rw [← Nat.two_mul, ← Nat.pow_succ']
            exact Nat.pow_le_pow_right (by decide) (by decide)
          omega
        rw [round_isZero_false _ _ _ hpos hlt hmin] at hr
        exact absurd hr (by simp)

/-- Subtraction, as a step: a difference that is normal or a zero is the exact difference
within one rounding. -/
theorem sub_step (a b : F32) (ha : a.isFinite = true) (hb : b.isFinite = true)
    (h : (sub a b).isNormal = true ∨ (sub a b).isZero = true) :
    Within 1 (toRat (sub a b)) (toRat a - toRat b) := by
  rcases h with h | h
  · obtain ⟨ε, hε, hm⟩ := sub_model a b ha hb h
    exact Within.of_model hε hm
  · have := add_exact_of_isZero a (neg b) ha (neg_isFinite b hb) h
    rw [toRat_neg] at this
    rw [toRat_of_isZero _ h, sub_eq_add_neg, this]
    exact Within.zero 1

end F32

/-! ### The rounding analysis of `calculateGravity` -/

/-- Rewriting the two sides of a closeness statement. -/
theorem Within.congr {k : Nat} {x y x' y' : ℚ} (h : Within k x y) (hx : x = x')
    (hy : y = y') :
    Within k x' y' := by
  rw [← hx, ← hy]; exact h

/-- The rounding analysis of `calculateGravity`, on the exact values of its intermediate
results: from the closeness of every step to the closeness of the result. -/
theorem force_assembly
    (Δx Δy δx δy a b c ρ Rq dq g mq K gmq gmkq ddq fq nxq nyq Fxq Fyq : ℚ)
    (hR : 0 < Rq) (hg : 0 < g * mq * K)
    (h1 : Within 1 δx Δx) (h1' : Within 1 δy Δy)
    (h2 : Within 1 a (δx * δx)) (h2' : Within 1 b (δy * δy))
    (h3 : Within 1 c (a + b))
    (h4 : Within 3 (ρ * ρ) c) (h4' : 0 ≤ ρ)
    (h5 : dq = max ρ Rq)
    (h6 : Within 1 gmq (g * mq)) (h7 : Within 1 gmkq (gmq * K))
    (h8 : Within 1 ddq (dq * dq)) (h9 : Within 1 fq (gmkq / ddq))
    (h10 : Within 1 nxq (δx / dq)) (h10' : Within 1 nyq (δy / dq))
    (h11 : Within 1 Fxq (nxq * fq)) (h11' : Within 1 Fyq (nyq * fq)) :
    0 < dq ∧
    Within 7 Fxq (Δx * (g * mq * K / (dq * dq * dq))) ∧
    Within 7 Fyq (Δy * (g * mq * K / (dq * dq * dq))) ∧
    Within 35 (Fxq * Fxq + Fyq * Fyq)
      ((Δx * Δx + Δy * Δy) * ((g * mq * K) * (g * mq * K)) /
        (max (Δx * Δx + Δy * Δy) (Rq * Rq) * max (Δx * Δx + Δy * Δy) (Rq * Rq) *
          max (Δx * Δx + Δy * Δy) (Rq * Rq))) ∧
    (Fxq * Fxq + Fyq * Fyq) * (1 - 1 / 2 ^ 24) ^ 21 ≤
      (g * mq * K / (Rq * Rq)) * (g * mq * K / (Rq * Rq)) := by
  have hd : 0 < dq := by rw [h5]; exact lt_of_lt_of_le hR (le_max_right _ _)
  have hdne : dq ≠ 0 := ne_of_gt hd
  -- the force
  have hgmk : Within 2 gmkq (g * mq * K) := h7.trans (h6.mul (Within.refl K))
  have hf : Within 4 fq (g * mq * K / (dq * dq)) := h9.trans (hgmk.div h8)
  -- the components
  have hcomp : ∀ Δ δ n Fc : ℚ, Within 1 δ Δ → Within 1 n (δ / dq) →
      Within 1 Fc (n * fq) →
      Within 7 Fc (Δ * (g * mq * K / (dq * dq * dq))) := by
    intro Δ δ n Fc k1 k10 k11
    have hn : Within 2 n (Δ / dq) := k10.trans (k1.div (Within.refl dq))
    have := k11.trans (hn.mul hf)
    refine this.congr rfl ?_
    ring
  have hFx := hcomp Δx δx nxq Fxq h1 h10 h11
  have hFy := hcomp Δy δy nyq Fyq h1' h10' h11'
  -- the squared magnitude against the computed distance
  have hxx : 0 ≤ Δx * Δx := mul_self_nonneg _
  have hyy : 0 ≤ Δy * Δy := mul_self_nonneg _
  have hκ : 0 ≤ (g * mq * K / (dq * dq * dq)) * (g * mq * K / (dq * dq * dq)) :=
    mul_self_nonneg _
  have hM : Within 14 (Fxq * Fxq + Fyq * Fyq)
      ((Δx * Δx + Δy * Δy) * ((g * mq * K) * (g * mq * K)) /
        (dq * dq * (dq * dq) * (dq * dq))) := by
    have hx2 := (hFx.mul hFx)
    have hy2 := (hFy.mul hFy)
    have := Within.add hx2 hy2 (mul_self_nonneg _) (mul_self_nonneg _)
    refine this.congr rfl ?_
    ring
  -- the computed distance against the exact one
  have ha : Within 3 a (Δx * Δx) := h2.trans (h1.mul h1)
  have hb : Within 3 b (Δy * Δy) := h2'.trans (h1'.mul h1')
  have hab : Within 3 (a + b) (Δx * Δx + Δy * Δy) := Within.add ha hb hxx hyy
  have hc : Within 4 c (Δx * Δx + Δy * Δy) := h3.trans hab
  have hρ : Within 7 (ρ * ρ) (Δx * Δx + Δy * Δy) := h4.trans hc
  have hδ : 0 ≤ Δx * Δx + Δy * Δy := add_nonneg hxx hyy
  have hRR : 0 < Rq * Rq := mul_pos hR hR
  have hdd : dq * dq = max (ρ * ρ) (Rq * Rq) := by
    rw [h5]
    rcases le_total ρ Rq with hc | hc
    · rw [max_eq_right hc, max_eq_right (mul_self_le_mul_self h4' hc)]
    · rw [max_eq_left hc, max_eq_left (mul_self_le_mul_self (le_of_lt hR) hc)]
  have hdδ : Within 7 (dq * dq) (max (Δx * Δx + Δy * Δy) (Rq * Rq)) := by
    rw [hdd]; exact hρ.clamp hδ hRR
  refine ⟨hd, hFx, hFy, ?_, ?_⟩
  · have h3d := (hdδ.mul hdδ).mul hdδ
    have := hM.trans
      ((Within.refl ((Δx * Δx + Δy * Δy) * ((g * mq * K) * (g * mq * K)))).div h3d)
    exact this
  · -- the bound
    have hb14 := (hM.bounds (by positivity)).2
    have hb7 := (hρ.bounds hδ).1
    have hρd : ρ * ρ ≤ dq * dq := by rw [hdd]; exact le_max_left _ _
    have hRd : Rq * Rq ≤ dq * dq := by rw [hdd]; exact le_max_right _ _
    have hdd0 : 0 < dq * dq := mul_pos hd hd
    have hγ7 := gamma_pow_pos 7
    have hγ14 := gamma_pow_pos 14
    -- δ² γ^7 ≤ d²
    have hδd : (Δx * Δx + Δy * Δy) * (1 - 1 / 2 ^ 24) ^ 7 ≤ dq * dq := le_trans hb7 hρd
    have hG : 0 ≤ (g * mq * K) * (g * mq * K) := mul_self_nonneg _
    have e21 : ((1 : ℚ) - 1 / 2 ^ 24) ^ 21 = (1 - 1 / 2 ^ 24) ^ 14 * (1 - 1 / 2 ^ 24) ^ 7 := by
      rw [← pow_add]
    calc (Fxq * Fxq + Fyq * Fyq) * (1 - 1 / 2 ^ 24) ^ 21
        = ((Fxq * Fxq + Fyq * Fyq) * (1 - 1 / 2 ^ 24) ^ 14) * (1 - 1 / 2 ^ 24) ^ 7 := by
          rw [e21]; ring
      _ ≤ ((Δx * Δx + Δy * Δy) * ((g * mq * K) * (g * mq * K)) /
            (dq * dq * (dq * dq) * (dq * dq))) * (1 - 1 / 2 ^ 24) ^ 7 :=
          mul_le_mul_of_nonneg_right hb14 (le_of_lt hγ7)
      _ = ((Δx * Δx + Δy * Δy) * (1 - 1 / 2 ^ 24) ^ 7) *
            (((g * mq * K) * (g * mq * K)) / (dq * dq * (dq * dq) * (dq * dq))) := by
          ring
      _ ≤ (dq * dq) * (((g * mq * K) * (g * mq * K)) / (dq * dq * (dq * dq) * (dq * dq))) :=
          mul_le_mul_of_nonneg_right hδd (by positivity)
      _ = ((g * mq * K) * (g * mq * K)) / ((dq * dq) * (dq * dq)) := by
          field_simp
          ring
      _ ≤ ((g * mq * K) * (g * mq * K)) / ((Rq * Rq) * (Rq * Rq)) := by
          apply div_le_div_of_nonneg_left hG (by positivity)
          exact mul_le_mul hRd hRd (le_of_lt hRR) (le_of_lt hdd0)
      _ = (g * mq * K / (Rq * Rq)) * (g * mq * K / (Rq * Rq)) := by
          ring

namespace F32

/-- The clamp of line 61 on exact values: the clamped distance is the larger of the root
and the radius, and it is a normal number. -/
theorem clamp_step (root R : F32) (hroot : root.isNormal = true ∨ root.isZero = true)
    (hnn : 0 ≤ toRat root) (hR : R.isNormal = true) (hRs : R.isNonneg = true) :
    toRat (if lt root R = true then R else root) = max (toRat root) (toRat R) ∧
      (if lt root R = true then R else root).isNormal = true := by
  have hRpos := toRat_pos R hR hRs
  obtain ⟨sr, mr, er, rfl, _, _⟩ := fin_of_normal_or_zero root hroot
  obtain ⟨sR, mR, eR, rfl, _, _⟩ := fin_of_normal_or_zero R (Or.inl hR)
  by_cases hlt : lt (fin sr mr er) (fin sR mR eR) = true
  · rw [if_pos hlt]
    have := (lt_iff _ _ _ _ _ _).mp hlt
    exact ⟨(max_eq_right (le_of_lt this)).symm, hR⟩
  · rw [if_neg hlt]
    have hge : toRat (fin sR mR eR) ≤ toRat (fin sr mr er) := by
      by_contra hc
      exact hlt ((lt_iff _ _ _ _ _ _).mpr (not_le.mp hc))
    refine ⟨(max_eq_left hge).symm, ?_⟩
    rcases hroot with h | h
    · exact h
    · rw [toRat_of_isZero _ h] at hge
      exact absurd hRpos (not_lt.mpr hge)

/-- The constants `G` and `K` of the program in binary32. -/
theorem constants :
    lit 667430 10000000000 = fin false 9173088 (-37) ∧
      lit 1000000 1 = fin false 16000000 (-4) := by
  constructor <;> decide!

/-- The rounding analysis of `calculateGravity` in binary32, on the values the function
computes one after the other, when no step overflows or underflows. -/
theorem force_core (Sx Sy Px Py R m Dx Dy xx yy sum root d gm gmk dd f nx ny Fx Fy : F32)
    (eDx : Dx = sub Sx Px) (eDy : Dy = sub Sy Py)
    (exx : xx = mul Dx Dx) (eyy : yy = mul Dy Dy) (esum : sum = add xx yy)
    (eroot : root = sqrt sum) (ed : d = if lt root R = true then R else root)
    (egm : gm = mul (lit 667430 10000000000) m) (egmk : gmk = mul gm (lit 1000000 1))
    (edd : dd = mul d d) (ef : f = div gmk dd)
    (enx : nx = div Dx d) (eny : ny = div Dy d)
    (eFx : Fx = mul nx f) (eFy : Fy = mul ny f)
    (hSx : Sx.isFinite = true) (hSy : Sy.isFinite = true)
    (hPx : Px.isFinite = true) (hPy : Py.isFinite = true)
    (hR : R.isNormal = true) (hRs : R.isNonneg = true)
    (hm : m.isNormal = true) (hms : m.isNonneg = true)
    (hDx : Dx.isNormal = true ∨ Dx.isZero = true)
    (hDy : Dy.isNormal = true ∨ Dy.isZero = true)
    (hxx : xx.isNormal = true ∨ Dx.isZero = true)
    (hyy : yy.isNormal = true ∨ Dy.isZero = true)
    (hsum : sum.isNormal = true ∨ (xx.isZero = true ∧ yy.isZero = true))
    (hroot : root.isNormal = true ∨ sum.isZero = true)
    (hgm : gm.isNormal = true) (hgmk : gmk.isNormal = true)
    (hdd : dd.isNormal = true) (hf : f.isNormal = true)
    (hnx : nx.isNormal = true ∨ Dx.isZero = true)
    (hny : ny.isNormal = true ∨ Dy.isZero = true)
    (hFx : Fx.isNormal = true ∨ nx.isZero = true)
    (hFy : Fy.isNormal = true ∨ ny.isZero = true) :
    (Fx.isFinite = true ∧ Fy.isFinite = true) ∧ 0 < toRat d ∧
    Within 7 (toRat Fx) ((toRat Sx - toRat Px) *
      (toRat (lit 667430 10000000000) * toRat m * 1000000 / (toRat d * toRat d * toRat d))) ∧
    Within 7 (toRat Fy) ((toRat Sy - toRat Py) *
      (toRat (lit 667430 10000000000) * toRat m * 1000000 / (toRat d * toRat d * toRat d))) ∧
    Within 35 (toRat Fx * toRat Fx + toRat Fy * toRat Fy)
      (((toRat Sx - toRat Px) * (toRat Sx - toRat Px) +
          (toRat Sy - toRat Py) * (toRat Sy - toRat Py)) *
        ((toRat (lit 667430 10000000000) * toRat m * 1000000) *
          (toRat (lit 667430 10000000000) * toRat m * 1000000)) /
        (max ((toRat Sx - toRat Px) * (toRat Sx - toRat Px) +
              (toRat Sy - toRat Py) * (toRat Sy - toRat Py)) (toRat R * toRat R) *
          max ((toRat Sx - toRat Px) * (toRat Sx - toRat Px) +
              (toRat Sy - toRat Py) * (toRat Sy - toRat Py)) (toRat R * toRat R) *
          max ((toRat Sx - toRat Px) * (toRat Sx - toRat Px) +
              (toRat Sy - toRat Py) * (toRat Sy - toRat Py)) (toRat R * toRat R))) ∧
    (toRat Fx * toRat Fx + toRat Fy * toRat Fy) * (1 - 1 / 2 ^ 24) ^ 21 ≤
      (toRat (lit 667430 10000000000) * toRat m * 1000000 / (toRat R * toRat R)) *
        (toRat (lit 667430 10000000000) * toRat m * 1000000 / (toRat R * toRat R)) := by
  -- the constants
  have hG : (lit 667430 10000000000).isNormal = true := by rw [constants.1]; rfl
  have hGs : (lit 667430 10000000000).isNonneg = true := by rw [constants.1]; rfl
  have hK : (lit 1000000 1).isNormal = true := by rw [constants.2]; rfl
  have hKv : toRat (lit 1000000 1) = 1000000 := by
    rw [constants.2]; norm_num [toRat]
  -- the steps
  have zDx := hDx
  have zDy := hDy
  have wDx := sub_step Sx Px hSx hPx (by rw [← eDx]; exact hDx)
  have wDy := sub_step Sy Py hSy hPy (by rw [← eDy]; exact hDy)
  rw [← eDx] at wDx
  rw [← eDy] at wDy
  have fxx := mul_self_isFinite Dx zDx (by rw [← exx]; exact hxx)
  have fyy := mul_self_isFinite Dy zDy (by rw [← eyy]; exact hyy)
  obtain ⟨wxx, zxx⟩ := mul_step Dx Dx zDx zDx (by rw [← exx]; exact hxx)
  obtain ⟨wyy, zyy⟩ := mul_step Dy Dy zDy zDy (by rw [← eyy]; exact hyy)
  rw [← exx] at wxx zxx fxx
  rw [← eyy] at wyy zyy fyy
  obtain ⟨wsum, zsum⟩ := add_step xx yy fxx fyy (by rw [← esum]; exact hsum)
  rw [← esum] at wsum zsum
  obtain ⟨wroot, nroot, zroot⟩ := sqrt_step sum zsum (by rw [← eroot]; exact hroot)
  rw [← eroot] at wroot nroot zroot
  obtain ⟨vd, nd⟩ := clamp_step root R zroot nroot hR hRs
  rw [← ed] at vd nd
  obtain ⟨wgm, _⟩ := mul_step _ m (Or.inl hG) (Or.inl hm) (Or.inl (by rw [← egm]; exact hgm))
  rw [← egm] at wgm
  obtain ⟨wgmk, _⟩ := mul_step gm _ (Or.inl hgm) (Or.inl hK)
    (Or.inl (by rw [← egmk]; exact hgmk))
  rw [← egmk, hKv] at wgmk
  obtain ⟨wdd, _⟩ := mul_step d d (Or.inl nd) (Or.inl nd) (Or.inl (by rw [← edd]; exact hdd))
  rw [← edd] at wdd
  obtain ⟨wf, _⟩ := div_step gmk dd (Or.inl hgmk) hdd (Or.inl (by rw [← ef]; exact hf))
  rw [← ef] at wf
  obtain ⟨wnx, znx⟩ := div_step Dx d zDx nd (by rw [← enx]; exact hnx)
  obtain ⟨wny, zny⟩ := div_step Dy d zDy nd (by rw [← eny]; exact hny)
  rw [← enx] at wnx znx
  rw [← eny] at wny zny
  obtain ⟨wFx, _⟩ := mul_step nx f znx (Or.inl hf) (by rw [← eFx]; exact hFx)
  obtain ⟨wFy, _⟩ := mul_step ny f zny (Or.inl hf) (by rw [← eFy]; exact hFy)
  have fFx := mul_isFinite nx f znx (Or.inl hf) (by rw [← eFx]; exact hFx)
  have fFy := mul_isFinite ny f zny (Or.inl hf) (by rw [← eFy]; exact hFy)
  rw [← eFx] at wFx fFx
  rw [← eFy] at wFy fFy
  have hRpos := toRat_pos R hR hRs
  have hgpos : 0 < toRat (lit 667430 10000000000) * toRat m * 1000000 :=
    mul_pos (mul_pos (toRat_pos _ hG hGs) (toRat_pos m hm hms)) (by norm_num)
  exact ⟨⟨fFx, fFy⟩, force_assembly _ _ _ _ _ _ _ _ _ _ _ _ _ _ _ _ _ _ _ _ _ hRpos hgpos wDx wDy
    wxx wyy wsum wroot nroot vd wgm wgmk wdd wf wnx wny wFx wFy⟩

end F32

/-- Seven roundings are a relative error of at most `2^-21`. -/
theorem Within.abs_sub_le {x y : ℚ} (h : Within 7 x y) : |x - y| ≤ 1 / 2 ^ 21 * |y| := by
  obtain ⟨t, h1, h2, h3⟩ := h
  have ht := Within.factor_pos h1
  have n1 : (1 : ℚ) - 1 / 2 ^ 21 ≤ (1 - 1 / 2 ^ 24) ^ 7 := by norm_num
  have n2 : (1 : ℚ) ≤ (1 - 1 / 2 ^ 24) ^ 7 * (1 + 1 / 2 ^ 21) := by norm_num
  have hg := gamma_pow_pos 7
  have hup : t ≤ 1 + 1 / 2 ^ 21 := by
    have : t * (1 - 1 / 2 ^ 24) ^ 7 ≤ (1 + 1 / 2 ^ 21) * (1 - 1 / 2 ^ 24) ^ 7 := by
      rw [mul_comm (1 + 1 / 2 ^ 21 : ℚ)]; exact le_trans h2 n2
    exact le_of_mul_le_mul_right this hg
  have hlo : 1 - 1 / 2 ^ 21 ≤ t := le_trans n1 h1
  have : x - y = y * (t - 1) := by rw [h3]; ring
  rw [this, abs_mul, mul_comm]
  apply mul_le_mul_of_nonneg_right _ (abs_nonneg y)
  rw [abs_le]
  constructor <;> linarith

/-- The force in binary32, when no operation overflows or underflows: the result is
finite, and the bound by the clamp, the inverse-square law outside the radius and the
direction hold, each up to rounding. -/
theorem force_bounded_binary32 (s : GravitySimulation F32) (p : Planet F32)
    (h : forceRegular s p = true) :
    ((calculateGravity F32.arith s p).x.isFinite = true ∧
      (calculateGravity F32.arith s p).y.isFinite = true) ∧
    (calculateGravity F32.arith s p).toRat.normSq ≤
        ((1 + 1 / 2 ^ 20) * ((G F32.arith).toRat * p.mass.toRat * 1000000 /
          (s.sun.radius.toRat * s.sun.radius.toRat))) ^ 2 ∧
    (s.sun.radius.toRat * s.sun.radius.toRat ≤
        (Vec2.sub exactArith s.sun.position.toRat p.shape.position.toRat).normSq →
      ((1 - 1 / 2 ^ 19) * ((G F32.arith).toRat * p.mass.toRat * 1000000 /
          (Vec2.sub exactArith s.sun.position.toRat p.shape.position.toRat).normSq)) ^ 2 ≤
        (calculateGravity F32.arith s p).toRat.normSq ∧
      (calculateGravity F32.arith s p).toRat.normSq ≤
        ((1 + 1 / 2 ^ 19) * ((G F32.arith).toRat * p.mass.toRat * 1000000 /
          (Vec2.sub exactArith s.sun.position.toRat p.shape.position.toRat).normSq)) ^ 2) ∧
    ∃ c : ℚ, 0 < c ∧
      |(calculateGravity F32.arith s p).x.toRat -
          c * (s.sun.position.x.toRat - p.shape.position.x.toRat)| ≤
        1 / 2 ^ 21 * |c * (s.sun.position.x.toRat - p.shape.position.x.toRat)| ∧
      |(calculateGravity F32.arith s p).y.toRat -
          c * (s.sun.position.y.toRat - p.shape.position.y.toRat)| ≤
        1 / 2 ^ 21 * |c * (s.sun.position.y.toRat - p.shape.position.y.toRat)| := by
  simp only [forceRegular, Bool.and_eq_true, Bool.or_eq_true] at h
  obtain ⟨⟨⟨⟨⟨⟨⟨⟨⟨⟨⟨⟨⟨⟨⟨⟨⟨⟨⟨⟨⟨hSx, hSy⟩, hPx⟩, hPy⟩, hR⟩, hRs⟩, hm⟩, hms⟩, hDx⟩, hDy⟩,
    hxx⟩, hyy⟩, hsum⟩, hroot⟩, hgm⟩, hgmk⟩, hdd⟩, hf⟩, hnx⟩, hny⟩, hFx⟩, hFy⟩ := h
  obtain ⟨hfin, hd, wx, wy, wM, wB⟩ := F32.force_core
    s.sun.position.x s.sun.position.y p.shape.position.x p.shape.position.y
    s.sun.radius p.mass
    (F32.sub s.sun.position.x p.shape.position.x)
    (F32.sub s.sun.position.y p.shape.position.y)
    _ _ _ _ (clampedDistance F32.arith s p) _ _ _ _ _ _
    (calculateGravity F32.arith s p).x (calculateGravity F32.arith s p).y
    rfl rfl rfl rfl rfl rfl rfl rfl rfl rfl rfl rfl rfl rfl rfl
    hSx hSy hPx hPy hR hRs hm hms hDx hDy hxx hyy hsum hroot hgm hgmk hdd hf hnx hny hFx hFy
  have hR0 : 0 < s.sun.radius.toRat := F32.toRat_pos _ hR hRs
  have hGm : 0 < (F32.lit 667430 10000000000).toRat * p.mass.toRat * 1000000 := by
    have hG : (F32.lit 667430 10000000000).isNormal = true := by rw [F32.constants.1]; rfl
    have hGs : (F32.lit 667430 10000000000).isNonneg = true := by rw [F32.constants.1]; rfl
    exact mul_pos (mul_pos (F32.toRat_pos _ hG hGs) (F32.toRat_pos _ hm hms)) (by norm_num)
  have hnorm : (calculateGravity F32.arith s p).toRat.normSq =
      (calculateGravity F32.arith s p).x.toRat * (calculateGravity F32.arith s p).x.toRat +
      (calculateGravity F32.arith s p).y.toRat * (calculateGravity F32.arith s p).y.toRat := rfl
  have hdist : (Vec2.sub exactArith s.sun.position.toRat p.shape.position.toRat).normSq =
      (s.sun.position.x.toRat - p.shape.position.x.toRat) *
        (s.sun.position.x.toRat - p.shape.position.x.toRat) +
      (s.sun.position.y.toRat - p.shape.position.y.toRat) *
        (s.sun.position.y.toRat - p.shape.position.y.toRat) := rfl
  have hGdef : G F32.arith = F32.lit 667430 10000000000 := rfl
  rw [hnorm, hdist, hGdef]
  generalize (calculateGravity F32.arith s p).x.toRat = Fx at wx wM wB ⊢
  generalize (calculateGravity F32.arith s p).y.toRat = Fy at wy wM wB ⊢
  generalize (F32.lit 667430 10000000000).toRat * p.mass.toRat * 1000000 = gmk
    at wx wy wM wB hGm ⊢
  generalize s.sun.position.x.toRat - p.shape.position.x.toRat = Δx at wx wM ⊢
  generalize s.sun.position.y.toRat - p.shape.position.y.toRat = Δy at wy wM ⊢
  generalize s.sun.radius.toRat = R at wM wB hR0 ⊢
  generalize (clampedDistance F32.arith s p).toRat = d at hd wx wy
  have hM0 : 0 ≤ Fx * Fx + Fy * Fy := add_nonneg (mul_self_nonneg _) (mul_self_nonneg _)
  refine ⟨hfin, ?_, ?_, ?_⟩
  · have n1 : (1 : ℚ) ≤ (1 - 1 / 2 ^ 24) ^ 21 * ((1 + 1 / 2 ^ 20) * (1 + 1 / 2 ^ 20)) := by
      norm_num
    calc Fx * Fx + Fy * Fy = (Fx * Fx + Fy * Fy) * 1 := by ring
      _ ≤ (Fx * Fx + Fy * Fy) *
            ((1 - 1 / 2 ^ 24) ^ 21 * ((1 + 1 / 2 ^ 20) * (1 + 1 / 2 ^ 20))) :=
          mul_le_mul_of_nonneg_left n1 hM0
      _ = ((Fx * Fx + Fy * Fy) * (1 - 1 / 2 ^ 24) ^ 21) *
            ((1 + 1 / 2 ^ 20) * (1 + 1 / 2 ^ 20)) := by ring
      _ ≤ (gmk / (R * R) * (gmk / (R * R))) * ((1 + 1 / 2 ^ 20) * (1 + 1 / 2 ^ 20)) :=
          mul_le_mul_of_nonneg_right wB (by norm_num)
      _ = ((1 + 1 / 2 ^ 20) * (gmk / (R * R))) ^ 2 := by ring
  · intro hout
    have hδ : 0 < Δx * Δx + Δy * Δy := lt_of_lt_of_le (mul_pos hR0 hR0) hout
    rw [max_eq_left hout] at wM
    have hval : (Δx * Δx + Δy * Δy) * (gmk * gmk) /
        ((Δx * Δx + Δy * Δy) * (Δx * Δx + Δy * Δy) * (Δx * Δx + Δy * Δy)) =
        (gmk / (Δx * Δx + Δy * Δy)) * (gmk / (Δx * Δx + Δy * Δy)) := by
      field_simp
      ring
    rw [hval] at wM
    obtain ⟨b1, b2⟩ := wM.bounds (mul_self_nonneg _)
    have hv0 : 0 ≤ (gmk / (Δx * Δx + Δy * Δy)) * (gmk / (Δx * Δx + Δy * Δy)) :=
      mul_self_nonneg _
    have hVV : ∀ q : ℚ, (q * (gmk / (Δx * Δx + Δy * Δy))) ^ 2 =
        (q * q) * ((gmk / (Δx * Δx + Δy * Δy)) * (gmk / (Δx * Δx + Δy * Δy))) := by
      intro q; ring
    rw [hVV, hVV]
    generalize (gmk / (Δx * Δx + Δy * Δy)) * (gmk / (Δx * Δx + Δy * Δy)) = V
      at b1 b2 hv0 ⊢
    have n2 : ((1 : ℚ) - 1 / 2 ^ 19) * (1 - 1 / 2 ^ 19) ≤ (1 - 1 / 2 ^ 24) ^ 35 := by norm_num
    have n3 : (1 : ℚ) ≤ (1 - 1 / 2 ^ 24) ^ 35 * ((1 + 1 / 2 ^ 19) * (1 + 1 / 2 ^ 19)) := by
      norm_num
    constructor
    · calc (1 - 1 / 2 ^ 19) * (1 - 1 / 2 ^ 19) * V ≤ (1 - 1 / 2 ^ 24) ^ 35 * V :=
          mul_le_mul_of_nonneg_right n2 hv0
        _ = V * (1 - 1 / 2 ^ 24) ^ 35 := by ring
        _ ≤ Fx * Fx + Fy * Fy := b1
    · calc Fx * Fx + Fy * Fy = (Fx * Fx + Fy * Fy) * 1 := by ring
        _ ≤ (Fx * Fx + Fy * Fy) *
              ((1 - 1 / 2 ^ 24) ^ 35 * ((1 + 1 / 2 ^ 19) * (1 + 1 / 2 ^ 19))) :=
            mul_le_mul_of_nonneg_left n3 hM0
        _ = ((Fx * Fx + Fy * Fy) * (1 - 1 / 2 ^ 24) ^ 35) *
              ((1 + 1 / 2 ^ 19) * (1 + 1 / 2 ^ 19)) := by ring
        _ ≤ V * ((1 + 1 / 2 ^ 19) * (1 + 1 / 2 ^ 19)) :=
            mul_le_mul_of_nonneg_right b2 (by norm_num)
        _ = (1 + 1 / 2 ^ 19) * (1 + 1 / 2 ^ 19) * V := by ring
  · refine ⟨gmk / (d * d * d), by positivity, ?_, ?_⟩
    · have := wx.abs_sub_le
      rw [mul_comm Δx] at this
      exact this
    · have := wy.abs_sub_le
      rw [mul_comm Δy] at this
      exact this

/-! ### Inputs for which no operation overflows or underflows -/

namespace F32

/-- A value in the normal range rounds to a normal number: no overflow, no underflow. -/
theorem round_isNormal_of_range (s : Bool) (num den : Nat) (e : Int) (hn : 0 < num)
    (hd : 0 < den) (hnb : num < 2 ^ 4096) (hdb : den < 2 ^ 4096)
    (hlo : (2 : ℚ) ^ (-126 : Int) ≤ (num : ℚ) / den * (2 : ℚ) ^ e)
    (hhi : (num : ℚ) / den * (2 : ℚ) ^ e ≤ (2 : ℚ) ^ (127 : Int)) :
    (round s num den e).isNormal = true := by
  rcases round_nearest s num den e hn hd hnb hdb with
    ⟨_, hbig⟩ | ⟨m, q, hfin, hm, _, _, hnorm, herr⟩
  · exfalso
    clear hnb hdb
    have : (2 : ℚ) ^ (127 : Int) <
        ((2 : ℚ) ^ (24 : Nat) - 1 / 2) * (2 : ℚ) ^ (104 : Int) := by
      norm_num
    linarith
  · rw [hfin]
    clear hnb hdb hfin
    simp only [isNormal, decide_eq_true_eq]
    refine ⟨?_, hm⟩
    rcases hnorm with h | h
    · exact h
    · subst h
      have h1 := (abs_le.mp herr).1
      have hp : (0 : ℚ) < (2 : ℚ) ^ (-149 : Int) := zpow_pos (by norm_num) _
      have h2 : (2 : ℚ) ^ (-126 : Int) = 2 ^ 23 * (2 : ℚ) ^ (-149 : Int) := by norm_num
      have h3 : ((2 : ℚ) ^ 23 - 1 / 2) * (2 : ℚ) ^ (-149 : Int) ≤
          (m : ℚ) * (2 : ℚ) ^ (-149 : Int) := by
        rw [h2] at hlo
        linarith
      have h4 : (2 : ℚ) ^ 23 - 1 / 2 ≤ (m : ℚ) := le_of_mul_le_mul_right h3 hp
      by_contra hlt
      have h5 : m + 1 ≤ 2 ^ 23 := by omega
      have h6 : (m : ℚ) + 1 ≤ 2 ^ 23 := by exact_mod_cast h5
      linarith

/-- The absolute value of the exact value of a finite binary32. -/
theorem abs_toRat_fin (s : Bool) (m : Nat) (e : Int) :
    |toRat (fin s m e)| = (m : ℚ) * (2 : ℚ) ^ e := by
  have hp : (0 : ℚ) ≤ (m : ℚ) * (2 : ℚ) ^ e :=
    mul_nonneg (Nat.cast_nonneg m) (le_of_lt (zpow_pos (by norm_num) e))
  rw [toRat_fin]
  cases s
  · simp only [signRat, Bool.false_eq_true, if_false, one_mul]
    exact abs_of_nonneg hp
  · simp only [signRat, if_true, neg_mul, one_mul, abs_neg]
    exact abs_of_nonneg hp

/-- A product of normal numbers in the normal range is a normal number. -/
theorem mul_isNormal_of_range (a b : F32) (ha : a.isNormal = true) (hb : b.isNormal = true)
    (hlo : (2 : ℚ) ^ (-126 : Int) ≤ |toRat a * toRat b|)
    (hhi : |toRat a * toRat b| ≤ (2 : ℚ) ^ (127 : Int)) : (mul a b).isNormal = true := by
  obtain ⟨sa, ma, ea, rfl, _, _⟩ := fin_of_normal_or_zero a (Or.inl ha)
  obtain ⟨sb, mb, eb, rfl, _, _⟩ := fin_of_normal_or_zero b (Or.inl hb)
  simp only [isNormal, decide_eq_true_eq] at ha hb
  rw [abs_mul, abs_toRat_fin, abs_toRat_fin] at hlo hhi
  have hv : ((ma * mb : Nat) : ℚ) / ((1 : Nat) : ℚ) * (2 : ℚ) ^ (ea + eb) =
      (ma : ℚ) * (2 : ℚ) ^ ea * ((mb : ℚ) * (2 : ℚ) ^ eb) := by
    rw [zpow_add₀ (by norm_num : (2 : ℚ) ≠ 0)]
    push_cast
    ring
  have h24 : 2 ^ 24 * 2 ^ 24 ≤ 2 ^ 4096 := by
    rw [← Nat.pow_add]; exact Nat.pow_le_pow_right (by decide) (by decide)
  simp only [mul]
  exact round_isNormal_of_range _ _ 1 _ (Nat.mul_pos (by omega) (by omega)) (by decide)
    (lt_of_lt_of_le (Nat.mul_lt_mul'' ha.2 hb.2) h24) (Nat.one_lt_two_pow (by decide))
    (by rw [hv]; exact hlo) (by rw [hv]; exact hhi)

/-- A quotient of normal numbers in the normal range is a normal number. -/
theorem div_isNormal_of_range (a b : F32) (ha : a.isNormal = true) (hb : b.isNormal = true)
    (hlo : (2 : ℚ) ^ (-126 : Int) ≤ |toRat a / toRat b|)
    (hhi : |toRat a / toRat b| ≤ (2 : ℚ) ^ (127 : Int)) : (div a b).isNormal = true := by
  obtain ⟨sa, ma, ea, rfl, _, _⟩ := fin_of_normal_or_zero a (Or.inl ha)
  obtain ⟨sb, mb, eb, rfl, _, _⟩ := fin_of_normal_or_zero b (Or.inl hb)
  simp only [isNormal, decide_eq_true_eq] at ha hb
  rw [abs_div, abs_toRat_fin, abs_toRat_fin] at hlo hhi
  have hmb : mb ≠ 0 := by omega
  have hmq : (mb : ℚ) ≠ 0 := by exact_mod_cast hmb
  have hp : (2 : ℚ) ^ eb ≠ 0 := zpow_ne_zero _ (by norm_num)
  have hv : (ma : ℚ) / (mb : ℚ) * (2 : ℚ) ^ (ea - eb) =
      (ma : ℚ) * (2 : ℚ) ^ ea / ((mb : ℚ) * (2 : ℚ) ^ eb) := by
    rw [zpow_sub₀ (by norm_num : (2 : ℚ) ≠ 0)]
    field_simp
  have h24 : 2 ^ 24 ≤ 2 ^ 4096 := Nat.pow_le_pow_right (by decide) (by decide)
  simp only [div, if_neg hmb]
  exact round_isNormal_of_range _ _ _ _ (by omega) (by omega)
    (lt_of_lt_of_le ha.2 h24) (lt_of_lt_of_le hb.2 h24)
    (by rw [hv]; exact hlo) (by rw [hv]; exact hhi)

/-- A sum of finite values is a zero when the exact sum is zero, and a normal number when
the exact sum is in the normal range. -/
theorem add_isNormal_of_range (a b : F32) (ha : a.isFinite = true) (hb : b.isFinite = true)
    (hlo : toRat a + toRat b = 0 ∨ (2 : ℚ) ^ (-126 : Int) ≤ |toRat a + toRat b|)
    (hhi : |toRat a + toRat b| ≤ (2 : ℚ) ^ (127 : Int)) :
    (toRat a + toRat b = 0 ∧ (add a b).isZero = true) ∨
      (toRat a + toRat b ≠ 0 ∧ (add a b).isNormal = true) := by
  cases a with
  | nan => simp [isFinite] at ha
  | inf s => simp [isFinite] at ha
  | fin sa ma ea =>
    cases b with
    | nan => simp [isFinite] at hb
    | inf s => simp [isFinite] at hb
    | fin sb mb eb =>
      simp only [isFinite, decide_eq_true_eq] at ha hb
      simp only [add]
      have hea : min ea eb ≤ ea := min_le_left _ _
      have heb : min ea eb ≤ eb := min_le_right _ _
      have hta : ea - min ea eb ≤ 253 := by
        rcases min_choice ea eb with h | h <;> rw [h] <;> omega
      have htb : eb - min ea eb ≤ 253 := by
        rcases min_choice ea eb with h | h <;> rw [h] <;> omega
      have hza := scaled_natAbs_lt sa ma _ ha.1 hta
      have hzb := scaled_natAbs_lt sb mb _ hb.1 htb
      have hva := scaled_toRat sa ma ea _ hea
      have hvb := scaled_toRat sb mb eb _ heb
      generalize scaled sa ma (ea - min ea eb) = za at hza hva ⊢
      generalize scaled sb mb (eb - min ea eb) = zb at hzb hvb ⊢
      have hsum : toRat (fin sa ma ea) + toRat (fin sb mb eb) =
          ((za + zb : Int) : ℚ) * (2 : ℚ) ^ (min ea eb) := by
        rw [← hva, ← hvb]; push_cast; ring
      rw [hsum] at hlo hhi ⊢
      have hp : (0 : ℚ) < (2 : ℚ) ^ (min ea eb) := zpow_pos (by norm_num) _
      by_cases hz : za + zb = 0
      · left
        rw [if_pos hz, hz]
        exact ⟨by simp, rfl⟩
      · right
        rw [if_neg hz]
        have hzq : ((za + zb : Int) : ℚ) ≠ 0 := by exact_mod_cast hz
        refine ⟨mul_ne_zero hzq (ne_of_gt hp), ?_⟩
        have habs : |((za + zb : Int) : ℚ) * (2 : ℚ) ^ (min ea eb)| =
            ((za + zb).natAbs : ℚ) / ((1 : Nat) : ℚ) * (2 : ℚ) ^ (min ea eb) := by
          rw [abs_mul, abs_of_pos hp, Nat.cast_one, div_one, Nat.cast_natAbs, Int.cast_abs]
        rw [habs] at hlo hhi
        have hpos : 0 < (za + zb).natAbs := Int.natAbs_pos.mpr hz
        have hlt : (za + zb).natAbs < 2 ^ 4096 := by
          have h1 := Int.natAbs_add_le za zb
          have h2 : (2 : Nat) ^ 277 + 2 ^ 277 ≤ 2 ^ 4096 := by
            rw [← Nat.two_mul, ← Nat.pow_succ']
            exact Nat.pow_le_pow_right (by decide) (by decide)
          omega
        rcases hlo with hlo | hlo
        · exact absurd hlo (mul_ne_zero hzq (ne_of_gt hp))
        · exact round_isNormal_of_range _ _ 1 _ hpos (by decide) hlt
            (Nat.one_lt_two_pow (by decide)) hlo hhi

/-- The rounded root that `sqrt` computes for a normal radicand in the binary32 range is
a normal number. -/
theorem sqrt_core_isNormal (m : Nat) (e : Int) (k : Nat) (hm1 : 2 ^ 23 ≤ m)
    (hm2 : m < 2 ^ 24)
    (hk1 : 60 ≤ k) (hk2 : k ≤ 61) (he1 : -149 ≤ e) (he2 : e ≤ 104) :
    (round false (2 * isqrt (m * 2 ^ k) +
        (if isqrt (m * 2 ^ k) * isqrt (m * 2 ^ k) = m * 2 ^ k then 0 else 1)) 1
        ((e - (k : Int)) / 2 - 1)).isNormal = true := by
  have hn1 : 2 ^ 83 ≤ m * 2 ^ k := by
    calc 2 ^ 83 = 2 ^ 23 * 2 ^ 60 := by norm_num
      _ ≤ m * 2 ^ k := Nat.mul_le_mul hm1 (Nat.pow_le_pow_right (by decide) hk1)
  have hn2 : m * 2 ^ k < 2 ^ 85 := by
    calc m * 2 ^ k < 2 ^ 24 * 2 ^ k :=
          Nat.mul_lt_mul_of_pos_right hm2 (Nat.pow_pos (by decide))
      _ ≤ 2 ^ 24 * 2 ^ 61 := Nat.mul_le_mul_left _ (Nat.pow_le_pow_right (by decide) hk2)
      _ = 2 ^ 85 := by norm_num
  generalize m * 2 ^ k = n at hn1 hn2 ⊢
  have hn4096 : n < 2 ^ 4096 :=
    lt_of_lt_of_le hn2 (Nat.pow_le_pow_right (by decide) (by decide))
  obtain ⟨hs1, hs2⟩ := isqrt_spec n (by omega) hn4096
  clear hn4096
  generalize isqrt n = r at hs1 hs2 ⊢
  have hr41 : 2 ^ 41 ≤ r := by
    by_contra hlt
    have h1 : r + 1 ≤ 2 ^ 41 := by omega
    have h3 : (r + 1) * (r + 1) ≤ 2 ^ 41 * 2 ^ 41 := Nat.mul_le_mul h1 h1
    have h4 : (2 : Nat) ^ 41 * 2 ^ 41 = 2 ^ 82 := by norm_num
    have h5 : (2 : Nat) ^ 82 < 2 ^ 83 := by norm_num
    omega
  have hr43 : r < 2 ^ 43 := by
    by_contra hge
    have h1 : 2 ^ 43 ≤ r := by omega
    have h3 : 2 ^ 43 * 2 ^ 43 ≤ r * r := Nat.mul_le_mul h1 h1
    have h4 : (2 : Nat) ^ 43 * 2 ^ 43 = 2 ^ 86 := by norm_num
    have h5 : (2 : Nat) ^ 85 < 2 ^ 86 := by norm_num
    omega
  have hE1 : -106 ≤ (e - (k : Int)) / 2 - 1 := by omega
  have hE2 : (e - (k : Int)) / 2 - 1 ≤ 21 := by omega
  generalize (e - (k : Int)) / 2 - 1 = E at hE1 hE2 ⊢
  have hσ : (if r * r = n then 0 else 1) ≤ 1 := by split <;> omega
  generalize (if r * r = n then 0 else 1) = σ at hσ ⊢
  have hnum1 : 2 ^ 42 ≤ 2 * r + σ := by
    have : (2 : Nat) ^ 42 = 2 * 2 ^ 41 := by norm_num
    omega
  have hnum2 : 2 * r + σ ≤ 2 ^ 44 := by
    have : (2 : Nat) ^ 44 = 2 * 2 ^ 43 := by norm_num
    omega
  have hnumb : 2 * r + σ < 2 ^ 4096 :=
    lt_of_le_of_lt hnum2 (Nat.pow_lt_pow_right (by decide) (by decide))
  have q1 : (2 : ℚ) ^ (42 : Int) ≤ ((2 * r + σ : Nat) : ℚ) := by
    have : ((2 ^ 42 : Nat) : ℚ) ≤ ((2 * r + σ : Nat) : ℚ) := by exact_mod_cast hnum1
    calc (2 : ℚ) ^ (42 : Int) = ((2 ^ 42 : Nat) : ℚ) := by norm_num
      _ ≤ _ := this
  have q2 : ((2 * r + σ : Nat) : ℚ) ≤ (2 : ℚ) ^ (44 : Int) := by
    have : ((2 * r + σ : Nat) : ℚ) ≤ ((2 ^ 44 : Nat) : ℚ) := by exact_mod_cast hnum2
    calc ((2 * r + σ : Nat) : ℚ) ≤ ((2 ^ 44 : Nat) : ℚ) := this
      _ = (2 : ℚ) ^ (44 : Int) := by norm_num
  have p1 : (2 : ℚ) ^ (-106 : Int) ≤ (2 : ℚ) ^ E := zpow_le_zpow_right₀ (by norm_num) hE1
  have p2 : (2 : ℚ) ^ E ≤ (2 : ℚ) ^ (21 : Int) := zpow_le_zpow_right₀ (by norm_num) hE2
  have hp : (0 : ℚ) < (2 : ℚ) ^ E := zpow_pos (by norm_num) _
  apply round_isNormal_of_range _ _ 1 _ (by omega) (by decide) hnumb
    (Nat.one_lt_two_pow (by decide))
  · rw [Nat.cast_one, div_one]
    calc (2 : ℚ) ^ (-126 : Int) ≤ (2 : ℚ) ^ (42 : Int) * (2 : ℚ) ^ (-106 : Int) := by
          norm_num
      _ ≤ ((2 * r + σ : Nat) : ℚ) * (2 : ℚ) ^ E :=
          mul_le_mul q1 p1 (by norm_num) (le_trans (by norm_num) q1)
  · rw [Nat.cast_one, div_one]
    calc ((2 * r + σ : Nat) : ℚ) * (2 : ℚ) ^ E ≤
          (2 : ℚ) ^ (44 : Int) * (2 : ℚ) ^ (21 : Int) :=
          mul_le_mul q2 p2 (le_of_lt hp) (by norm_num)
      _ ≤ (2 : ℚ) ^ (127 : Int) := by norm_num

/-- The square root of a normal number in the binary32 range with a clear sign bit is a
normal number. -/
theorem sqrt_isNormal (c : F32) (hc : c.isNormal = true) (hf : c.isFinite = true)
    (hs : c.isNonneg = true) : (sqrt c).isNormal = true := by
  cases c with
  | nan => simp [isNormal] at hc
  | inf s => simp [isNormal] at hc
  | fin s m e =>
    simp only [isNormal, decide_eq_true_eq] at hc
    simp only [isFinite, decide_eq_true_eq] at hf
    simp only [isNonneg, Bool.not_eq_true'] at hs
    subst hs
    have hm0 : m ≠ 0 := by omega
    simp only [sqrt, if_neg hm0, Bool.false_eq_true, if_false]
    by_cases hpar : (e - 60) % 2 = 0
    · simp only [hpar, if_true]
      have h60 : (60 : Int).toNat = 60 := rfl
      rw [h60]
      exact sqrt_core_isNormal m e 60 hc.1 hc.2 (by norm_num) (by norm_num) hf.2.1 hf.2.2
    · simp only [hpar, if_false]
      have h61 : (61 : Int).toNat = 61 := rfl
      rw [h61]
      exact sqrt_core_isNormal m e 61 hc.1 hc.2 (by norm_num) (by norm_num) hf.2.1 hf.2.2

/-- A sum of finite values that is normal has its exponent in the binary32 range. -/
theorem add_isFinite (a b : F32) (ha : a.isFinite = true) (hb : b.isFinite = true)
    (hr : (add a b).isNormal = true) : (add a b).isFinite = true := by
  cases a with
  | nan => simp [isFinite] at ha
  | inf s => simp [isFinite] at ha
  | fin sa ma ea =>
    cases b with
    | nan => simp [isFinite] at hb
    | inf s => simp [isFinite] at hb
    | fin sb mb eb =>
      simp only [isFinite, decide_eq_true_eq] at ha hb
      simp only [add] at hr ⊢
      have hta : ea - min ea eb ≤ 253 := by
        rcases min_choice ea eb with h | h <;> rw [h] <;> omega
      have htb : eb - min ea eb ≤ 253 := by
        rcases min_choice ea eb with h | h <;> rw [h] <;> omega
      have hza := scaled_natAbs_lt sa ma _ ha.1 hta
      have hzb := scaled_natAbs_lt sb mb _ hb.1 htb
      generalize scaled sa ma (ea - min ea eb) = za at hza hr ⊢
      generalize scaled sb mb (eb - min ea eb) = zb at hzb hr ⊢
      by_cases hz : za + zb = 0
      · rw [if_pos hz] at hr; simp [isNormal] at hr
      · rw [if_neg hz] at hr ⊢
        have hpos : 0 < (za + zb).natAbs := Int.natAbs_pos.mpr hz
        have hlt : (za + zb).natAbs < 2 ^ 4096 := by
          have h1 := Int.natAbs_add_le za zb
          have h2 : (2 : Nat) ^ 277 + 2 ^ 277 ≤ 2 ^ 4096 := by
            rw [← Nat.two_mul, ← Nat.pow_succ']
            exact Nat.pow_le_pow_right (by decide) (by decide)
          omega
        exact round_isFinite _ _ 1 _ hpos (by decide) hlt (Nat.one_lt_two_pow (by decide)) hr

end F32

/-- Up to 35 roundings change an absolute value by at most a factor of two. -/
theorem Within.abs_bounds {k : Nat} {x y L U : ℚ} (h : Within k x y) (hk : k ≤ 35)
    (hL : L ≤ |y|) (hU : |y| ≤ U) : L / 2 ≤ |x| ∧ |x| ≤ 2 * U := by
  obtain ⟨t, h1, h2, h3⟩ := h.mono hk
  have ht := Within.factor_pos h1
  have n1 : (1 : ℚ) / 2 ≤ (1 - 1 / 2 ^ 24) ^ 35 := by norm_num
  have hlo : 1 / 2 ≤ t := le_trans n1 h1
  have hhi : t ≤ 2 := by
    have hg := gamma_pow_pos 35
    have : t * (1 - 1 / 2 ^ 24) ^ 35 ≤ 2 * (1 - 1 / 2 ^ 24) ^ 35 := by linarith
    exact le_of_mul_le_mul_right this hg
  have hy := abs_nonneg y
  rw [h3, abs_mul, abs_of_pos ht]
  constructor
  · nlinarith
  · nlinarith

/-- Bounds on the absolute value of a product. -/
theorem abs_mul_bounds {x y L U L' U' : ℚ} (hL0' : 0 ≤ L')
    (hx : L ≤ |x| ∧ |x| ≤ U) (hy : L' ≤ |y| ∧ |y| ≤ U') :
    L * L' ≤ |x * y| ∧ |x * y| ≤ U * U' := by
  rw [abs_mul]
  exact ⟨mul_le_mul hx.1 hy.1 hL0' (abs_nonneg x),
    mul_le_mul hx.2 hy.2 (abs_nonneg y) (le_trans (abs_nonneg x) hx.2)⟩

/-- Bounds on the absolute value of a quotient. -/
theorem abs_div_bounds {x y L U L' U' : ℚ} (hL0 : 0 ≤ L) (hL0' : 0 < L')
    (hx : L ≤ |x| ∧ |x| ≤ U) (hy : L' ≤ |y| ∧ |y| ≤ U') :
    L / U' ≤ |x / y| ∧ |x / y| ≤ U / L' := by
  have hy0 : 0 < |y| := lt_of_lt_of_le hL0' hy.1
  have hU' : 0 < U' := lt_of_lt_of_le hy0 hy.2
  rw [abs_div]
  constructor
  · rw [div_le_div_iff₀ hU' hy0]
    calc L * |y| ≤ L * U' := mul_le_mul_of_nonneg_left hy.2 hL0
      _ ≤ |x| * U' := mul_le_mul_of_nonneg_right hx.1 (le_of_lt hU')
  · rw [div_le_div_iff₀ hy0 hL0']
    calc |x| * L' ≤ U * L' := mul_le_mul_of_nonneg_right hx.2 (le_of_lt hL0')
      _ ≤ U * |y| := mul_le_mul_of_nonneg_left hy.1 (le_trans (abs_nonneg x) hx.2)

namespace F32

/-- A finite binary32 is either equal to a grid point `n / 2^15` that is at least `2^8`,
or at least `2^-16` away from it. -/
theorem grid_gap (p : F32) (hp : p.isFinite = true) (n : Int) (hn : 2 ^ 23 ≤ n) :
    (n : ℚ) / 2 ^ 15 - toRat p = 0 ∨ 1 / 2 ^ 16 ≤ |(n : ℚ) / 2 ^ 15 - toRat p| := by
  cases p with
  | nan => simp [isFinite] at hp
  | inf s => simp [isFinite] at hp
  | fin s m e =>
    simp only [isFinite, decide_eq_true_eq] at hp
    have hnq : (2 : ℚ) ^ 23 ≤ (n : ℚ) := by exact_mod_cast hn
    by_cases he : -15 ≤ e
    · -- the value is on the grid
      have hz : ∃ z : Int, toRat (fin s m e) = (z : ℚ) / 2 ^ 15 := by
        refine ⟨(if s then -1 else 1) * ((m * 2 ^ (e + 15).toNat : Nat) : Int), ?_⟩
        have h2 : (2 : ℚ) ^ e = (2 : ℚ) ^ ((e + 15).toNat) / 2 ^ 15 := by
          rw [eq_div_iff (by norm_num), ← zpow_natCast, ← zpow_natCast,
            ← zpow_add₀ (by norm_num : (2 : ℚ) ≠ 0)]
          congr 1
          omega
        rw [toRat_fin, h2]
        cases s <;> simp [signRat] <;> ring
      obtain ⟨z, hz⟩ := hz
      rw [hz]
      by_cases heq : n = z
      · left; rw [heq]; ring
      · right
        have h1 : (1 : Int) ≤ |n - z| := Int.one_le_abs (sub_ne_zero.mpr heq)
        have h1q : (1 : ℚ) ≤ |((n - z : Int) : ℚ)| := by
          rw [← Int.cast_abs]; exact_mod_cast h1
        have : (n : ℚ) / 2 ^ 15 - (z : ℚ) / 2 ^ 15 = ((n - z : Int) : ℚ) / 2 ^ 15 := by
          push_cast; ring
        rw [this, abs_div, abs_of_pos (by norm_num : (0 : ℚ) < 2 ^ 15)]
        rw [le_div_iff₀ (by norm_num)]
        calc (1 : ℚ) / 2 ^ 16 * 2 ^ 15 ≤ 1 := by norm_num
          _ ≤ _ := h1q
    · -- the value is small
      right
      have he' : e ≤ -16 := by omega
      have hm : (m : ℚ) ≤ 2 ^ 24 - 1 := by
        have : m + 1 ≤ 2 ^ 24 := by omega
        have : ((m : ℚ)) + 1 ≤ 2 ^ 24 := by exact_mod_cast this
        linarith
      have hpe : (2 : ℚ) ^ e ≤ (2 : ℚ) ^ (-16 : Int) := zpow_le_zpow_right₀ (by norm_num) he'
      have hpe0 : (0 : ℚ) < (2 : ℚ) ^ e := zpow_pos (by norm_num) _
      have habs : |toRat (fin s m e)| ≤ (2 ^ 24 - 1) * (2 : ℚ) ^ (-16 : Int) := by
        rw [abs_toRat_fin]
        exact mul_le_mul hm hpe (le_of_lt hpe0) (by norm_num)
      have h3 := abs_sub_abs_le_abs_sub ((n : ℚ) / 2 ^ 15) (toRat (fin s m e))
      have h4 : (2 : ℚ) ^ 8 ≤ |(n : ℚ) / 2 ^ 15| := by
        rw [abs_of_nonneg (by positivity)]
        rw [le_div_iff₀ (by norm_num)]
        calc (2 : ℚ) ^ 8 * 2 ^ 15 = 2 ^ 23 := by norm_num
          _ ≤ _ := hnq
      have h5 : ((2 : ℚ) ^ 24 - 1) * (2 : ℚ) ^ (-16 : Int) = 2 ^ 8 - 1 / 2 ^ 16 := by norm_num
      rw [h5] at habs
      linarith

/-- A component of `direction` for a sun coordinate on the grid `n / 2^15`, between `2^8`
and `2^10`, and a finite planet coordinate of magnitude at most `2^20`: the difference is a
zero, or a normal number of magnitude between `2^-17` and `2^22`. -/
theorem direction_regular (S P : F32) (n : Int) (hn : 2 ^ 23 ≤ n) (hS : S.isFinite = true)
    (hSv : toRat S = (n : ℚ) / 2 ^ 15) (hSb : |toRat S| ≤ 2 ^ 10) (hP : P.isFinite = true)
    (hPb : |toRat P| ≤ 2 ^ 20) :
    (sub S P).isZero = true ∨
      ((sub S P).isNormal = true ∧ 1 / 2 ^ 17 ≤ |toRat (sub S P)| ∧
        |toRat (sub S P)| ≤ 2 ^ 22) := by
  have hgap := grid_gap P hP n hn
  rw [← hSv] at hgap
  have hup : |toRat S - toRat P| ≤ 2 ^ 21 := by
    calc |toRat S - toRat P| ≤ |toRat S| + |toRat P| := abs_sub _ _
      _ ≤ 2 ^ 10 + 2 ^ 20 := add_le_add hSb hPb
      _ ≤ 2 ^ 21 := by norm_num
  have hnP := neg_isFinite P hP
  have hsum : toRat S + toRat (neg P) = toRat S - toRat P := by rw [toRat_neg]; ring
  rcases add_isNormal_of_range S (neg P) hS hnP
    (by
      rw [hsum]
      rcases hgap with h | h
      · exact Or.inl h
      · exact Or.inr (le_trans (by norm_num) h))
    (by rw [hsum]; exact le_trans hup (by norm_num)) with ⟨_, hz⟩ | ⟨hne, hnorm⟩
  · exact Or.inl hz
  · right
    rw [hsum] at hne
    have hlo : 1 / 2 ^ 16 ≤ |toRat S - toRat P| := by
      rcases hgap with h | h
      · exact absurd h hne
      · exact h
    have hw := sub_step S P hS hP (Or.inl hnorm)
    obtain ⟨b1, b2⟩ := hw.abs_bounds (by norm_num) hlo hup
    exact ⟨hnorm, le_trans (by norm_num) b1, le_trans b2 (by norm_num)⟩

/-- The square of a component of `direction`: finite, not negative, and a zero or a normal
number between `2^-35` and `2^45`. -/
theorem square_regular (D : F32)
    (h : D.isZero = true ∨
      (D.isNormal = true ∧ 1 / 2 ^ 17 ≤ |toRat D| ∧ |toRat D| ≤ 2 ^ 22)) :
    (mul D D).isFinite = true ∧ (mul D D).isNonneg = true ∧ 0 ≤ toRat (mul D D) ∧
      toRat (mul D D) ≤ 2 ^ 45 ∧
      ((D.isZero = true ∧ (mul D D).isZero = true) ∨
        ((mul D D).isNormal = true ∧ 1 / 2 ^ 35 ≤ toRat (mul D D))) := by
  have hDz : D.isNormal = true ∨ D.isZero = true := by
    rcases h with h | h
    · exact Or.inr h
    · exact Or.inl h.1
  have hnan : D.isNaN = false := by
    obtain ⟨s, m, e, rfl, _, _⟩ := fin_of_normal_or_zero D hDz
    rfl
  have hnn := mul_self_isNonneg D hnan
  rcases h with h | ⟨h, b1, b2⟩
  · have hz := mul_isZero D D h hDz
    refine ⟨mul_self_isFinite D hDz (Or.inr h), hnn, ?_, ?_, Or.inl ⟨h, hz⟩⟩
    · rw [toRat_of_isZero _ hz]
    · rw [toRat_of_isZero _ hz]; norm_num
  · obtain ⟨c1, c2⟩ := abs_mul_bounds (by norm_num) ⟨b1, b2⟩ ⟨b1, b2⟩
    have hnorm := mul_isNormal_of_range D D h h (le_trans (by norm_num) c1)
      (le_trans c2 (by norm_num))
    obtain ⟨hw, _⟩ := mul_step D D hDz hDz (Or.inl hnorm)
    have h0 : 0 ≤ toRat (mul D D) := hw.nonneg (mul_self_nonneg _)
    obtain ⟨e1, e2⟩ := hw.abs_bounds (by norm_num) c1 c2
    rw [abs_of_nonneg h0] at e1 e2
    exact ⟨mul_self_isFinite D hDz (Or.inl hnorm), hnn, h0, le_trans e2 (by norm_num),
      Or.inr ⟨hnorm, le_trans (by norm_num) e1⟩⟩

/-- The sum of the two squares and its root: the flags of `forceRegular`, and the root is
a zero or a normal number, not negative and at most `2^24`. -/
theorem root_regular (xx yy : F32) (fx : xx.isFinite = true) (fy : yy.isFinite = true)
    (nx : xx.isNonneg = true) (ny : yy.isNonneg = true)
    (x0 : 0 ≤ toRat xx) (y0 : 0 ≤ toRat yy) (x1 : toRat xx ≤ 2 ^ 45) (y1 : toRat yy ≤ 2 ^ 45)
    (hx : xx.isZero = true ∨ (xx.isNormal = true ∧ 1 / 2 ^ 35 ≤ toRat xx))
    (hy : yy.isZero = true ∨ (yy.isNormal = true ∧ 1 / 2 ^ 35 ≤ toRat yy)) :
    ((add xx yy).isNormal = true ∨ (xx.isZero = true ∧ yy.isZero = true)) ∧
      ((sqrt (add xx yy)).isNormal = true ∨ (add xx yy).isZero = true) ∧
      ((sqrt (add xx yy)).isNormal = true ∨ (sqrt (add xx yy)).isZero = true) ∧
      0 ≤ toRat (sqrt (add xx yy)) ∧ toRat (sqrt (add xx yy)) ≤ 2 ^ 24 := by
  have hup : |toRat xx + toRat yy| ≤ 2 ^ 46 := by
    rw [abs_of_nonneg (add_nonneg x0 y0)]
    calc toRat xx + toRat yy ≤ 2 ^ 45 + 2 ^ 45 := add_le_add x1 y1
      _ = 2 ^ 46 := by norm_num
  by_cases hzz : xx.isZero = true ∧ yy.isZero = true
  · have hz := add_isZero xx yy hzz.1 hzz.2
    have hrz := sqrt_isZero _ hz
    refine ⟨Or.inr hzz, Or.inr hz, Or.inr hrz, ?_, ?_⟩
    · rw [toRat_of_isZero _ hrz]
    · rw [toRat_of_isZero _ hrz]; norm_num
  · have hlo : 1 / 2 ^ 35 ≤ |toRat xx + toRat yy| := by
      rw [abs_of_nonneg (add_nonneg x0 y0)]
      rcases hx with hx | hx
      · rcases hy with hy | hy
        · exact absurd ⟨hx, hy⟩ hzz
        · linarith [hy.2]
      · linarith [hx.2]
    rcases add_isNormal_of_range xx yy fx fy (Or.inr (le_trans (by norm_num) hlo))
      (le_trans hup (by norm_num)) with ⟨h0, _⟩ | ⟨_, hnorm⟩
    · rw [h0] at hlo
      norm_num at hlo
    · have hfin := add_isFinite xx yy fx fy hnorm
      have hnn := add_isNonneg xx yy nx ny
      have hroot := sqrt_isNormal _ hnorm hfin hnn
      obtain ⟨hw, _⟩ := add_step xx yy fx fy (Or.inl hnorm)
      obtain ⟨_, c2⟩ := hw.abs_bounds (by norm_num) hlo hup
      obtain ⟨hr, hρ⟩ := sqrt_model _ hnorm hroot
      obtain ⟨_, r2⟩ := hr.abs_bounds (by norm_num) (le_refl _) c2
      refine ⟨Or.inl hnorm, Or.inl hroot, Or.inl hroot, le_of_lt hρ, ?_⟩
      rw [abs_mul_self] at r2
      by_contra hgt
      have hgt := not_le.mp hgt
      have : (2 : ℚ) ^ 24 * 2 ^ 24 < toRat (sqrt (add xx yy)) * toRat (sqrt (add xx yy)) :=
        mul_lt_mul'' hgt hgt (by norm_num) (by norm_num)
      norm_num at this r2
      linarith

/-- The force `G * m * K / d^2` for a mass between `2^-10` and `2^40` and a clamped distance
between 40 and `2^24`: every intermediate result is a normal number, and the force is
between `2^-57` and `2^41`. -/
theorem force_regular (m d : F32) (hm : m.isNormal = true)
    (bm : 1 / 2 ^ 10 ≤ |toRat m| ∧ |toRat m| ≤ 2 ^ 40) (hd : d.isNormal = true)
    (bd : 40 ≤ |toRat d| ∧ |toRat d| ≤ 2 ^ 24) :
    (mul (lit 667430 10000000000) m).isNormal = true ∧
      (mul (mul (lit 667430 10000000000) m) (lit 1000000 1)).isNormal = true ∧
      (mul d d).isNormal = true ∧
      (div (mul (mul (lit 667430 10000000000) m) (lit 1000000 1)) (mul d d)).isNormal = true ∧
      1 / 2 ^ 57 ≤
        |toRat (div (mul (mul (lit 667430 10000000000) m) (lit 1000000 1)) (mul d d))| ∧
      |toRat (div (mul (mul (lit 667430 10000000000) m) (lit 1000000 1)) (mul d d))| ≤
        2 ^ 41 := by
  have hG : (lit 667430 10000000000).isNormal = true := by rw [constants.1]; rfl
  have hK : (lit 1000000 1).isNormal = true := by rw [constants.2]; rfl
  have bG : 1 / 2 ^ 14 ≤ |toRat (lit 667430 10000000000)| ∧
      |toRat (lit 667430 10000000000)| ≤ 1 / 2 ^ 13 := by
    rw [constants.1, abs_toRat_fin]
    constructor <;> norm_num
  have bK : 2 ^ 19 ≤ |toRat (lit 1000000 1)| ∧ |toRat (lit 1000000 1)| ≤ 2 ^ 20 := by
    rw [constants.2, abs_toRat_fin]
    constructor <;> norm_num
  -- G * m
  obtain ⟨a1, a2⟩ := abs_mul_bounds (by norm_num) bG bm
  have hgm := mul_isNormal_of_range _ m hG hm (le_trans (by norm_num) a1)
    (le_trans a2 (by norm_num))
  obtain ⟨wgm, _⟩ := mul_step _ m (Or.inl hG) (Or.inl hm) (Or.inl hgm)
  have bgm := wgm.abs_bounds (by norm_num) a1 a2
  -- G * m * K
  obtain ⟨c1, c2⟩ := abs_mul_bounds (by norm_num) bgm bK
  have hgmk := mul_isNormal_of_range _ _ hgm hK (le_trans (by norm_num) c1)
    (le_trans c2 (by norm_num))
  obtain ⟨wgmk, _⟩ := mul_step _ _ (Or.inl hgm) (Or.inl hK) (Or.inl hgmk)
  have bgmk := wgmk.abs_bounds (by norm_num) c1 c2
  -- d * d
  obtain ⟨e1, e2⟩ := abs_mul_bounds (by norm_num) bd bd
  have hdd := mul_isNormal_of_range d d hd hd (le_trans (by norm_num) e1)
    (le_trans e2 (by norm_num))
  obtain ⟨wdd, _⟩ := mul_step d d (Or.inl hd) (Or.inl hd) (Or.inl hdd)
  have bdd := wdd.abs_bounds (by norm_num) e1 e2
  -- the quotient
  obtain ⟨f1, f2⟩ := abs_div_bounds (by norm_num) (by norm_num) bgmk bdd
  have hf := div_isNormal_of_range _ _ hgmk hdd (le_trans (by norm_num) f1)
    (le_trans f2 (by norm_num))
  obtain ⟨wf, _⟩ := div_step _ _ (Or.inl hgmk) hdd (Or.inl hf)
  obtain ⟨g1, g2⟩ := wf.abs_bounds (by norm_num) f1 f2
  exact ⟨hgm, hgmk, hdd, hf, le_trans (by norm_num) g1, le_trans g2 (by norm_num)⟩

/-- A component of the normalised direction and of the result, for a component of
`direction` that is a zero or between `2^-17` and `2^22`, a clamped distance between 40 and
`2^24` and a force between `2^-57` and `2^41`: the flags of `forceRegular`. -/
theorem component_regular (D d f : F32)
    (hD : D.isZero = true ∨
      (D.isNormal = true ∧ 1 / 2 ^ 17 ≤ |toRat D| ∧ |toRat D| ≤ 2 ^ 22))
    (hd : d.isNormal = true) (bd : 40 ≤ |toRat d| ∧ |toRat d| ≤ 2 ^ 24)
    (hf : f.isNormal = true) (bf : 1 / 2 ^ 57 ≤ |toRat f| ∧ |toRat f| ≤ 2 ^ 41) :
    ((div D d).isNormal = true ∨ D.isZero = true) ∧
      ((mul (div D d) f).isNormal = true ∨ (div D d).isZero = true) := by
  rcases hD with hz | ⟨hn, bD⟩
  · exact ⟨Or.inr hz, Or.inr (div_isZero D d hz hd)⟩
  · obtain ⟨a1, a2⟩ := abs_div_bounds (by norm_num) (by norm_num) bD bd
    have hq := div_isNormal_of_range D d hn hd (le_trans (by norm_num) a1)
      (le_trans a2 (by norm_num))
    obtain ⟨wq, _⟩ := div_step D d (Or.inl hn) hd (Or.inl hq)
    have bq := wq.abs_bounds (by norm_num) a1 a2
    obtain ⟨c1, c2⟩ := abs_mul_bounds (by norm_num) bq bf
    have hr := mul_isNormal_of_range _ f hq hf (le_trans (by norm_num) c1)
      (le_trans c2 (by norm_num))
    exact ⟨Or.inl hq, Or.inl hr⟩

end F32

/-- With the documented sun (center (800, 450), radius 40), no operation of
`calculateGravity` overflows or underflows in binary32 for a planet whose position has
finite coordinates of magnitude at most `2^20` and whose mass is a normal number between
`2^-10` and `2^40`; positions inside the sun's radius and at its center are included. -/
theorem forceRegular_of_range (s : GravitySimulation F32) (p : Planet F32)
    (hS : s.sun.position = ⟨F32.lit 800 1, F32.lit 450 1⟩) (hR : s.sun.radius = F32.lit 40 1)
    (hPx : p.shape.position.x.isFinite = true) (hPy : p.shape.position.y.isFinite = true)
    (bPx : |p.shape.position.x.toRat| ≤ 2 ^ 20) (bPy : |p.shape.position.y.toRat| ≤ 2 ^ 20)
    (hm : p.mass.isNormal = true)
    (bm : 1 / 2 ^ 10 ≤ p.mass.toRat ∧ p.mass.toRat ≤ 2 ^ 40) :
    forceRegular s p = true := by
  have e800 : F32.lit 800 1 = F32.fin false 13107200 (-14) := by decide!
  have e450 : F32.lit 450 1 = F32.fin false 14745600 (-15) := by decide!
  have e40 : F32.lit 40 1 = F32.fin false 10485760 (-18) := by decide!
  have hSx : s.sun.position.x = F32.fin false 13107200 (-14) := by rw [hS, e800]
  have hSy : s.sun.position.y = F32.fin false 14745600 (-15) := by rw [hS, e450]
  have hRv : s.sun.radius = F32.fin false 10485760 (-18) := by rw [hR, e40]
  have fSx : s.sun.position.x.isFinite = true := by rw [hSx]; rfl
  have fSy : s.sun.position.y.isFinite = true := by rw [hSy]; rfl
  have hRn : s.sun.radius.isNormal = true := by rw [hRv]; rfl
  have hRs : s.sun.radius.isNonneg = true := by rw [hRv]; rfl
  have vR : s.sun.radius.toRat = 40 := by rw [hRv]; norm_num [F32.toRat]
  have hm0 : 0 < p.mass.toRat := lt_of_lt_of_le (by norm_num) bm.1
  have hms : p.mass.isNonneg = true := by
    obtain ⟨sm, mm, em, hpm, _, _⟩ := F32.fin_of_normal_or_zero p.mass (Or.inl hm)
    rw [hpm] at hm0 ⊢
    cases sm
    · rfl
    · exfalso
      have hq : (0 : ℚ) ≤ (mm : ℚ) * (2 : ℚ) ^ em :=
        mul_nonneg (Nat.cast_nonneg mm) (le_of_lt (zpow_pos (by norm_num) em))
      rw [F32.toRat_fin] at hm0
      simp only [F32.signRat, if_true] at hm0
      linarith
  have bm' : 1 / 2 ^ 10 ≤ |p.mass.toRat| ∧ |p.mass.toRat| ≤ 2 ^ 40 := by
    rw [abs_of_pos hm0]; exact bm
  -- the direction and its squares
  have dX := F32.direction_regular s.sun.position.x p.shape.position.x 26214400 (by norm_num)
    fSx (by rw [hSx]; norm_num [F32.toRat]) (by rw [hSx, F32.abs_toRat_fin]; norm_num) hPx bPx
  have dY := F32.direction_regular s.sun.position.y p.shape.position.y 14745600 (by norm_num)
    fSy (by rw [hSy]; norm_num [F32.toRat]) (by rw [hSy, F32.abs_toRat_fin]; norm_num) hPy bPy
  obtain ⟨fx, nx, x0, x1, hx⟩ := F32.square_regular _ dX
  obtain ⟨fy, ny, y0, y1, hy⟩ := F32.square_regular _ dY
  obtain ⟨gsum, groot, zroot, r0, r1⟩ := F32.root_regular _ _ fx fy nx ny x0 y0 x1 y1
    (hx.imp (fun h => h.2) id) (hy.imp (fun h => h.2) id)
  -- the clamped distance
  obtain ⟨vd, hd⟩ := F32.clamp_step _ s.sun.radius zroot r0 hRn hRs
  have bd : 40 ≤ |(clampedDistance F32.arith s p).toRat| ∧
      |(clampedDistance F32.arith s p).toRat| ≤ 2 ^ 24 := by
    have hv : (clampedDistance F32.arith s p).toRat = _ := vd
    rw [hv, vR]
    have h40 : (40 : ℚ) ≤ max _ 40 := le_max_right
      (F32.toRat (F32.sqrt (F32.add
        (F32.mul (F32.sub s.sun.position.x p.shape.position.x)
          (F32.sub s.sun.position.x p.shape.position.x))
        (F32.mul (F32.sub s.sun.position.y p.shape.position.y)
          (F32.sub s.sun.position.y p.shape.position.y))))) 40
    rw [abs_of_nonneg (le_trans (by norm_num) h40)]
    exact ⟨h40, max_le r1 (by norm_num)⟩
  have hd' : (clampedDistance F32.arith s p).isNormal = true := hd
  -- the force and the components
  obtain ⟨hgm, hgmk, hdd, hf, f1, f2⟩ := F32.force_regular p.mass _ hm bm' hd' bd
  obtain ⟨cx1, cx2⟩ := F32.component_regular _ _ _ dX hd' bd hf ⟨f1, f2⟩
  obtain ⟨cy1, cy2⟩ := F32.component_regular _ _ _ dY hd' bd hf ⟨f1, f2⟩
  simp only [forceRegular, Bool.and_eq_true, Bool.or_eq_true]
  exact ⟨⟨⟨⟨⟨⟨⟨⟨⟨⟨⟨⟨⟨⟨⟨⟨⟨⟨⟨⟨⟨fSx, fSy⟩, hPx⟩, hPy⟩, hRn⟩, hRs⟩, hm⟩, hms⟩,
    dX.symm.imp (fun h => h.1) id⟩, dY.symm.imp (fun h => h.1) id⟩,
    hx.symm.imp (fun h => h.1) (fun h => h.1)⟩, hy.symm.imp (fun h => h.1) (fun h => h.1)⟩,
    gsum⟩, groot⟩, hgm⟩, hgmk⟩, hdd⟩, hf⟩, cx1⟩, cy1⟩, cx2⟩, cy2⟩

section Ordered

variable {F : Type} [LinearOrderedField F]

/-- The constant `G` is positive in exact arithmetic. -/
theorem G_pos (sqrt : F → F) : 0 < G (orderedArith sqrt) := by
  simp only [G, orderedArith, fieldArith]
  positivity

/-- The shape of `calculateGravity` in exact arithmetic. -/
theorem calculateGravity_exact (sqrt : F → F) (s : GravitySimulation F) (p : Planet F) :
    calculateGravity (orderedArith sqrt) s p =
      ⟨(s.sun.position.x - p.shape.position.x) / clampedDistance (orderedArith sqrt) s p *
          (G (orderedArith sqrt) * p.mass * 1000000 /
            (clampedDistance (orderedArith sqrt) s p *
              clampedDistance (orderedArith sqrt) s p)),
        (s.sun.position.y - p.shape.position.y) / clampedDistance (orderedArith sqrt) s p *
          (G (orderedArith sqrt) * p.mass * 1000000 /
            (clampedDistance (orderedArith sqrt) s p *
              clampedDistance (orderedArith sqrt) s p))⟩ := by
  simp [calculateGravity, clampedDistance, orderedArith, fieldArith, Vec2.scale, Vec2.divide,
    Vec2.sub, CircleShape.getPosition, CircleShape.getRadius]

/-- The clamped distance in exact arithmetic. -/
theorem clampedDistance_exact (sqrt : F → F) (s : GravitySimulation F) (p : Planet F) :
    clampedDistance (orderedArith sqrt) s p =
      if sqrt (Vec2.sub (orderedArith sqrt) s.sun.position p.shape.position).normSq < s.sun.radius
      then s.sun.radius
      else sqrt (Vec2.sub (orderedArith sqrt) s.sun.position p.shape.position).normSq := by
  simp [clampedDistance, orderedArith, fieldArith, Vec2.sub, Vec2.normSq,
    CircleShape.getPosition, CircleShape.getRadius]

/-- In exact arithmetic (an ordered field, with a square root that is exact at `|D|^2`)
the clamp bounds the force: the magnitude of the vector `calculateGravity` returns is at
most `G * m * K / R^2`, it is `G * m * K / |D|^2` when `|D|` is at least `R`, and the
vector is a positive multiple of `D = S - P`. -/
theorem force_bounded_field (sqrt : F → F) (s : GravitySimulation F) (p : Planet F)
    (hR : 0 < s.sun.radius) (hm : 0 < p.mass)
    (hsqrt : 0 ≤ sqrt (Vec2.sub (orderedArith sqrt) s.sun.position p.shape.position).normSq ∧
      sqrt (Vec2.sub (orderedArith sqrt) s.sun.position p.shape.position).normSq *
        sqrt (Vec2.sub (orderedArith sqrt) s.sun.position p.shape.position).normSq =
      (Vec2.sub (orderedArith sqrt) s.sun.position p.shape.position).normSq)
    (mag : F) (hmag : 0 ≤ mag)
    (hmag2 : mag * mag = (calculateGravity (orderedArith sqrt) s p).normSq) :
    mag ≤ G (orderedArith sqrt) * p.mass * 1000000 / (s.sun.radius * s.sun.radius) ∧
    (s.sun.radius ≤ sqrt (Vec2.sub (orderedArith sqrt) s.sun.position p.shape.position).normSq →
      mag = G (orderedArith sqrt) * p.mass * 1000000 /
        (Vec2.sub (orderedArith sqrt) s.sun.position p.shape.position).normSq) ∧
    ∃ c : F, 0 < c ∧ calculateGravity (orderedArith sqrt) s p =
      Vec2.scale (orderedArith sqrt)
        (Vec2.sub (orderedArith sqrt) s.sun.position p.shape.position) c := by
  have hG := G_pos (F := F) sqrt
  have hcg := calculateGravity_exact sqrt s p
  have hcd := clampedDistance_exact sqrt s p
  generalize G (orderedArith sqrt) = g at hG hcg ⊢
  generalize clampedDistance (orderedArith sqrt) s p = d at hcg hcd
  have hx : (Vec2.sub (orderedArith sqrt) s.sun.position p.shape.position).normSq =
      (s.sun.position.x - p.shape.position.x) * (s.sun.position.x - p.shape.position.x) +
      (s.sun.position.y - p.shape.position.y) * (s.sun.position.y - p.shape.position.y) := rfl
  generalize (Vec2.sub (orderedArith sqrt) s.sun.position p.shape.position).normSq = x
    at hsqrt hcd hx ⊢
  obtain ⟨hr0, hrr⟩ := hsqrt
  generalize sqrt x = r at hr0 hrr hcd
  -- facts about the clamped distance
  have hRd : s.sun.radius ≤ d := by
    rw [hcd]; split
    · exact le_refl _
    · rename_i h; exact not_lt.mp h
  have hrd : r ≤ d := by
    rw [hcd]; split
    · rename_i h; exact le_of_lt h
    · exact le_refl _
  have hd : 0 < d := lt_of_lt_of_le hR hRd
  have hxd : x ≤ d * d := by
    rw [← hrr]; exact mul_le_mul hrd hrd hr0 (le_of_lt hd)
  have hk : 0 < g * p.mass * 1000000 := by positivity
  have hf : 0 < g * p.mass * 1000000 / (d * d) := by positivity
  have hx0 : 0 ≤ x := by rw [← hrr]; exact mul_nonneg hr0 hr0
  -- the squared magnitude
  have hn : mag * mag = x / (d * d) *
      ((g * p.mass * 1000000 / (d * d)) * (g * p.mass * 1000000 / (d * d))) := by
    rw [hmag2, hcg, hx]
    simp only [Vec2.normSq]
    field_simp
    ring
  refine ⟨?_, ?_, ?_⟩
  · have h1 : mag * mag ≤
        (g * p.mass * 1000000 / (d * d)) * (g * p.mass * 1000000 / (d * d)) := by
      rw [hn]
      have : x / (d * d) ≤ 1 := by
        rw [div_le_one (by positivity)]; exact hxd
      calc x / (d * d) * ((g * p.mass * 1000000 / (d * d)) * (g * p.mass * 1000000 / (d * d)))
          ≤ 1 * ((g * p.mass * 1000000 / (d * d)) * (g * p.mass * 1000000 / (d * d))) :=
            mul_le_mul_of_nonneg_right this (by positivity)
        _ = _ := one_mul _
    have h2 : mag ≤ g * p.mass * 1000000 / (d * d) := by
      by_contra hlt
      have hlt := not_le.mp hlt
      have := mul_lt_mul'' hlt hlt (le_of_lt hf) (le_of_lt hf)
      exact absurd h1 (not_le.mpr this)
    have h3 : g * p.mass * 1000000 / (d * d) ≤
        g * p.mass * 1000000 / (s.sun.radius * s.sun.radius) := by
      apply div_le_div_of_nonneg_left (le_of_lt hk) (by positivity)
      exact mul_le_mul hRd hRd (le_of_lt hR) (le_of_lt hd)
    exact le_trans h2 h3
  · intro hRr
    have hdr : d = r := by
      rw [hcd]; exact if_neg (not_lt.mpr hRr)
    have hxx : x = d * d := by rw [hdr, hrr]
    have hone : x / (d * d) = 1 := by rw [hxx]; exact div_self (by positivity)
    rw [hone, one_mul] at hn
    rw [hxx]
    rcases mul_self_eq_mul_self_iff.mp hn with h | h
    · exact h
    · exfalso
      have : mag < 0 := by rw [h]; exact neg_neg_of_pos hf
      exact absurd hmag (not_le.mpr this)
  · refine ⟨g * p.mass * 1000000 / (d * d) / d, by positivity, ?_⟩
    rw [hcg]
    simp only [Vec2.scale, Vec2.sub, orderedArith, fieldArith, Vec2.mk.injEq]
    constructor <;> ring

end Ordered


/-- The rational square root of 100 is 10. -/
theorem ratSqrt_100 : ratSqrt 100 = 10 := by
  have h : F32.isqrt 100 = 10 := by decide!
  have h1 : F32.isqrt 1 = 1 := by decide!
  simp [ratSqrt, h, h1]

/-- The squared distance from the sun of the rational planet at (810, 450), inside the
sun's radius. -/
theorem exact_normSq :
    (Vec2.sub (orderedArith ratSqrt) (exactWorld 1000).sun.position
      (exactPlanetAt 810 450).shape.position).normSq = 100 := by
  norm_num [Vec2.sub, Vec2.normSq, orderedArith, fieldArith, exactWorld, exactSun,
    exactPlanetAt, Planet.new, CircleShape.setPosition, CircleShape.setFillColor,
    CircleShape.setOrigin, CircleShape.setRadius, CircleShape.default]

/-- The force on the rational planet of mass 1000 at (810, 450): the distance 10 is clamped
to 40. -/
theorem exact_force :
    calculateGravity (orderedArith ratSqrt) (exactWorld 1000) (exactPlanetAt 810 450) =
      ⟨-(66743 / 6400), 0⟩ := by
  rw [calculateGravity_exact, clampedDistance_exact, exact_normSq, ratSqrt_100]
  norm_num [exactWorld, exactSun, exactPlanetAt, Planet.new, G, orderedArith, fieldArith,
    CircleShape.setPosition, CircleShape.setFillColor, CircleShape.setOrigin,
    CircleShape.setRadius, CircleShape.default]

/-- The exact values of the binary32 test sun: radius 40 at (800, 450). -/
theorem testSun_toRat :
    (testWorld []).sun.radius.toRat = 40 ∧
      (testWorld []).sun.position.toRat = ⟨800, 450⟩ := by
  have h1 : (testWorld []).sun.radius = F32.fin false 10485760 (-18) := by decide!
  have h2 : (testWorld []).sun.position =
      ⟨F32.fin false 13107200 (-14), F32.fin false 14745600 (-15)⟩ := by decide!
  rw [h1, h2]
  constructor
  · norm_num [F32.toRat]
  · simp only [Vec2.toRat, Vec2.mk.injEq]
    constructor <;> norm_num [F32.toRat]

/-- The exact position of the binary32 test planet at (1050, 500). -/
theorem testPlanet_toRat : (testPlanet 1000 1050 50).shape.position.toRat = ⟨1050, 500⟩ := by
  have h : (testPlanet 1000 1050 50).shape.position =
      ⟨F32.fin false 8601600 (-13), F32.fin false 16384000 (-15)⟩ := by decide!
  rw [h]
  simp only [Vec2.toRat, Vec2.mk.injEq]
  constructor <;> norm_num [F32.toRat]

/-- The binary32 test planet of mass 1000 at (824, 482) is in the range of
`forceRegular_of_range`. -/
theorem testPlanet_range :
    |(testPlanet 1000 824 32).shape.position.x.toRat| ≤ 2 ^ 20 ∧
      |(testPlanet 1000 824 32).shape.position.y.toRat| ≤ 2 ^ 20 ∧
      1 / 2 ^ 10 ≤ (testPlanet 1000 824 32).mass.toRat ∧
      (testPlanet 1000 824 32).mass.toRat ≤ 2 ^ 40 := by
  have h : (testPlanet 1000 824 32).shape.position =
      ⟨F32.fin false 13500416 (-14), F32.fin false 15794176 (-15)⟩ := by decide!
  have hm : (testPlanet 1000 824 32).mass = F32.fin false 16384000 (-14) := by decide!
  rw [h, hm]
  refine ⟨?_, ?_, ?_, ?_⟩ <;> norm_num [F32.toRat]

/-- Claim C10, as amended.  The clamp bounds the force, exactly in exact arithmetic and up
to rounding in binary32.

In exact arithmetic (an ordered field, with a square root that is exact at `|D|^2`): for
every sun of radius `R > 0`, every planet position and every mass `m > 0`, the magnitude
of the vector `calculateGravity` returns is at most `G * m * K / R^2`; when the planet's
distance `|D|` from the sun is at least `R`, the magnitude is exactly `G * m * K / |D|^2`;
and the vector is a positive multiple of `D = S - P`, so it points from the planet toward
the sun.

In binary32, for every sun, planet position and mass for which no operation of
`calculateGravity` overflows or underflows (`forceRegular`), the returned vector is finite
and, with the exact values of the binary32 inputs and result: its magnitude is at most
`(1 + 2^-20) * G * m * K / R^2`; when the exact Euclidean distance `|D|` of the planet from
the sun is at least `R`, the magnitude is `G * m * K / |D|^2` up to a relative `2^-19`; and
each component of the vector is the matching component of `D = S - P` times a common
positive factor, up to a relative `2^-21`, so the vector points from the planet toward the
sun.  Magnitudes are compared by their squares.

No operation overflows or underflows with the documented sun (center (800, 450), radius
40) for every planet position with finite coordinates of magnitude at most `2^20`,
positions inside the sun's radius and at its center included, and every mass that is a
normal number between `2^-10` and `2^40`. -/
theorem force_bounded :
    (∀ (F : Type) [LinearOrderedField F] (sqrt : F → F) (s : GravitySimulation F)
      (p : Planet F), 0 < s.sun.radius → 0 < p.mass →
      (0 ≤ sqrt (Vec2.sub (orderedArith sqrt) s.sun.position p.shape.position).normSq ∧
        sqrt (Vec2.sub (orderedArith sqrt) s.sun.position p.shape.position).normSq *
          sqrt (Vec2.sub (orderedArith sqrt) s.sun.position p.shape.position).normSq =
        (Vec2.sub (orderedArith sqrt) s.sun.position p.shape.position).normSq) →
      ∀ mag : F, 0 ≤ mag →
        mag * mag = (calculateGravity (orderedArith sqrt) s p).normSq →
        mag ≤ G (orderedArith sqrt) * p.mass * 1000000 / (s.sun.radius * s.sun.radius) ∧
        (s.sun.radius ≤
            sqrt (Vec2.sub (orderedArith sqrt) s.sun.position p.shape.position).normSq →
          mag = G (orderedArith sqrt) * p.mass * 1000000 /
            (Vec2.sub (orderedArith sqrt) s.sun.position p.shape.position).normSq) ∧
        ∃ c : F, 0 < c ∧ calculateGravity (orderedArith sqrt) s p =
          Vec2.scale (orderedArith sqrt)
            (Vec2.sub (orderedArith sqrt) s.sun.position p.shape.position) c) ∧
    (∀ (s : GravitySimulation F32) (p : Planet F32), forceRegular s p = true →
      ((calculateGravity F32.arith s p).x.isFinite = true ∧
        (calculateGravity F32.arith s p).y.isFinite = true) ∧
      (calculateGravity F32.arith s p).toRat.normSq ≤
          ((1 + 1 / 2 ^ 20) * ((G F32.arith).toRat * p.mass.toRat * 1000000 /
            (s.sun.radius.toRat * s.sun.radius.toRat))) ^ 2 ∧
      (s.sun.radius.toRat * s.sun.radius.toRat ≤
          (Vec2.sub exactArith s.sun.position.toRat p.shape.position.toRat).normSq →
        ((1 - 1 / 2 ^ 19) * ((G F32.arith).toRat * p.mass.toRat * 1000000 /
            (Vec2.sub exactArith s.sun.position.toRat p.shape.position.toRat).normSq)) ^ 2 ≤
          (calculateGravity F32.arith s p).toRat.normSq ∧
        (calculateGravity F32.arith s p).toRat.normSq ≤
          ((1 + 1 / 2 ^ 19) * ((G F32.arith).toRat * p.mass.toRat * 1000000 /
            (Vec2.sub exactArith s.sun.position.toRat p.shape.position.toRat).normSq)) ^ 2) ∧
      ∃ c : ℚ, 0 < c ∧
        |(calculateGravity F32.arith s p).x.toRat -
            c * (s.sun.position.x.toRat - p.shape.position.x.toRat)| ≤
          1 / 2 ^ 21 * |c * (s.sun.position.x.toRat - p.shape.position.x.toRat)| ∧
        |(calculateGravity F32.arith s p).y.toRat -
            c * (s.sun.position.y.toRat - p.shape.position.y.toRat)| ≤
          1 / 2 ^ 21 * |c * (s.sun.position.y.toRat - p.shape.position.y.toRat)|) ∧
    (∀ (s : GravitySimulation F32) (p : Planet F32),
      s.sun.position = ⟨F32.lit 800 1, F32.lit 450 1⟩ → s.sun.radius = F32.lit 40 1 →
      p.shape.position.x.isFinite = true → p.shape.position.y.isFinite = true →
      |p.shape.position.x.toRat| ≤ 2 ^ 20 → |p.shape.position.y.toRat| ≤ 2 ^ 20 →
      p.mass.isNormal = true → 1 / 2 ^ 10 ≤ p.mass.toRat → p.mass.toRat ≤ 2 ^ 40 →
      forceRegular s p = true) := by
  refine ⟨?_, ?_, ?_⟩
  · intro F _ sqrt s p hR hm hsqrt mag hmag hmag2
    exact force_bounded_field sqrt s p hR hm hsqrt mag hmag hmag2
  · intro s p h
    exact force_bounded_binary32 s p h
  · intro s p hS hR hPx hPy bPx bPy hm bm1 bm2
    exact forceRegular_of_range s p hS hR hPx hPy bPx bPy hm ⟨bm1, bm2⟩

/-- A use of claim C10 as amended, at inputs where the clamp is active and at one where it
is not.  Over the rationals, for the planet of mass 1000 at (810, 450), at distance 10
inside the radius 40, the force is (-66743/6400, 0) and its magnitude 66743/6400 is at most
`G * m * K / R^2`.  In binary32, the planet of mass 1000 at (824, 482), at distance 40, is
in the stated range, so no operation overflows or underflows, and its squared force, which
exceeds the square of the exact bound, is at most the square of
`(1 + 2^-20) * G * m * K / R^2`; the same bound holds at the sun's center (800, 450); and
for the planet at (1050, 500), outside the radius, the squared magnitude is the square of
`G * m * K / |D|^2` up to a relative `2^-19`. -/
theorem force_bounded_witness :
    ((66743 / 6400 : ℚ) ≤ G exactArith * 1000 * 1000000 / (40 * 40) ∧
      calculateGravity exactArith (exactWorld 1000) (exactPlanetAt 810 450) =
        ⟨-(66743 / 6400), 0⟩) ∧
    (forceRegular (testWorld []) (testPlanet 1000 824 32) = true ∧
      (calculateGravity F32.arith (testWorld []) (testPlanet 1000 824 32)).toRat.normSq ≤
        ((1 + 1 / 2 ^ 20) * ((G F32.arith).toRat * (testPlanet 1000 824 32).mass.toRat *
          1000000 /
          ((testWorld []).sun.radius.toRat * (testWorld []).sun.radius.toRat))) ^ 2) ∧
    (forceRegular (testWorld []) (testPlanet 1000 800 0) = true ∧
      (calculateGravity F32.arith (testWorld []) (testPlanet 1000 800 0)).toRat.normSq ≤
        ((1 + 1 / 2 ^ 20) * ((G F32.arith).toRat * (testPlanet 1000 800 0).mass.toRat *
          1000000 /
          ((testWorld []).sun.radius.toRat * (testWorld []).sun.radius.toRat))) ^ 2) ∧
    (forceRegular (testWorld []) (testPlanet 1000 1050 50) = true ∧
      ((1 - 1 / 2 ^ 19) * ((G F32.arith).toRat * (testPlanet 1000 1050 50).mass.toRat *
          1000000 / (Vec2.sub exactArith (testWorld []).sun.position.toRat
            (testPlanet 1000 1050 50).shape.position.toRat).normSq)) ^ 2 ≤
        (calculateGravity F32.arith (testWorld []) (testPlanet 1000 1050 50)).toRat.normSq ∧
      (calculateGravity F32.arith (testWorld []) (testPlanet 1000 1050 50)).toRat.normSq ≤
        ((1 + 1 / 2 ^ 19) * ((G F32.arith).toRat * (testPlanet 1000 1050 50).mass.toRat *
          1000000 / (Vec2.sub exactArith (testWorld []).sun.position.toRat
            (testPlanet 1000 1050 50).shape.position.toRat).normSq)) ^ 2) :=
  ⟨⟨(force_bounded.1 ℚ ratSqrt (exactWorld 1000) (exactPlanetAt 810 450)
      (by norm_num [exactWorld, exactSun])
      (by norm_num [exactPlanetAt, Planet.new])
      (by rw [exact_normSq, ratSqrt_100]; norm_num)
      (66743 / 6400) (by norm_num)
      (by rw [exact_force]; norm_num [Vec2.normSq])).1, exact_force⟩,
    ⟨force_bounded.2.2 (testWorld []) (testPlanet 1000 824 32) rfl rfl (by decide!)
        (by decide!) testPlanet_range.1 testPlanet_range.2.1 (by decide!)
        testPlanet_range.2.2.1 testPlanet_range.2.2.2,
      (force_bounded.2.1 (testWorld []) (testPlanet 1000 824 32)
        (force_bounded.2.2 (testWorld []) (testPlanet 1000 824 32) rfl rfl (by decide!)
          (by decide!) testPlanet_range.1 testPlanet_range.2.1 (by decide!)
          testPlanet_range.2.2.1 testPlanet_range.2.2.2)).2.1⟩,
    ⟨by decide!,
      (force_bounded.2.1 (testWorld []) (testPlanet 1000 800 0) (by decide!)).2.1⟩,
    ⟨by decide!,
      (force_bounded.2.1 (testWorld []) (testPlanet 1000 1050 50) (by decide!)).2.2.1
      (by rw [testSun_toRat.1, testSun_toRat.2, testPlanet_toRat]
          norm_num [Vec2.sub, Vec2.normSq, exactArith, orderedArith, fieldArith])⟩⟩
/-! ### The application loop -/

section Loop

variable {F : Type}

/-- The event loop calls `window.close()` once for every `Closed` event, and nothing else. -/
theorem pollEvents_trace (evs : List Event) (s : GravitySimulation F) :
    (pollEvents evs s).2 = List.replicate (evs.count Event.closed) Action.close := by
  induction evs generalizing s with
  | nil => rfl
  | cons e evs ih =>
    cases e with
    | closed => simp [pollEvents, ih, List.replicate_succ]
    | other => simp [pollEvents, ih]

/-- After the event loop the window is closed exactly when a `Closed` event was polled. -/
theorem pollEvents_state (evs : List Event) (s : GravitySimulation F) :
    (pollEvents evs s).1 =
      if evs.count Event.closed = 0 then s else { s with isOpen := false } := by
  induction evs generalizing s with
  | nil => rfl
  | cons e evs ih =>
    cases e with
    | closed =>
      simp only [pollEvents, ih, List.count_cons_self, Nat.add_one_ne_zero, if_false]
      split <;> rfl
    | other => simp [pollEvents, ih]

/-- On a closed window `run` does nothing. -/
theorem run_closed (A : Arith F) (frames : List (List Event)) (s : GravitySimulation F)
    (h : s.isOpen = false) : run A frames s = (s, []) := by
  cases frames with
  | nil => rfl
  | cons evs rest => simp [run, h]

/-- The rest of an iteration performs one `update`, `n + 5` draw calls for `n` planets,
and no `window.close()`. -/
theorem renderFrame_counts (A : Arith F) (s : GravitySimulation F) :
    (renderFrame A s).2.countP Action.isUpdate = 1 ∧
      (renderFrame A s).2.countP Action.isDraw = s.planets.length + 5 ∧
      (renderFrame A s).2.all (fun a => !a.isClose) = true := by
  refine ⟨?_, ?_, ?_⟩
  · simp [renderFrame, List.countP_cons, List.countP_append, Action.isUpdate, List.countP_map,
      Function.comp, List.countP_eq_zero]
  · simp [renderFrame, List.countP_cons, List.countP_append, Action.isDraw, List.countP_map,
      Function.comp, update_eq]
  · simp [renderFrame, Action.isClose]

/-- Actions before the first `window.close()` do not count as after it. -/
theorem afterFirstClose_append_of_all (t u : List (Action F))
    (h : t.all (fun a => !a.isClose) = true) : afterFirstClose (t ++ u) = afterFirstClose u := by
  induction t with
  | nil => rfl
  | cons a t ih =>
    simp only [List.all_cons, Bool.and_eq_true] at h
    simp only [afterFirstClose, List.cons_append, List.dropWhile_cons, h.1, if_true]
    exact ih h.2

/-- Claim C6, as amended: in `run`, once a window-close request has been polled (and
`window.close()` called), the loop finishes the iteration it is in and starts no other:
after the first close, exactly one more physics step `update()` and exactly one more frame
of draw calls (clear, grid, rings, sun, every planet, display) are performed, and the loop
has left. -/
theorem run_after_close (A : Arith F) (frames : List (List Event)) (s : GravitySimulation F)
    (hopen : s.isOpen = true) (hclose : (run A frames s).2.any Action.isClose = true) :
    (afterFirstClose (run A frames s).2).countP Action.isUpdate = 1 ∧
      (afterFirstClose (run A frames s).2).countP Action.isDraw = s.planets.length + 5 ∧
      (run A frames s).1.isOpen = false := by
  induction frames generalizing s with
  | nil => simp [run] at hclose
  | cons evs rest ih =>
    have hc := renderFrame_counts A
    by_cases hk : evs.count Event.closed = 0
    · -- no close request in this iteration: the loop goes on
      have hs : (pollEvents evs s).1 = s := by rw [pollEvents_state, if_pos hk]
      have ht : (pollEvents evs s).2 = ([] : List (Action F)) := by
        rw [pollEvents_trace, hk]; rfl
      have hrun : run A (evs :: rest) s =
          ((run A rest (update A s)).1, (renderFrame A s).2 ++ (run A rest (update A s)).2) := by
        simp only [run, hopen, if_true, hs, ht, List.nil_append]
        rfl
      rw [hrun] at hclose ⊢
      simp only
      rw [afterFirstClose_append_of_all _ _ (hc s).2.2]
      have hclose' : (run A rest (update A s)).2.any Action.isClose = true := by
        simp only [List.any_append, Bool.or_eq_true] at hclose
        rcases hclose with h | h
        · exfalso
          have hall := (hc s).2.2
          rw [List.any_eq_true] at h
          obtain ⟨a, ha, hac⟩ := h
          rw [List.all_eq_true] at hall
          have := hall a ha
          simp [hac] at this
        · exact h
      have := ih (update A s) (by rw [update_eq]; exact hopen) hclose'
      simpa [update_eq] using this
    · -- a close request: the rest of this iteration runs, then the loop leaves
      obtain ⟨k, hk'⟩ := Nat.exists_eq_succ_of_ne_zero hk
      have hs : (pollEvents evs s).1 = { s with isOpen := false } := by
        rw [pollEvents_state, if_neg hk]
      have ht : (pollEvents evs s).2 =
          (Action.close :: List.replicate k Action.close : List (Action F)) := by
        rw [pollEvents_trace, hk', List.replicate_succ]
      have hrun : run A (evs :: rest) s =
          (update A { s with isOpen := false },
            Action.close :: (List.replicate k Action.close ++
              (renderFrame A { s with isOpen := false }).2)) := by
        simp only [run, hopen, if_true, hs, ht]
        rw [run_closed A rest _ (by simp [renderFrame, update_eq])]
        simp [renderFrame]
      rw [hrun]
      have hafter : afterFirstClose (Action.close :: (List.replicate k Action.close ++
              (renderFrame A { s with isOpen := false }).2)) =
            List.replicate k Action.close ++ (renderFrame A { s with isOpen := false }).2 := by
        simp [afterFirstClose, Action.isClose]
      simp only [hafter, List.countP_append]
      have h1 : (List.replicate k (Action.close : Action F)).countP Action.isUpdate = 0 := by
        simp [List.countP_eq_zero, Action.isUpdate]
      have h2 : (List.replicate k (Action.close : Action F)).countP Action.isDraw = 0 := by
        simp [List.countP_eq_zero, Action.isDraw]
      rw [h1, h2, (hc _).1, (hc _).2.1]
      simp [update_eq]

end Loop

/-- A use of claim C6 as amended: the close request arrives in the second iteration. -/
theorem run_after_close_witness :
    (afterFirstClose (run F32.arith [[Event.other], [Event.closed, Event.other], []]
        (GravitySimulation.new F32.arith)).2).countP Action.isUpdate = 1 ∧
      (afterFirstClose (run F32.arith [[Event.other], [Event.closed, Event.other], []]
        (GravitySimulation.new F32.arith)).2).countP Action.isDraw = 3 + 5 ∧
      (run F32.arith [[Event.other], [Event.closed, Event.other], []]
        (GravitySimulation.new F32.arith)).1.isOpen = false :=
  run_after_close F32.arith [[Event.other], [Event.closed, Event.other], []]
    (GravitySimulation.new F32.arith) rfl (by decide!)

/-- Claim C6 fails: when the close request is polled in the first iteration of `run`, the
loop still performs, after `window.close()`, one physics step and one full frame of draw
calls (clear, grid, rings, sun, three planets, display), and the planets have moved. -/
theorem update_and_draw_after_close :
    (main F32.arith [[Event.closed]]).2.map (fun a => (a.isClose, a.isUpdate, a.isDraw)) =
        [(true, false, false), (false, false, true), (false, false, true), (false, false, true),
          (false, false, true), (false, true, false), (false, false, true),
          (false, false, true), (false, false, true), (false, false, true)] ∧
      (afterFirstClose (main F32.arith [[Event.closed]]).2).any Action.isUpdate = true ∧
      (afterFirstClose (main F32.arith [[Event.closed]]).2).any Action.isDraw = true ∧
      (main F32.arith [[Event.closed]]).1.planets =
        (update F32.arith (GravitySimulation.new F32.arith)).planets ∧
      (main F32.arith [[Event.closed]]).1.planets ≠
        (GravitySimulation.new F32.arith).planets := by
  decide!

end GravitySim
